import Mathlib

/-!
# dwgrep: value comparison and stack-shuffle operators

A shallow embedding of

* the `cmp` and `show` members of the value classes of
  `libzwerg/value-dw.cc`,
* the `next` members of `op_drop`, `op_swap`, `op_dup`, `op_over` and the
  registration of the builtins of `builtin-shf.cc`,
* the registry of value types of `value.cc`, and
* the syntax tree, its parsing and its stack-effect analysis as the spec and
  the tests of `test-parser.cc` describe them,

together with the properties proved about them.

Conventions of the embedding.

* A C++ pointer or reference that is only compared by address is a `Nat`
  (the address).
* `Dwarf_Off`, `Dwarf_Addr`, `Dwarf_Word`, `size_t` are `Nat`; no arithmetic
  is done on them here, only `<`.
* The class hierarchy below `value` is the sum type `value`; the checked
  downcast `value::as <T>` is a match on the constructor and the virtual
  call `a.cmp (b)` is `value.cmp a b`.
* A member function that can leave the defined behaviour of the C++
  program (an index past the end, a pop from an empty valfile) returns
  `Option`, with `none` for that case.
-/

set_option autoImplicit false

namespace dwgrep

/-! ## `cmp_result` and `compare` -/

/-- The result of `value::cmp`. -/
inductive cmp_result where
  | less
  | equal
  | greater
  | fail
  deriving DecidableEq, Repr

/-- Modelled from the spec: the template `compare` of `value.hh` is not among
the sources.  The spec says that compare yields one of less, equal, greater;
the template is instantiated with the `operator<` of the argument type, here
passed as `lt`. -/
def compare {α : Type} (lt : α → α → Bool) (a b : α) : cmp_result :=
  if lt a b then cmp_result.less
  else if lt b a then cmp_result.greater
  else cmp_result.equal

/-- The `operator<` of integers and of addresses. -/
def lt_nat (a b : Nat) : Bool := decide (a < b)

/-- The `operator<` of `std::tuple <A, B, C>`: lexicographic. -/
def lt_tuple3 (a b : Nat × Nat × Nat) : Bool :=
  lt_nat a.1 b.1
    || (!lt_nat b.1 a.1
        && (lt_nat a.2.1 b.2.1
            || (!lt_nat b.2.1 a.2.1 && lt_nat a.2.2 b.2.2)))

/-- The `operator<` of `std::tuple <A, B, C, D>`: lexicographic. -/
def lt_tuple4 (a b : Nat × Nat × Nat × Nat) : Bool :=
  lt_nat a.1 b.1 || (!lt_nat b.1 a.1 && lt_tuple3 a.2 b.2)

/-! ## The library types the values wrap -/

/-- Whether a Dwarf value is presented raw or cooked. -/
inductive doneness where
  | raw
  | cooked
  deriving DecidableEq, Repr

/-- The shared context behind `m_dwctx`; `get_dwfl` is its `Dwfl *`. -/
structure dwfl_context where
  get_dwfl : Nat
  deriving DecidableEq, Repr

/-- A `Dwarf_CU`; `dbg` is the `Dwarf *` that `dwarf_cu_getdwarf` returns. -/
structure Dwarf_CU where
  dbg : Nat
  deriving DecidableEq, Repr

/-- A `Dwarf_Die`; `offset` is what `dwarf_dieoffset` returns. -/
structure Dwarf_Die where
  cu : Dwarf_CU
  offset : Nat
  deriving DecidableEq, Repr

/-- A `Dwarf_Attribute`; `code` is what `dwarf_whatattr` returns, `form` what
`dwarf_whatform` returns, `valp` the pointer to the attribute data. -/
structure Dwarf_Attribute where
  code : Nat
  form : Nat
  valp : Nat
  deriving DecidableEq, Repr

/-- A `Dwarf_Op`, one instruction of a location expression. -/
structure Dwarf_Op where
  atom : Nat
  number : Nat
  number2 : Nat
  offset : Nat
  deriving DecidableEq, Repr

/-- One range of a coverage (`cov`). -/
structure cov_range where
  start : Nat
  length : Nat
  deriving DecidableEq, Repr

def dwarf_cu_getdwarf (cu : Dwarf_CU) : Nat := cu.dbg

def dwarf_dieoffset (die : Dwarf_Die) : Nat := die.offset

def dwarf_whatattr (attr : Dwarf_Attribute) : Nat := attr.code

/-! ## The value classes of `value-dw.cc` -/

/-- `value_dwarf`: an opened Dwarf file. -/
structure value_dwarf where
  m_pos : Nat
  m_doneness : doneness
  m_fn : String
  m_dwctx : dwfl_context
  deriving DecidableEq, Repr

/-- `value_cu`: `m_cu` is the address of the referenced `Dwarf_CU`. -/
structure value_cu where
  m_pos : Nat
  m_dwctx : dwfl_context
  m_cu : Nat
  m_offset : Nat
  deriving DecidableEq, Repr

/-- `value_die`: `m_import` is the `std::shared_ptr <value_die>` of the import
path, `none` for `nullptr`. -/
inductive value_die where
  | mk (m_pos : Nat) (m_doneness : doneness) (m_dwctx : dwfl_context)
      (m_die : Dwarf_Die) (m_import : Option value_die)

namespace value_die

def m_pos : value_die → Nat
  | mk p _ _ _ _ => p

def m_doneness : value_die → doneness
  | mk _ d _ _ _ => d

def m_dwctx : value_die → dwfl_context
  | mk _ _ c _ _ => c

def m_die : value_die → Dwarf_Die
  | mk _ _ _ d _ => d

def m_import : value_die → Option value_die
  | mk _ _ _ _ i => i

/-- `doneness_aspect::is_raw`. -/
def is_raw (v : value_die) : Bool := decide (v.m_doneness = doneness.raw)

end value_die

/-- `value_attr`: an attribute together with the DIE that owns it. -/
structure value_attr where
  m_pos : Nat
  m_doneness : doneness
  m_dwctx : dwfl_context
  m_die : Dwarf_Die
  m_attr : Dwarf_Attribute
  deriving DecidableEq, Repr

/-- `value_abbrev_unit`: `m_cu` is the address of the referenced
`Dwarf_CU`. -/
structure value_abbrev_unit where
  m_pos : Nat
  m_dwctx : dwfl_context
  m_cu : Nat
  deriving DecidableEq, Repr

/-- `value_abbrev`: `m_abbrev` is the address of the referenced
`Dwarf_Abbrev`. -/
structure value_abbrev where
  m_pos : Nat
  m_dwctx : dwfl_context
  m_abbrev : Nat
  deriving DecidableEq, Repr

/-- `value_abbrev_attr`. -/
structure value_abbrev_attr where
  m_pos : Nat
  name : Nat
  form : Nat
  offset : Nat
  deriving DecidableEq, Repr

/-- `value_loclist_elem`: `m_expr` is the block of `m_exprlen` instructions
that the pointer `m_expr` of the class points to. -/
structure value_loclist_elem where
  m_pos : Nat
  m_dwctx : dwfl_context
  m_attr : Dwarf_Attribute
  m_low : Nat
  m_high : Nat
  m_expr : List Dwarf_Op
  deriving DecidableEq, Repr

/-- The member `m_exprlen`: the number of instructions at `m_expr`. -/
def value_loclist_elem.m_exprlen (v : value_loclist_elem) : Nat :=
  v.m_expr.length

/-- `value_aset`: `cov` is the vector of ranges of the coverage. -/
structure value_aset where
  m_pos : Nat
  cov : List cov_range
  deriving DecidableEq, Repr

/-- `value_loclist_op`: `m_dwop` is the instruction the pointer refers to. -/
structure value_loclist_op where
  m_pos : Nat
  m_dwctx : dwfl_context
  m_attr : Dwarf_Attribute
  m_dwop : Dwarf_Op
  deriving DecidableEq, Repr

/-- The base class `value`, as the sum of the classes of `value-dw.cc`. -/
inductive value where
  | dwarf (v : value_dwarf)
  | cu (v : value_cu)
  | die (v : value_die)
  | attr (v : value_attr)
  | abbrev_unit (v : value_abbrev_unit)
  | abbrev (v : value_abbrev)
  | abbrev_attr (v : value_abbrev_attr)
  | loclist_elem (v : value_loclist_elem)
  | aset (v : value_aset)
  | loclist_op (v : value_loclist_op)

/-- The names under which the classes allocate their `vtype`. -/
def value.vtype_name : value → String
  | value.dwarf _ => "T_DWARF"
  | value.cu _ => "T_CU"
  | value.die _ => "T_DIE"
  | value.attr _ => "T_ATTR"
  | value.abbrev_unit _ => "T_ABBREV_UNIT"
  | value.abbrev _ => "T_ABBREV"
  | value.abbrev_attr _ => "T_ABBREV_ATTR"
  | value.loclist_elem _ => "T_LOCLIST_ELEM"
  | value.aset _ => "T_ASET"
  | value.loclist_op _ => "T_LOCLIST_OP"

/-! ### `value::as <T>` -/

def value.as_dwarf : value → Option value_dwarf
  | value.dwarf v => some v
  | _ => none

def value.as_cu : value → Option value_cu
  | value.cu v => some v
  | _ => none

def value.as_die : value → Option value_die
  | value.die v => some v
  | _ => none

def value.as_attr : value → Option value_attr
  | value.attr v => some v
  | _ => none

def value.as_abbrev_unit : value → Option value_abbrev_unit
  | value.abbrev_unit v => some v
  | _ => none

def value.as_abbrev : value → Option value_abbrev
  | value.abbrev v => some v
  | _ => none

def value.as_abbrev_attr : value → Option value_abbrev_attr
  | value.abbrev_attr v => some v
  | _ => none

def value.as_loclist_elem : value → Option value_loclist_elem
  | value.loclist_elem v => some v
  | _ => none

def value.as_aset : value → Option value_aset
  | value.aset v => some v
  | _ => none

def value.as_loclist_op : value → Option value_loclist_op
  | value.loclist_op v => some v
  | _ => none

/-! ## `cmp` -/

/-- `value_dwarf::cmp`. -/
def value_dwarf.cmp (self : value_dwarf) (that : value) : Option cmp_result :=
  match that.as_dwarf with
  | some v => some (compare lt_nat self.m_dwctx.get_dwfl v.m_dwctx.get_dwfl)
  | none => some cmp_result.fail

/-- `value_cu::cmp`. -/
def value_cu.cmp (self : value_cu) (that : value) : Option cmp_result :=
  match that.as_cu with
  | some v => some (compare lt_nat self.m_cu v.m_cu)
  | none => some cmp_result.fail

/-- The branch of `value_die::cmp` taken when `that` is a `value_die`.  The
call `m_import->cmp (*v->m_import)` passes a `value_die`, so it comes back to
this branch; the last case stands for the two assertions. -/
def value_die.cmp_die : value_die → value_die → Option cmp_result
  | value_die.mk p1 d1 c1 die1 imp1, value_die.mk p2 d2 c2 die2 imp2 =>
    let ret := compare lt_nat (dwarf_cu_getdwarf die1.cu)
      (dwarf_cu_getdwarf die2.cu)
    if ret ≠ cmp_result.equal then some ret
    else
      let ret := compare lt_nat (dwarf_dieoffset die1) (dwarf_dieoffset die2)
      if ret ≠ cmp_result.equal then some ret
      else if (value_die.mk p1 d1 c1 die1 imp1).is_raw || imp1.isNone
          || (value_die.mk p2 d2 c2 die2 imp2).is_raw || imp2.isNone then
        some ret
      else
        match imp1, imp2 with
        | some i1, some i2 => value_die.cmp_die i1 i2
        | _, _ => none

/-- `value_die::cmp`. -/
def value_die.cmp (self : value_die) (that : value) : Option cmp_result :=
  match that.as_die with
  | some v => self.cmp_die v
  | none => some cmp_result.fail

/-- `value_attr::cmp`. -/
def value_attr.cmp (self : value_attr) (that : value) : Option cmp_result :=
  match that.as_attr with
  | some v =>
    let a := dwarf_dieoffset self.m_die
    let b := dwarf_dieoffset v.m_die
    if a ≠ b then some (compare lt_nat a b)
    else some (compare lt_nat (dwarf_whatattr self.m_attr)
      (dwarf_whatattr v.m_attr))
  | none => some cmp_result.fail

/-- `value_abbrev_unit::cmp`. -/
def value_abbrev_unit.cmp (self : value_abbrev_unit) (that : value) :
    Option cmp_result :=
  match that.as_abbrev_unit with
  | some v => some (compare lt_nat self.m_cu v.m_cu)
  | none => some cmp_result.fail

/-- `value_abbrev::cmp`. -/
def value_abbrev.cmp (self : value_abbrev) (that : value) :
    Option cmp_result :=
  match that.as_abbrev with
  | some v => some (compare lt_nat self.m_abbrev v.m_abbrev)
  | none => some cmp_result.fail

/-- `value_abbrev_attr::cmp`. -/
def value_abbrev_attr.cmp (self : value_abbrev_attr) (that : value) :
    Option cmp_result :=
  match that.as_abbrev_attr with
  | some v => some (compare lt_nat self.offset v.offset)
  | none => some cmp_result.fail

/-- The loop `for (size_t i = 0; i < m_exprlen; ++i)` of
`value_loclist_elem::cmp`, at index `i` with `k = m_exprlen - i` rounds to
go; `none` when `m_expr + i` or `v->m_expr + i` is past the end. -/
def value_loclist_elem.cmp_loop (m_expr v_m_expr : List Dwarf_Op) :
    Nat → Nat → Option cmp_result
  | 0, _ => some cmp_result.equal
  | k + 1, i =>
    match m_expr[i]?, v_m_expr[i]? with
    | some a, some b =>
      let r := compare lt_tuple4 (a.atom, a.number, a.number2, a.offset)
        (b.atom, b.number, b.number2, b.offset)
      if r ≠ cmp_result.equal then some r
      else value_loclist_elem.cmp_loop m_expr v_m_expr k (i + 1)
    | _, _ => none

/-- `value_loclist_elem::cmp`. -/
def value_loclist_elem.cmp (self : value_loclist_elem) (that : value) :
    Option cmp_result :=
  match that.as_loclist_elem with
  | some v =>
    let ret := compare lt_nat self.m_attr.valp v.m_attr.valp
    if ret ≠ cmp_result.equal then some ret
    else
      let r := compare lt_tuple3 (self.m_low, self.m_high, self.m_exprlen)
        (v.m_low, v.m_high, v.m_exprlen)
      if r ≠ cmp_result.equal then some r
      else value_loclist_elem.cmp_loop self.m_expr v.m_expr self.m_exprlen 0
  | none => some cmp_result.fail

/-- The loop `for (size_t i = 0; i < cov.size (); ++i)` of `value_aset::cmp`,
at index `i` with `k = cov.size () - i` rounds to go; `none` when `at (i)`
is out of range. -/
def value_aset.cmp_loop (cov cov2 : List cov_range) :
    Nat → Nat → Option cmp_result
  | 0, _ => some cmp_result.equal
  | k + 1, i =>
    match cov[i]?, cov2[i]? with
    | some a, some b =>
      let ret := compare lt_nat a.start b.start
      if ret ≠ cmp_result.equal then some ret
      else
        let ret := compare lt_nat a.length b.length
        if ret ≠ cmp_result.equal then some ret
        else value_aset.cmp_loop cov cov2 k (i + 1)
    | _, _ => none

/-- `value_aset::cmp`. -/
def value_aset.cmp (self : value_aset) (that : value) : Option cmp_result :=
  match that.as_aset with
  | some v =>
    let cov2 := v.cov
    let ret := compare lt_nat self.cov.length cov2.length
    if ret ≠ cmp_result.equal then some ret
    else value_aset.cmp_loop self.cov cov2 self.cov.length 0
  | none => some cmp_result.fail

/-- `value_loclist_op::cmp`. -/
def value_loclist_op.cmp (self : value_loclist_op) (that : value) :
    Option cmp_result :=
  match that.as_loclist_op with
  | some v =>
    let ret := compare lt_nat self.m_attr.valp v.m_attr.valp
    if ret ≠ cmp_result.equal then some ret
    else some (compare lt_nat self.m_dwop.offset v.m_dwop.offset)
  | none => some cmp_result.fail

/-- The virtual call `a.cmp (b)`. -/
def value.cmp : value → value → Option cmp_result
  | value.dwarf a, that => a.cmp that
  | value.cu a, that => a.cmp that
  | value.die a, that => a.cmp that
  | value.attr a, that => a.cmp that
  | value.abbrev_unit a, that => a.cmp that
  | value.abbrev a, that => a.cmp that
  | value.abbrev_attr a, that => a.cmp that
  | value.loclist_elem a, that => a.cmp that
  | value.aset a, that => a.cmp that
  | value.loclist_op a, that => a.cmp that

/-- The virtual call `a.clone ()`: every class of `value-dw.cc` returns
`std::make_unique <T> (*this)`, a copy of the object. -/
def value.clone : value → value
  | value.dwarf a => value.dwarf a
  | value.cu a => value.cu a
  | value.die a => value.die a
  | value.attr a => value.attr a
  | value.abbrev_unit a => value.abbrev_unit a
  | value.abbrev a => value.abbrev a
  | value.abbrev_attr a => value.abbrev_attr a
  | value.loclist_elem a => value.loclist_elem a
  | value.aset a => value.aset a
  | value.loclist_op a => value.loclist_op a

/-! ## The valfile -/

/-- Modelled from the spec: `valfile.hh` is not among the sources.  The spec
describes the valfile as an ordered indexed array of owned values that grows
and shrinks via top-of-stack push and pop; slot `0` is the bottom of the
stack and the last slot is its top. -/
structure valfile where
  m_values : List value

/-- Modelled from the spec: `valfile::size` is not among the sources; the
depth of the stack. -/
def valfile.size (vf : valfile) : Nat := vf.m_values.length

/-- Modelled from the spec: `valfile::push` is not among the sources; the
array grows by one slot on top. -/
def valfile.push (vf : valfile) (v : value) : valfile :=
  { m_values := vf.m_values ++ [v] }

/-- Modelled from the spec: `valfile::pop` is not among the sources; the
array shrinks by its top slot, whose value is returned.  `none` on an empty
valfile. -/
def valfile.pop (vf : valfile) : Option (value × valfile) :=
  match vf.m_values.getLast? with
  | some v => some (v, { m_values := vf.m_values.dropLast })
  | none => none

/-- Modelled from the spec: `valfile::top` is not among the sources; the
value in the top slot.  `none` on an empty valfile. -/
def valfile.top (vf : valfile) : Option value :=
  vf.m_values.getLast?

/-- Modelled from the spec: `valfile::below` is not among the sources; the
value in the slot under the top one.  `none` when the depth is less than
two. -/
def valfile.below (vf : valfile) : Option value :=
  vf.m_values.dropLast.getLast?

/-- The type `valfile::uptr`; `none` is `nullptr`, the sentinel of an
exhausted operator. -/
abbrev valfile.uptr : Type := Option valfile

/-! ## Operators -/

/-- Class `op`: `next` is a step on the state `σ` of the pipeline above and
including the operator.  The outer `none` is a call that left the defined
behaviour of the program. -/
structure op (σ : Type) where
  next : σ → Option (valfile.uptr × σ)

/-- `op_drop::next`. -/
def op_drop.next {σ : Type} (m_upstream : op σ) (s : σ) :
    Option (valfile.uptr × σ) :=
  match m_upstream.next s with
  | none => none
  | some (some vf, s) =>
    match vf.pop with
    | none => none
    | some (_, vf) => some (some vf, s)
  | some (none, s) => some (none, s)

/-- `op_swap::next`. -/
def op_swap.next {σ : Type} (m_upstream : op σ) (s : σ) :
    Option (valfile.uptr × σ) :=
  match m_upstream.next s with
  | none => none
  | some (some vf, s) =>
    match vf.pop with
    | none => none
    | some (a, vf) =>
      match vf.pop with
      | none => none
      | some (b, vf) =>
        let vf := vf.push a
        let vf := vf.push b
        some (some vf, s)
  | some (none, s) => some (none, s)

/-- `op_dup::next`. -/
def op_dup.next {σ : Type} (m_upstream : op σ) (s : σ) :
    Option (valfile.uptr × σ) :=
  match m_upstream.next s with
  | none => none
  | some (some vf, s) =>
    match vf.top with
    | none => none
    | some v => some (some (vf.push v.clone), s)
  | some (none, s) => some (none, s)

/-- `op_over::next`. -/
def op_over.next {σ : Type} (m_upstream : op σ) (s : σ) :
    Option (valfile.uptr × σ) :=
  match m_upstream.next s with
  | none => none
  | some (some vf, s) =>
    match vf.below with
    | none => none
    | some v => some (some (vf.push v.clone), s)
  | some (none, s) => some (none, s)

/-- The operator built by `builtin_drop_obj.build_exec`. -/
def op_drop {σ : Type} (upstream : op σ) : op σ :=
  { next := op_drop.next upstream }

/-- The operator built by `builtin_swap_obj.build_exec`. -/
def op_swap {σ : Type} (upstream : op σ) : op σ :=
  { next := op_swap.next upstream }

/-- The operator built by `builtin_dup_obj.build_exec`. -/
def op_dup {σ : Type} (upstream : op σ) : op σ :=
  { next := op_dup.next upstream }

/-- The operator built by `builtin_over_obj.build_exec`. -/
def op_over {σ : Type} (upstream : op σ) : op σ :=
  { next := op_over.next upstream }

/-! ## Notions used to state the properties -/

/-- The results of `n` successive calls of `next`, in call order, and the
state they leave. -/
def op.calls {σ : Type} (o : op σ) : Nat → σ → Option (List valfile.uptr × σ)
  | 0, s => some ([], s)
  | n + 1, s =>
    match o.next s with
    | none => none
    | some (r, s) =>
      match o.calls n s with
      | none => none
      | some (rs, t) => some (r :: rs, t)

/-- An upstream that hands out the valfiles of a list, front first, and is
exhausted from then on. -/
def op_of_list : op (List valfile) :=
  { next := fun s =>
      match s with
      | [] => some (none, [])
      | vf :: rest => some (some vf, rest) }

/-- An upstream keeps returning exhausted once it has done so. -/
def op.stays_exhausted {σ : Type} (o : op σ) : Prop :=
  ∀ s t, o.next s = some (none, t) → ∃ t1, o.next t = some (none, t1)

/-- The shape the four shuffles share: pull one valfile from upstream and
pass it through `g`. -/
def next_through {σ : Type} (g : valfile → Option valfile) (upstream : op σ)
    (s : σ) : Option (valfile.uptr × σ) :=
  match upstream.next s with
  | none => none
  | some (some vf, t) =>
    match g vf with
    | none => none
    | some out => some (some out, t)
  | some (none, t) => some (none, t)

/-- The result `o` answers the upstream item `i` under the operator `X`:
exhausted for exhausted, and for a valfile what `X` returns over an upstream
that hands out just this valfile. -/
def answers (X : (σ : Type) → op σ → op σ) (i o : valfile.uptr) : Prop :=
  match i with
  | none => o = none
  | some vf =>
    ∃ out, o = some out ∧ (X _ op_of_list).next [vf] = some (some out, [])

/-- The operator `X` pulls one item from upstream in every call and answers
it; `depth` is the depth the operator needs in a valfile.

* `next` returns exhausted exactly when the upstream call did, and leaves
  the state the one upstream call left;
* once `next` has returned exhausted over an upstream that stays exhausted,
  every later call returns exhausted;
* `n` calls that return answer, in order, the items of `n` upstream calls;
* `n` upstream calls, of valfiles deep enough, are answered by `n` calls. -/
def one_out_per_item (X : (σ : Type) → op σ → op σ) (depth : Nat) : Prop :=
  ∀ (σ : Type) (upstream : op σ),
    (∀ s t, (X σ upstream).next s = some (none, t)
      ↔ upstream.next s = some (none, t))
    ∧ (∀ s o t, (X σ upstream).next s = some (o, t) →
      ∃ i, upstream.next s = some (i, t) ∧ answers X i o)
    ∧ (upstream.stays_exhausted →
      ∀ s t, (X σ upstream).next s = some (none, t) →
      ∀ n, ∃ t1, (X σ upstream).calls n t
        = some (List.replicate n none, t1))
    ∧ (∀ n s outs t, (X σ upstream).calls n s = some (outs, t) →
      ∃ ins, upstream.calls n s = some (ins, t)
        ∧ List.Forall₂ (answers X) ins outs)
    ∧ (∀ n s ins t, upstream.calls n s = some (ins, t) →
      (∀ vf, some vf ∈ ins → depth ≤ vf.size) →
      ∃ outs, (X σ upstream).calls n s = some (outs, t)
        ∧ List.Forall₂ (answers X) ins outs)

/-! ## Sample values -/

/-- A DIE at offset `o` of the Dwarf at address `1`, on its own. -/
def sample_die (d : doneness) (o : Nat) (imp : Option value_die) : value_die :=
  value_die.mk 0 d { get_dwfl := 1 } { cu := { dbg := 1 }, offset := o } imp

/-- A cooked DIE at offset `5`, reached through the import at offset `1`. -/
def die_via_1 : value_die :=
  sample_die doneness.cooked 5 (some (sample_die doneness.cooked 1 none))

/-- A cooked DIE at offset `5`, reached through the import at offset `2`. -/
def die_via_2 : value_die :=
  sample_die doneness.cooked 5 (some (sample_die doneness.cooked 2 none))

/-- The raw DIE at offset `5`, without import path. -/
def die_raw_5 : value_die := sample_die doneness.raw 5 none

/-- Two abbreviation attributes at the same offset, of different names. -/
def abbrev_attr_name_1 : value_abbrev_attr :=
  { m_pos := 0, name := 1, form := 1, offset := 0 }

def abbrev_attr_name_2 : value_abbrev_attr :=
  { m_pos := 0, name := 2, form := 1, offset := 0 }


/-- Two address sets of two ranges each, differing in the length of the
second range. -/
def aset_short : value_aset :=
  { m_pos := 0, cov := [{ start := 16, length := 23 }, { start := 64, length := 4 }] }

def aset_long : value_aset :=
  { m_pos := 0, cov := [{ start := 16, length := 23 }, { start := 64, length := 8 }] }

/-- A valfile of three slots: a CU at the bottom, a DIE, an address set on
top. -/
def sample_valfile : valfile :=
  { m_values :=
      [value.cu { m_pos := 0, m_dwctx := { get_dwfl := 1 }, m_cu := 7,
                  m_offset := 11 },
       value.die die_via_1,
       value.aset aset_short] }

/-! ## Output streams -/

/-- The format flags of a `std::ostream` that the sources set: the base
(`std::hex`, decimal otherwise) and `std::showbase`. -/
structure fmtflags where
  hex : Bool
  showbase : Bool
  deriving DecidableEq, Repr

/-- The format flags of a stream nobody has touched: decimal, no base
shown. -/
def fmtflags.initial : fmtflags := { hex := false, showbase := false }

/-- A `std::ostream`: what has been written to it, and its format flags. -/
structure ostream where
  buf : String
  flags : fmtflags
  deriving DecidableEq, Repr

/-- The text `operator<<` writes for an unsigned integer: in base sixteen
with lower-case digits under `std::hex`, where `std::showbase` puts `0x` in
front of every value but zero; in base ten otherwise. -/
def fmt_unsigned (f : fmtflags) (n : Nat) : String :=
  if f.hex then
    (if f.showbase && n != 0 then "0x" else "") ++ String.mk (Nat.toDigits 16 n)
  else String.mk (Nat.toDigits 10 n)

/-- `o << s` for a character or a string. -/
def ostream.put (o : ostream) (s : String) : ostream :=
  { o with buf := o.buf ++ s }

/-- `o << n` for an unsigned integer. -/
def ostream.put_unsigned (o : ostream) (n : Nat) : ostream :=
  { o with buf := o.buf ++ fmt_unsigned o.flags n }

/-- `o << std::hex`. -/
def ostream.set_hex (o : ostream) : ostream :=
  { o with flags := { o.flags with hex := true } }

/-- `o << std::showbase`. -/
def ostream.set_showbase (o : ostream) : ostream :=
  { o with flags := { o.flags with showbase := true } }

/-- Modelled from the spec: `flag_saver.hh` is not among the sources and the
spec does not describe it; by its name and its use an `ios_flag_saver` keeps
the format flags the stream has when the saver is made and puts them back at
the end of its scope.  This is that end of scope, `saved` being the flags the
saver kept. -/
def ostream.restore (o : ostream) (saved : fmtflags) : ostream :=
  { o with flags := saved }

/-- The argument `brevity` of `show`. -/
inductive brevity where
  | full
  | brief
  deriving DecidableEq, Repr

/-! ## The registry of value types (`value.cc`) -/

/-- `value_type`: the 8-bit code `m_code`. -/
structure value_type where
  m_code : Nat
  deriving DecidableEq, Repr

/-- The vector of code and name behind `get_vtype_names`. -/
abbrev vtype_names : Type := List (Nat × String)

/-- `find_vtype_name`; `none` is `nullptr`. -/
def find_vtype_name (vtn : vtype_names) (code : Nat) : Option String :=
  match vtn.find? (fun v => v.1 == code) with
  | none => none
  | some v => some v.2

/-- `value_type::register_name`; the error is the failed assertion. -/
def value_type.register_name (vtn : vtype_names) (code : Nat) (name : String) :
    Except String vtype_names :=
  if find_vtype_name vtn code = none then
    Except.ok (vtn ++ [(code, name)])
  else Except.error "assert (find_vtype_name (code) == nullptr)"

/-- `value_type::name`; the error is the failed assertion. -/
def value_type.name (vtn : vtype_names) (self : value_type) :
    Except String String :=
  match find_vtype_name vtn self.m_code with
  | some ret => Except.ok ret
  | none => Except.error "assert (ret != nullptr)"

/-- Successive calls of `register_name`, in list order. -/
def register_names (vtn : vtype_names) : List (Nat × String) →
    Except String vtype_names
  | [] => Except.ok vtn
  | (code, name) :: rest =>
    match value_type.register_name vtn code name with
    | Except.error e => Except.error e
    | Except.ok vtn1 => register_names vtn1 rest

/-- The statics of `value.cc`: the counter `last` of `value_type::alloc` and
the vector of names. -/
structure vtype_statics where
  last : Nat
  names : vtype_names
  deriving DecidableEq, Repr

/-- The statics when the program starts. -/
def vtype_statics.initial : vtype_statics := { last := 0, names := [] }

/-- Modelled from the spec: the constructor `value_type (code, name)` of
`value.hh` is not among the sources.  The spec says that a registry maps
each variant to a unique small-integer tag and a display name; the
constructor keeps the code and registers the name under it. -/
def value_type.construct (vtn : vtype_names) (code : Nat) (name : String) :
    Except String (value_type × vtype_names) :=
  match value_type.register_name vtn code name with
  | Except.error e => Except.error e
  | Except.ok vtn1 => Except.ok ({ m_code := code }, vtn1)

/-- `value_type::alloc`: `++last` on the 8-bit counter, then the
construction of the value type, then the test for the wrap to zero; the
error `Ran out of value type identifiers.` is `std::terminate`. -/
def value_type.alloc (st : vtype_statics) (name : String) :
    Except String (value_type × vtype_statics) :=
  let last := (st.last + 1) % 256
  match value_type.construct st.names last name with
  | Except.error e => Except.error e
  | Except.ok (vt, names) =>
    if last = 0 then Except.error "Ran out of value type identifiers."
    else Except.ok (vt, { last := last, names := names })

/-- Successive calls of `value_type::alloc`, in list order, with the value
types they return. -/
def alloc_all (st : vtype_statics) : List String →
    Except String (List value_type × vtype_statics)
  | [] => Except.ok ([], st)
  | name :: rest =>
    match value_type.alloc st name with
    | Except.error e => Except.error e
    | Except.ok (vt, st1) =>
      match alloc_all st1 rest with
      | Except.error e => Except.error e
      | Except.ok (vts, st2) => Except.ok (vt :: vts, st2)

/-- The domains of constants that the sources name.  Only the `show` of
`slot_type_dom` is in `value.cc`. -/
inductive constant_dom where
  | slot_type_dom
  | dw_tag_dom
  | dw_attr_dom
  | dw_form_dom
  | dw_offset_dom
  | dw_locexpr_opcode_dom
  deriving DecidableEq, Repr

/-- Modelled from the spec: `constant.hh` is not among the sources.  The spec
describes a constant as a wide integer with an associated domain. -/
structure constant where
  m_value : Int
  m_dom : constant_dom
  deriving DecidableEq, Repr

/-- The `show` of `slot_type_dom_obj`.  The conversion
`uint64_t ui = v.m_value` is the value modulo `2 ^ 64`; `&name[k]` is the name
from its character `k` on; the errors are the failed assertions and the
`abort`. -/
def slot_type_dom_obj.show (vtn : vtype_names) (v : Int) (o : ostream)
    (brv : brevity) : Except String ostream :=
  if v < 0 then Except.error "assert (!(v < 0))"
  else
    let ui := v.toNat % 2 ^ 64
    if ui ≤ 0xff then
      match find_vtype_name vtn ui with
      | none => Except.error "assert (name != nullptr)"
      | some name =>
        if name.data[0]? = some 'T' ∧ name.data[1]? = some '_' then
          Except.ok (o.put (name.drop (if brv = brevity.full then 0 else 2)))
        else Except.error "assert (name[0] == 'T' && name[1] == '_')"
    else Except.error "Invalid slot type constant value."

/-- `value::get_type_const`, on the type `get_type ()` of the value. -/
def value_type.get_type_const (vt : value_type) : constant :=
  { m_value := vt.m_code, m_dom := constant_dom.slot_type_dom }

/-! ## `show` -/

/-- What `value-dw.cc` takes from libdw and from files of the repository
that are not among the sources; `V` is the class of the values that the
producers yield.

* `dwarf_tag` is the libdw call of that name;
* `attributes` are the attributes that `attr_iterator` visits, in its order;
* `constant_text` is the text that `operator<<` writes for a constant of
  `constant.hh` with a domain of `dwcst.hh`, under the given brevity;
* `at_value`, `dwop_number`, `dwop_number2` are the values that the
  producers of `atval.hh` yield, in their order;
* `as_die` is `value::as <value_die>` on such a value;
* `value_text` is the text that the `show` of such a value writes. -/
structure collaborators (V : Type) where
  dwarf_tag : Dwarf_Die → Nat
  attributes : Dwarf_Die → List Dwarf_Attribute
  constant_text : constant → brevity → String
  at_value : dwfl_context → Dwarf_Die → Dwarf_Attribute → List V
  dwop_number : dwfl_context → Dwarf_Attribute → Dwarf_Op → List V
  dwop_number2 : dwfl_context → Dwarf_Attribute → Dwarf_Op → List V
  as_die : V → Option value_die
  value_text : V → brevity → String

/-- `value_cu::show`. -/
def value_cu.show (self : value_cu) (o : ostream) (_brv : brevity) : ostream :=
  let s := o.flags
  let o := ((o.put "CU ").set_hex.set_showbase).put_unsigned self.m_offset
  o.restore s

/-- The loop `while (auto v = vpr->next ())` of `value_attr::show`. -/
def value_attr.show_values {V : Type} (c : collaborators V) (brv : brevity) :
    List V → ostream → ostream
  | [], o => o
  | v :: vs, o =>
    let o :=
      match c.as_die v with
      | some d =>
        let s := o.flags
        let o := (((o.put "[").set_hex).put_unsigned
          (dwarf_dieoffset d.m_die)).put "]"
        o.restore s
      | none => o.put (c.value_text v brv)
    value_attr.show_values c brv vs (o.put ";")

/-- `value_attr::show`. -/
def value_attr.show {V : Type} (c : collaborators V) (self : value_attr)
    (o : ostream) (brv : brevity) : ostream :=
  let name := dwarf_whatattr self.m_attr
  let form := self.m_attr.form
  let s := o.flags
  let o := (((o.put (c.constant_text
      { m_value := name, m_dom := constant_dom.dw_attr_dom } brevity.brief)).put
    " (").put (c.constant_text
      { m_value := form, m_dom := constant_dom.dw_form_dom } brevity.brief)).put
    ")\t"
  let o := o.restore s
  value_attr.show_values c brv (c.at_value self.m_dwctx self.m_die self.m_attr) o

/-- The loop over the attributes of `value_die::show`. -/
def value_die.show_attrs {V : Type} (c : collaborators V) (self : value_die) :
    List Dwarf_Attribute → ostream → ostream
  | [], o => o
  | it :: rest, o =>
    let o := o.put "\n\t"
    let o := value_attr.show c
      { m_pos := 0, m_doneness := doneness.raw, m_dwctx := self.m_dwctx,
        m_die := self.m_die, m_attr := it } o brevity.full
    value_die.show_attrs c self rest o

/-- `value_die::show`. -/
def value_die.show {V : Type} (c : collaborators V) (self : value_die)
    (o : ostream) (brv : brevity) : ostream :=
  let die := self.m_die
  let fs := o.flags
  let o := (((((o.put "[").set_hex).put_unsigned (dwarf_dieoffset die)).put
    "]").put (if brv = brevity.full then "\t" else " ")).put
    (c.constant_text
      { m_value := c.dwarf_tag die, m_dom := constant_dom.dw_tag_dom }
      brevity.brief)
  let o := o.restore fs
  if brv = brevity.full then value_die.show_attrs c self (c.attributes die) o
  else o

/-- The first loop of `show_loclist_op`, over the values of `dwop_number`. -/
def show_loclist_op.first {V : Type} (c : collaborators V) :
    List V → ostream → ostream
  | [], o => o
  | v :: vs, o =>
    show_loclist_op.first c vs
      (((o.put "<").put (c.value_text v brevity.brief)).put ">")

/-- The second loop of `show_loclist_op`, over the values of `dwop_number2`,
with its flag `sep`. -/
def show_loclist_op.second {V : Type} (c : collaborators V) :
    List V → Bool → ostream → ostream
  | [], _, o => o
  | v :: vs, sep, o =>
    let o := if !sep then o.put "/" else o
    let sep := if !sep then true else sep
    show_loclist_op.second c vs sep
      (((o.put "<").put (c.value_text v brevity.brief)).put ">")

/-- `show_loclist_op`. -/
def show_loclist_op {V : Type} (c : collaborators V) (o : ostream)
    (_brv : brevity) (dwctx : dwfl_context) (attr : Dwarf_Attribute)
    (dwop : Dwarf_Op) : ostream :=
  let o := ((o.put_unsigned dwop.offset).put ":").put
    (c.constant_text
      { m_value := dwop.atom, m_dom := constant_dom.dw_locexpr_opcode_dom }
      brevity.brief)
  let o := show_loclist_op.first c (c.dwop_number dwctx attr dwop) o
  show_loclist_op.second c (c.dwop_number2 dwctx attr dwop) false o

/-- `value_loclist_op::show`. -/
def value_loclist_op.show {V : Type} (c : collaborators V)
    (self : value_loclist_op) (o : ostream) (brv : brevity) : ostream :=
  show_loclist_op c o brv self.m_dwctx self.m_attr self.m_dwop

/-- The texts of a list, one after the other. -/
def in_a_row : List String → String
  | [] => ""
  | s :: rest => s ++ in_a_row rest

/-- The text of one `<v>` group per value. -/
def groups {V : Type} (c : collaborators V) (vs : List V) : String :=
  in_a_row (vs.map (fun v => "<" ++ c.value_text v brevity.brief ++ ">"))

/-- Collaborators for the samples: values are given by their text, the tag
`0x11` is `compile_unit`, the opcodes `0xf6` and `0x1b` are `GNU_deref_type`
and `div`, the attributes `0x25` and `0x3` are `producer` and `name`, the
forms `0x8` and `0xe` are `string` and `strp`.  A DIE has the attributes
`producer` and `name`; `GNU_deref_type` has the operands that the
instruction holds. -/
def sample_collaborators : collaborators String :=
  { dwarf_tag := fun _ => 0x11
    attributes := fun _ =>
      [{ code := 0x25, form := 0xe, valp := 100 },
       { code := 0x3, form := 0x8, valp := 200 }]
    constant_text := fun k _ =>
      match k.m_dom, k.m_value with
      | constant_dom.dw_tag_dom, 0x11 => "compile_unit"
      | constant_dom.dw_attr_dom, 0x25 => "producer"
      | constant_dom.dw_attr_dom, 0x3 => "name"
      | constant_dom.dw_form_dom, 0x8 => "string"
      | constant_dom.dw_form_dom, 0xe => "strp"
      | constant_dom.dw_locexpr_opcode_dom, 0xf6 => "GNU_deref_type"
      | constant_dom.dw_locexpr_opcode_dom, 0x1b => "div"
      | _, _ => "?"
    at_value := fun _ _ a => if a.code = 0x25 then ["GNU C 4.6.3"] else ["foo.c"]
    dwop_number := fun _ _ op =>
      if op.atom = 0xf6 then [String.mk (Nat.toDigits 10 op.number)] else []
    dwop_number2 := fun _ _ op =>
      if op.atom = 0xf6 then [String.mk (Nat.toDigits 10 op.number2)] else []
    as_die := fun _ => none
    value_text := fun v _ => v }

/-- The instruction `2:GNU_deref_type<8>/<37>` of the docstring of
`value_loclist_op`. -/
def sample_deref_type : value_loclist_op :=
  { m_pos := 0, m_dwctx := { get_dwfl := 1 },
    m_attr := { code := 2, form := 0x18, valp := 300 },
    m_dwop := { atom := 0xf6, number := 8, number2 := 37, offset := 2 } }

/-- The instruction `16:div` of the docstring of `value_loclist_op`. -/
def sample_div : value_loclist_op :=
  { m_pos := 0, m_dwctx := { get_dwfl := 1 },
    m_attr := { code := 2, form := 0x18, valp := 300 },
    m_dwop := { atom := 0x1b, number := 0, number2 := 0, offset := 16 } }

/-- The compile unit at offset `0x1f`. -/
def sample_cu_1f : value_cu :=
  { m_pos := 0, m_dwctx := { get_dwfl := 1 }, m_cu := 7, m_offset := 0x1f }

/-- The compile unit at offset `0`, the first of a file. -/
def sample_cu_0 : value_cu :=
  { m_pos := 0, m_dwctx := { get_dwfl := 1 }, m_cu := 6, m_offset := 0 }

/-! ## The builtins of `builtin-shf.cc` -/

/-- Modelled from the spec: `builtin.hh` is not among the sources.  By the
objects of `builtin-shf.cc` a builtin has a name and builds an operator over
an upstream. -/
structure builtin where
  name : String
  build_exec : (σ : Type) → op σ → op σ

/-- `builtin_drop_obj`. -/
def builtin_drop_obj : builtin :=
  { name := "drop", build_exec := fun _ upstream => op_drop upstream }

/-- `builtin_swap_obj`. -/
def builtin_swap_obj : builtin :=
  { name := "swap", build_exec := fun _ upstream => op_swap upstream }

/-- `builtin_dup_obj`. -/
def builtin_dup_obj : builtin :=
  { name := "dup", build_exec := fun _ upstream => op_dup upstream }

/-- `builtin_over_obj`. -/
def builtin_over_obj : builtin :=
  { name := "over", build_exec := fun _ upstream => op_over upstream }

/-- The constructor of `register_shf`.  The function `add_builtin` of
`builtin.hh` is not among the sources and no sentence of the spec describes
it: it is the parameter `add_builtin`, which takes the registrations made so
far (of whatever type `R`) and a builtin to the registrations after the
call. -/
def register_shf {R : Type*} (add_builtin : R → builtin → R)
    (registered : R) : R :=
  let registered := add_builtin registered builtin_drop_obj
  let registered := add_builtin registered builtin_swap_obj
  let registered := add_builtin registered builtin_dup_obj
  add_builtin registered builtin_over_obj

/-- The builtins that the constructor of `register_shf` passes to
`add_builtin`, in call order. -/
def register_shf_calls : List builtin :=
  register_shf (fun calls b => calls ++ [b]) []

/-! ## The syntax tree -/

/-- Modelled from the spec: `tree.hh` is not among the sources.  The kinds of
node that the tests of `test-parser.cc` print after stack-effect analysis,
and the words of its grouping tests. -/
inductive tree_type where
  | CAT
  | ALT
  | CLOSE_STAR
  | CLOSE_PLUS
  | MAYBE
  | NOP
  | CONST
  | SEL_WINFO
  | SHF_SWAP
  | SHF_DUP
  | SHF_OVER
  | SHF_DROP
  | F_CHILD
  | F_NEXT
  | F_PARENT
  deriving DecidableEq, Repr

/-- Modelled from the spec: the name of a kind in the textual form of a
tree. -/
def tree_type.text : tree_type → String
  | tree_type.CAT => "CAT"
  | tree_type.ALT => "ALT"
  | tree_type.CLOSE_STAR => "CLOSE_STAR"
  | tree_type.CLOSE_PLUS => "CLOSE_PLUS"
  | tree_type.MAYBE => "MAYBE"
  | tree_type.NOP => "NOP"
  | tree_type.CONST => "CONST"
  | tree_type.SEL_WINFO => "SEL_WINFO"
  | tree_type.SHF_SWAP => "SHF_SWAP"
  | tree_type.SHF_DUP => "SHF_DUP"
  | tree_type.SHF_OVER => "SHF_OVER"
  | tree_type.SHF_DROP => "SHF_DROP"
  | tree_type.F_CHILD => "F_CHILD"
  | tree_type.F_NEXT => "F_NEXT"
  | tree_type.F_PARENT => "F_PARENT"

/-- Modelled from the spec: `tree.hh` is not among the sources.  A node has
its kind, the payload of a constant, the slots `a` and `dst` that the
analysis binds it to, and its children. -/
inductive tree where
  | mk (m_tt : tree_type) (m_cst : Option String) (m_a : Option Nat)
      (m_dst : Option Nat) (m_children : List tree)

/-- A node without payload, slots and children. -/
def tree.bare (tt : tree_type) : tree := tree.mk tt none none none []

/-- A node of children only. -/
def tree.of_children (tt : tree_type) (children : List tree) : tree :=
  tree.mk tt none none none children

def tree.m_tt : tree → tree_type
  | tree.mk tt _ _ _ _ => tt

def tree.m_children : tree → List tree
  | tree.mk _ _ _ _ children => children

/-- Modelled from the spec: the slot binding in the textual form of a tree,
as in ` [a=0;dst=1;]`; nothing for a node without slots. -/
def slots_text (a dst : Option Nat) : String :=
  match a, dst with
  | none, none => ""
  | _, _ =>
    " ["
      ++ (match a with
          | some n => "a=" ++ String.mk (Nat.toDigits 10 n) ++ ";"
          | none => "")
      ++ (match dst with
          | some n => "dst=" ++ String.mk (Nat.toDigits 10 n) ++ ";"
          | none => "")
      ++ "]"

mutual

/-- Modelled from the spec: the textual form of a tree: `(KIND)` or
`(KIND<payload>)` for a leaf, `(KIND child child ...)` for an internal node,
with the slot binding before the children. -/
def tree.dump : tree → String
  | tree.mk tt cst a dst children =>
    "(" ++ tt.text
      ++ (match cst with
          | some c => "<" ++ c ++ ">"
          | none => "")
      ++ slots_text a dst ++ tree.dump_children children ++ ")"

/-- The children in the textual form of a tree. -/
def tree.dump_children : List tree → String
  | [] => ""
  | t :: rest => " " ++ t.dump ++ tree.dump_children rest

end

/-- The errors of the stack-effect analysis that the spec names. -/
inductive analysis_error where
  | Unbalanced
  | Underrun
  | Malformed
  deriving DecidableEq, Repr

mutual

/-- Modelled from the spec: `tree::determine_stack_effects` is not among the
sources.  The analysis walks the tree with the depth `d` of the stack on
entry and gives the tree with its slots bound and the depth on exit.

* A leaf has its declared effect: `NOP` none; `CONST` and `SEL_WINFO` push
  into the slot `d`; `SHF_DROP` pops the slot `d - 1`; `SHF_DUP` copies the
  slot `d - 1` into the slot `d`; `SHF_OVER` copies the slot `d - 2` into the
  slot `d`; `SHF_SWAP` exchanges the slots `d - 2` and `d - 1`; `F_CHILD`,
  `F_NEXT` and `F_PARENT` replace the slot `d - 1`.  A leaf that pops from
  too shallow a stack fails with `Underrun`.
* `CAT` composes the effects of its children in sequence.
* `ALT` analyses every branch from the depth `d`; the branches must agree on
  the depth on exit, otherwise the analysis fails with `Unbalanced`.
* The body of `CLOSE_STAR`, `CLOSE_PLUS` and `MAYBE` must have net-zero
  effect.
* The spec has no more on `CLOSE_PLUS` and `MAYBE`.  What the analysis gives
  for them is taken from the tests `ftest ("winfo child?", ...)` and
  `ftest ("winfo child+", ...)` of `test-parser.cc`, which expect
  `(ALT (F_CHILD [a=0;dst=0;]) (NOP))` and
  `(CAT (F_CHILD [a=0;dst=0;]) (CLOSE_STAR (F_CHILD [a=0;dst=0;])))`: the
  analysis turns `MAYBE X` into `ALT (X, NOP)` and `CLOSE_PLUS X` into
  `CAT (X, CLOSE_STAR (X))`, here for every body.  The meaning that the spec
  gives to `maybe` and `close_plus` themselves is `maybe_by_spec` and
  `close_plus_by_spec` below. -/
def tree.determine_stack_effects :
    tree → Nat → Except analysis_error (tree × Nat)
  | tree.mk tt cst _ _ children, d =>
    match tt with
    | tree_type.NOP => Except.ok (tree.mk tt cst none none [], d)
    | tree_type.CONST => Except.ok (tree.mk tt cst none (some d) [], d + 1)
    | tree_type.SEL_WINFO =>
      Except.ok (tree.mk tt cst none (some d) [], d + 1)
    | tree_type.SHF_DROP =>
      if d < 1 then Except.error analysis_error.Underrun
      else Except.ok (tree.mk tt cst none (some (d - 1)) [], d - 1)
    | tree_type.SHF_DUP =>
      if d < 1 then Except.error analysis_error.Underrun
      else Except.ok (tree.mk tt cst (some (d - 1)) (some d) [], d + 1)
    | tree_type.SHF_OVER =>
      if d < 2 then Except.error analysis_error.Underrun
      else Except.ok (tree.mk tt cst (some (d - 2)) (some d) [], d + 1)
    | tree_type.SHF_SWAP =>
      if d < 2 then Except.error analysis_error.Underrun
      else Except.ok (tree.mk tt cst (some (d - 2)) (some (d - 1)) [], d)
    | tree_type.F_CHILD | tree_type.F_NEXT | tree_type.F_PARENT =>
      if d < 1 then Except.error analysis_error.Underrun
      else Except.ok (tree.mk tt cst (some (d - 1)) (some (d - 1)) [], d)
    | tree_type.CAT =>
      match tree.effects_in_sequence children d with
      | Except.error e => Except.error e
      | Except.ok (cs, d1) => Except.ok (tree.mk tt cst none none cs, d1)
    | tree_type.ALT =>
      match tree.effects_of_branches children d with
      | Except.error e => Except.error e
      | Except.ok [] => Except.ok (tree.mk tt cst none none [], d)
      | Except.ok ((c, d1) :: rest) =>
        if rest.all (fun r => r.2 == d1) then
          Except.ok (tree.mk tt cst none none (c :: rest.map Prod.fst), d1)
        else Except.error analysis_error.Unbalanced
    | tree_type.CLOSE_STAR =>
      match tree.effects_in_sequence children d with
      | Except.error e => Except.error e
      | Except.ok ([x], d1) =>
        if d1 = d then Except.ok (tree.mk tt cst none none [x], d)
        else Except.error analysis_error.Unbalanced
      | Except.ok _ => Except.error analysis_error.Malformed
    | tree_type.CLOSE_PLUS =>
      match tree.effects_in_sequence children d with
      | Except.error e => Except.error e
      | Except.ok ([x], d1) =>
        if d1 = d then
          Except.ok (tree.mk tree_type.CAT cst none none
            [x, tree.mk tree_type.CLOSE_STAR none none none [x]], d)
        else Except.error analysis_error.Unbalanced
      | Except.ok _ => Except.error analysis_error.Malformed
    | tree_type.MAYBE =>
      match tree.effects_in_sequence children d with
      | Except.error e => Except.error e
      | Except.ok ([x], d1) =>
        if d1 = d then
          Except.ok (tree.mk tree_type.ALT cst none none
            [x, tree.mk tree_type.NOP none none none []], d)
        else Except.error analysis_error.Unbalanced
      | Except.ok _ => Except.error analysis_error.Malformed

/-- The analysis of trees one after the other, each from the depth the one
before left. -/
def tree.effects_in_sequence :
    List tree → Nat → Except analysis_error (List tree × Nat)
  | [], d => Except.ok ([], d)
  | t :: rest, d =>
    match t.determine_stack_effects d with
    | Except.error e => Except.error e
    | Except.ok (t1, d1) =>
      match tree.effects_in_sequence rest d1 with
      | Except.error e => Except.error e
      | Except.ok (rest1, d2) => Except.ok (t1 :: rest1, d2)

/-- The analysis of the branches of an alternation, each from the depth
`d`. -/
def tree.effects_of_branches :
    List tree → Nat → Except analysis_error (List (tree × Nat))
  | [], _ => Except.ok []
  | t :: rest, d =>
    match t.determine_stack_effects d with
    | Except.error e => Except.error e
    | Except.ok r =>
      match tree.effects_of_branches rest d with
      | Except.error e => Except.error e
      | Except.ok rs => Except.ok (r :: rs)

end

/-! ## Parsing -/

/-- The children of a tree of the kind `tt`; any other tree on its own. -/
def tree.spread (tt : tree_type) : tree → List tree
  | tree.mk tt1 cst a dst children =>
    if tt1 = tt then children else [tree.mk tt1 cst a dst children]

/-- Modelled from the spec: `tree::build_cat` is not among the sources.  The
spec says that CAT is variadic; joining two trees puts the children of a CAT
and any other tree in one CAT, in order. -/
def tree.build_cat (t1 t2 : tree) : tree :=
  tree.of_children tree_type.CAT
    (t1.spread tree_type.CAT ++ t2.spread tree_type.CAT)

/-- Modelled from the spec: the building of an alternation is not among the
sources.  The spec says that ALT is variadic; joining two trees puts the
branches of an ALT and any other tree in one ALT, in order. -/
def tree.build_alt (t1 t2 : tree) : tree :=
  tree.of_children tree_type.ALT
    (t1.spread tree_type.ALT ++ t2.spread tree_type.ALT)

/-- Modelled from the spec: the grammar of `parser.yy` is not among the
sources.  The phrases of a query: a word, nothing, a phrase in parentheses,
two phrases side by side, two phrases around a comma, and a phrase under
`*`, `+` or `?`. -/
inductive phrase where
  | word (tt : tree_type) (cst : Option String)
  | nothing
  | group (p : phrase)
  | seq (p q : phrase)
  | alt (p q : phrase)
  | star (p : phrase)
  | plus (p : phrase)
  | maybe (p : phrase)

/-- Modelled from the spec: the tree that the parser builds for a phrase.  A
word is a leaf, nothing is `NOP`, parentheses only group, and the trees of
side-by-side phrases and of phrases around a comma are joined into one CAT
and one ALT. -/
def phrase.parse : phrase → tree
  | phrase.word tt cst => tree.mk tt cst none none []
  | phrase.nothing => tree.bare tree_type.NOP
  | phrase.group p => p.parse
  | phrase.seq p q => tree.build_cat p.parse q.parse
  | phrase.alt p q => tree.build_alt p.parse q.parse
  | phrase.star p => tree.of_children tree_type.CLOSE_STAR [p.parse]
  | phrase.plus p => tree.of_children tree_type.CLOSE_PLUS [p.parse]
  | phrase.maybe p => tree.of_children tree_type.MAYBE [p.parse]

/-- A phrase of words, parentheses and juxtaposition only. -/
def phrase.is_grouping : phrase → Bool
  | phrase.word tt _ => tt != tree_type.CAT
  | phrase.group p => p.is_grouping
  | phrase.seq p q => p.is_grouping && q.is_grouping
  | _ => false

/-- The words of a phrase as leaves, in source order. -/
def phrase.words : phrase → List tree
  | phrase.word tt cst => [tree.mk tt cst none none []]
  | phrase.group p => p.words
  | phrase.seq p q => p.words ++ q.words
  | _ => []

/-- A phrase of commas and parentheses over branches that do not parse to an
ALT themselves. -/
def phrase.is_alternation : phrase → Bool
  | phrase.alt p q => p.is_alternation && q.is_alternation
  | phrase.group p => p.is_alternation
  | p => p.parse.m_tt != tree_type.ALT

/-- The trees of the branches of a phrase, in source order. -/
def phrase.branches : phrase → List tree
  | phrase.alt p q => p.branches ++ q.branches
  | phrase.group p => p.branches
  | p => [p.parse]

/-- The stack-effect analysis of a query, from the empty stack, in the
textual form of the tests; the error when the analysis fails. -/
def phrase.analysed (p : phrase) : Except analysis_error String :=
  match p.parse.determine_stack_effects 0 with
  | Except.error e => Except.error e
  | Except.ok (t, _) => Except.ok t.dump

/-! ## What a tree yields -/

/-- Modelled from the spec: two valfiles are equal under value comparison
when they have the same depth and `cmp` gives `equal` slot by slot.  The spec
speaks of the relevant slot window without saying which it is; here it is
the whole valfile. -/
def valfile.same (a b : valfile) : Bool :=
  a.size == b.size
    && (List.zipWith (fun x y => decide (x.cmp y = some cmp_result.equal))
          a.m_values b.m_values).all id

/-- Modelled from the spec: a closure does not revisit a state equal under
value comparison.  Of the valfiles given, in order, those that are equal to
none of `seen` and to none of those before them. -/
def unvisited (seen : List valfile) : List valfile → List valfile
  | [] => []
  | v :: rest =>
    if seen.any (fun s => s.same v) then unvisited seen rest
    else v :: unvisited (seen ++ [v]) rest

/-- Modelled from the spec: the breadth-first traversal of a closure.  From
the valfiles of one round, `level`, the next round is what `body` yields for
them, in order, without the states visited; the traversal ends with a round
that is empty and, in this model, after `rounds` rounds. -/
def close_star_rounds (body : valfile → List valfile) :
    Nat → List valfile → List valfile → List valfile
  | 0, _, _ => []
  | rounds + 1, level, seen =>
    match unvisited seen (level.flatMap body) with
    | [] => []
    | v :: next =>
      (v :: next)
        ++ close_star_rounds body rounds (v :: next) (seen ++ v :: next)

/-- Modelled from the spec: `close_star (body)` emits the input verbatim, the
zero-iteration case, then all valfiles reachable by 1, 2, 3, ... applications
of `body`, breadth first, without revisiting a state equal under value
comparison. -/
def close_star_by_spec (body : valfile → List valfile) (rounds : Nat)
    (vf : valfile) : List valfile :=
  vf :: close_star_rounds body rounds [vf] [vf]

/-- Modelled from the spec: `close_plus (body)` is identical to `close_star`
except that the zero-iteration output, its first, is suppressed. -/
def close_plus_by_spec (body : valfile → List valfile) (rounds : Nat)
    (vf : valfile) : List valfile :=
  (close_star_by_spec body rounds vf).drop 1

/-- Modelled from the spec: `maybe (body)` emits one output from `body` if
any, else the input verbatim. -/
def maybe_by_spec (body : valfile → List valfile) (vf : valfile) :
    List valfile :=
  match body vf with
  | [] => [vf]
  | out :: _ => [out]

/-- The parts of the meaning of a tree that the claims leave open: what a
leaf yields for a valfile, and the number of rounds after which a closure
stops. -/
structure leaf_meaning where
  leaf : tree_type → Option String → Option Nat → Option Nat →
    valfile → List valfile
  rounds : Nat

mutual

/-- Modelled from the spec: the operators built from a tree are not among
the sources.  What a tree yields for one valfile, in order: `NOP` forwards
it; `CAT` feeds every output of a child to the next child; `ALT` yields the
outputs of its first branch, then those of the second, and so on;
`CLOSE_STAR`, `CLOSE_PLUS` and `MAYBE` are `close_star`, `close_plus` and
`maybe` of their body as the spec describes them. -/
def tree.yields (m : leaf_meaning) : tree → valfile → List valfile
  | tree.mk tt cst a dst children, vf =>
    match tt with
    | tree_type.NOP => [vf]
    | tree_type.CAT => tree.yields_in_sequence m children vf
    | tree_type.ALT => tree.yields_of_branches m children vf
    | tree_type.CLOSE_STAR =>
      close_star_by_spec (fun v => tree.yields_in_sequence m children v)
        m.rounds vf
    | tree_type.CLOSE_PLUS =>
      close_plus_by_spec (fun v => tree.yields_in_sequence m children v)
        m.rounds vf
    | tree_type.MAYBE =>
      maybe_by_spec (fun v => tree.yields_in_sequence m children v) vf
    | _ => m.leaf tt cst a dst vf

/-- What trees in sequence yield. -/
def tree.yields_in_sequence (m : leaf_meaning) :
    List tree → valfile → List valfile
  | [], vf => [vf]
  | t :: rest, vf =>
    (t.yields m vf).flatMap (fun v => tree.yields_in_sequence m rest v)

/-- What the branches of an alternation yield. -/
def tree.yields_of_branches (m : leaf_meaning) :
    List tree → valfile → List valfile
  | [], _ => []
  | t :: rest, vf => t.yields m vf ++ tree.yields_of_branches m rest vf

end

/-- The word `winfo`. -/
def word_winfo : phrase := phrase.word tree_type.SEL_WINFO none

/-- The word `drop`. -/
def word_drop : phrase := phrase.word tree_type.SHF_DROP none

/-- The word `dup`. -/
def word_dup : phrase := phrase.word tree_type.SHF_DUP none

/-- The word `swap`. -/
def word_swap : phrase := phrase.word tree_type.SHF_SWAP none

/-- The word `child`. -/
def word_child : phrase := phrase.word tree_type.F_CHILD none

/-- The word `next`. -/
def word_next : phrase := phrase.word tree_type.F_NEXT none

/-- A number. -/
def word_const (n : String) : phrase := phrase.word tree_type.CONST (some n)

/-! ## Notions for the bounds of `cmp` -/

/-- The `operator<` of a pair: lexicographic. -/
def lt_tuple2 (a b : Nat × Nat) : Bool :=
  lt_nat a.1 b.1 || (!lt_nat b.1 a.1 && lt_nat a.2 b.2)

/-- The length of the import path of a DIE: the number of DIEs that
`m_import` leads through. -/
def value_die.import_length : value_die → Nat
  | value_die.mk _ _ _ _ none => 0
  | value_die.mk _ _ _ _ (some i) => i.import_length + 1

/-- The branch of `value_die::cmp` for two DIEs, as `value_die.cmp_die`, with
a bound on the nesting of the calls: `fuel` is the number of calls of `cmp`
that may be open at a time, the outermost included, and the outer `none` is
a call beyond that bound. -/
def value_die.cmp_die_bounded :
    Nat → value_die → value_die → Option (Option cmp_result)
  | 0, _, _ => none
  | fuel + 1, value_die.mk p1 d1 c1 die1 imp1,
      value_die.mk p2 d2 c2 die2 imp2 =>
    let ret := compare lt_nat (dwarf_cu_getdwarf die1.cu)
      (dwarf_cu_getdwarf die2.cu)
    if ret ≠ cmp_result.equal then some (some ret)
    else
      let ret := compare lt_nat (dwarf_dieoffset die1) (dwarf_dieoffset die2)
      if ret ≠ cmp_result.equal then some (some ret)
      else if (value_die.mk p1 d1 c1 die1 imp1).is_raw || imp1.isNone
          || (value_die.mk p2 d2 c2 die2 imp2).is_raw || imp2.isNone then
        some (some ret)
      else
        match imp1, imp2 with
        | some i1, some i2 => value_die.cmp_die_bounded fuel i1 i2
        | _, _ => some none

/-- Two attributes of the DIE at offset `5`, both of the name `3`, from
different Dwarf contexts and of different forms and data. -/
def attr_in_file_1 : value_attr :=
  { m_pos := 0, m_doneness := doneness.cooked, m_dwctx := { get_dwfl := 1 },
    m_die := { cu := { dbg := 1 }, offset := 5 },
    m_attr := { code := 3, form := 8, valp := 100 } }

def attr_in_file_2 : value_attr :=
  { m_pos := 1, m_doneness := doneness.raw, m_dwctx := { get_dwfl := 2 },
    m_die := { cu := { dbg := 2 }, offset := 5 },
    m_attr := { code := 3, form := 14, valp := 200 } }

/-- Two location-list elements of one attribute and range, of two
instructions each, that differ in the second instruction. -/
def loclist_elem_and : value_loclist_elem :=
  { m_pos := 0, m_dwctx := { get_dwfl := 1 },
    m_attr := { code := 2, form := 0x18, valp := 300 },
    m_low := 0x10017, m_high := 0x1001a,
    m_expr := [{ atom := 0x75, number := 0, number2 := 0, offset := 0 },
               { atom := 0x1a, number := 0, number2 := 0, offset := 2 }] }

def loclist_elem_or : value_loclist_elem :=
  { m_pos := 0, m_dwctx := { get_dwfl := 1 },
    m_attr := { code := 2, form := 0x18, valp := 300 },
    m_low := 0x10017, m_high := 0x1001a,
    m_expr := [{ atom := 0x75, number := 0, number2 := 0, offset := 0 },
               { atom := 0x21, number := 0, number2 := 0, offset := 2 }] }

/-! ## A sample meaning of the leaves -/

/-- How far `value_die::cmp` can follow the import path of a DIE: not at all
when the DIE is raw or has no import path (the guard of the recursion returns
for it), and one step further than for its import DIE otherwise. -/
def value_die.refinement : value_die → Nat
  | value_die.mk _ doneness.raw _ _ _ => 0
  | value_die.mk _ doneness.cooked _ _ none => 0
  | value_die.mk _ doneness.cooked _ _ (some i) => i.refinement + 1

/-- A cooked DIE at offset `5`, reached through the import at offset `1`,
itself reached through the import at offset `9`. -/
def die_via_1_via_9 : value_die :=
  sample_die doneness.cooked 5
    (some (sample_die doneness.cooked 1
      (some (sample_die doneness.cooked 9 none))))

/-- A cooked DIE at offset `5`, reached through the raw import at offset
`1`. -/
def die_via_raw_1 : value_die :=
  sample_die doneness.cooked 5 (some (sample_die doneness.raw 1 none))

/-! ## Facts about `compare` -/

theorem compare_ne_fail {α : Type} (lt : α → α → Bool) (a b : α) :
    compare lt a b ≠ cmp_result.fail := by
  unfold compare; split_ifs <;> simp

theorem compare_less_iff {α : Type} (lt : α → α → Bool) (a b : α) :
    compare lt a b = cmp_result.less ↔ lt a b = true := by
  unfold compare; split_ifs <;> simp_all

theorem compare_greater_iff {α : Type} (lt : α → α → Bool) (a b : α) :
    compare lt a b = cmp_result.greater ↔ lt a b = false ∧ lt b a = true := by
  unfold compare; split_ifs <;> simp_all

theorem compare_equal_iff {α : Type} (lt : α → α → Bool) (a b : α) :
    compare lt a b = cmp_result.equal ↔ lt a b = false ∧ lt b a = false := by
  unfold compare; split_ifs <;> simp_all

theorem lt_nat_asymm (a b : Nat) : lt_nat a b = true → lt_nat b a = false := by
  simp [lt_nat]; omega

theorem lt_tuple3_asymm (a b : Nat × Nat × Nat) :
    lt_tuple3 a b = true → lt_tuple3 b a = false := by
  simp [lt_tuple3, lt_nat]; omega

theorem lt_tuple4_asymm (a b : Nat × Nat × Nat × Nat) :
    lt_tuple4 a b = true → lt_tuple4 b a = false := by
  simp [lt_tuple4, lt_tuple3, lt_nat]; omega

/-- Exchanging the operands of `compare` turns less into greater, for an
asymmetric `operator<`. -/
theorem compare_swap_less {α : Type} (lt : α → α → Bool)
    (hlt : ∀ x y, lt x y = true → lt y x = false) (a b : α) :
    compare lt a b = cmp_result.less ↔ compare lt b a = cmp_result.greater := by
  rw [compare_less_iff, compare_greater_iff]
  constructor
  · intro h; exact ⟨hlt a b h, h⟩
  · intro h; exact h.2

theorem compare_swap_equal {α : Type} (lt : α → α → Bool) (a b : α) :
    compare lt a b = cmp_result.equal ↔ compare lt b a = cmp_result.equal := by
  rw [compare_equal_iff, compare_equal_iff]; exact And.comm

theorem compare_self {α : Type} (lt : α → α → Bool)
    (hlt : ∀ x y, lt x y = true → lt y x = false) (a : α) :
    compare lt a a = cmp_result.equal := by
  rw [compare_equal_iff]
  cases h : lt a a
  · exact ⟨rfl, rfl⟩
  · have := hlt a a h; simp [h] at this

theorem compare_nat_equal_iff (a b : Nat) :
    compare lt_nat a b = cmp_result.equal ↔ a = b := by
  rw [compare_equal_iff]; simp [lt_nat]; omega

theorem compare_nat_less_iff (a b : Nat) :
    compare lt_nat a b = cmp_result.less ↔ a < b := by
  rw [compare_less_iff]; simp [lt_nat]

theorem compare_nat_greater_iff (a b : Nat) :
    compare lt_nat a b = cmp_result.greater ↔ b < a := by
  rw [compare_greater_iff]; simp [lt_nat]; omega

/-! ## Facts about `value_die::cmp` -/

/-- Induction along the import path of a DIE. -/
theorem value_die.induction_on {P : value_die → Prop}
    (h : ∀ p d c die imp, (∀ i, imp = some i → P i) →
      P (value_die.mk p d c die imp)) : ∀ a, P a
  | value_die.mk p d c die none => h p d c die none (by simp)
  | value_die.mk p d c die (some i) =>
    h p d c die (some i) (by
      intro j hj
      cases hj
      exact value_die.induction_on h i)

/-- The body of `value_die::cmp` in terms of the members of its operands. -/
theorem cmp_die_eq (a b : value_die) :
    value_die.cmp_die a b =
      if dwarf_cu_getdwarf a.m_die.cu ≠ dwarf_cu_getdwarf b.m_die.cu then
        some (compare lt_nat (dwarf_cu_getdwarf a.m_die.cu)
          (dwarf_cu_getdwarf b.m_die.cu))
      else if dwarf_dieoffset a.m_die ≠ dwarf_dieoffset b.m_die then
        some (compare lt_nat (dwarf_dieoffset a.m_die)
          (dwarf_dieoffset b.m_die))
      else
        match a.m_doneness, a.m_import, b.m_doneness, b.m_import with
        | doneness.cooked, some i, doneness.cooked, some j =>
          value_die.cmp_die i j
        | _, _, _, _ => some cmp_result.equal := by
  obtain ⟨p1, d1, c1, die1, imp1⟩ := a
  obtain ⟨p2, d2, c2, die2, imp2⟩ := b
  conv_lhs => unfold value_die.cmp_die
  simp only [value_die.m_die, value_die.m_doneness, value_die.m_import,
    value_die.is_raw, compare_nat_equal_iff, ne_eq]
  by_cases h1 : dwarf_cu_getdwarf die1.cu = dwarf_cu_getdwarf die2.cu
  · by_cases h2 : dwarf_dieoffset die1 = dwarf_dieoffset die2
    · have h3 : compare lt_nat (dwarf_dieoffset die2) (dwarf_dieoffset die2)
          = cmp_result.equal := (compare_nat_equal_iff _ _).2 rfl
      cases d1 <;> cases d2 <;> cases imp1 <;> cases imp2 <;>
        simp [h1, h2, h3]
    · simp [h1, h2]
  · simp [h1]


/-- On two DIEs `cmp` returns, and never with `fail`. -/
theorem cmp_die_total (a : value_die) : ∀ b : value_die,
    ∃ r, value_die.cmp_die a b = some r ∧ r ≠ cmp_result.fail := by
  induction a using value_die.induction_on with
  | h p1 d1 c1 die1 imp1 ih =>
    intro b
    obtain ⟨p2, d2, c2, die2, imp2⟩ := b
    rw [cmp_die_eq]
    simp only [value_die.m_die, value_die.m_doneness, value_die.m_import]
    split_ifs with h1 h2
    · exact ⟨_, rfl, compare_ne_fail _ _ _⟩
    · exact ⟨_, rfl, compare_ne_fail _ _ _⟩
    · cases d1 <;> cases d2 <;> cases imp1 <;> cases imp2 <;>
        first
        | exact ⟨_, rfl, by simp⟩
        | exact ih _ rfl _

/-- A DIE compares equal to itself. -/
theorem cmp_die_self (a : value_die) :
    value_die.cmp_die a a = some cmp_result.equal := by
  induction a using value_die.induction_on with
  | h p1 d1 c1 die1 imp1 ih =>
    rw [cmp_die_eq]
    simp only [value_die.m_die, value_die.m_doneness, value_die.m_import]
    cases d1 <;> cases imp1 <;> simp
    exact ih _ rfl

/-- Exchanging two DIEs turns less into greater and back. -/
theorem cmp_die_swap_less (a : value_die) : ∀ b : value_die,
    (value_die.cmp_die a b = some cmp_result.less ↔
      value_die.cmp_die b a = some cmp_result.greater) := by
  induction a using value_die.induction_on with
  | h p1 d1 c1 die1 imp1 ih =>
    intro b
    obtain ⟨p2, d2, c2, die2, imp2⟩ := b
    rw [cmp_die_eq, cmp_die_eq]
    simp only [value_die.m_die, value_die.m_doneness, value_die.m_import]
    by_cases h1 : dwarf_cu_getdwarf die1.cu = dwarf_cu_getdwarf die2.cu
    · by_cases h2 : dwarf_dieoffset die1 = dwarf_dieoffset die2
      · cases d1 <;> cases d2 <;> cases imp1 <;> cases imp2 <;>
          simp [h1, h2]
        exact ih _ rfl _
      · simp [h1, h2, Ne.symm h2, compare_swap_less lt_nat lt_nat_asymm]
    · simp [h1, Ne.symm h1, compare_swap_less lt_nat lt_nat_asymm]

/-- Two DIEs compare equal in either order. -/
theorem cmp_die_swap_equal (a : value_die) : ∀ b : value_die,
    (value_die.cmp_die a b = some cmp_result.equal ↔
      value_die.cmp_die b a = some cmp_result.equal) := by
  induction a using value_die.induction_on with
  | h p1 d1 c1 die1 imp1 ih =>
    intro b
    obtain ⟨p2, d2, c2, die2, imp2⟩ := b
    rw [cmp_die_eq, cmp_die_eq]
    simp only [value_die.m_die, value_die.m_doneness, value_die.m_import]
    by_cases h1 : dwarf_cu_getdwarf die1.cu = dwarf_cu_getdwarf die2.cu
    · by_cases h2 : dwarf_dieoffset die1 = dwarf_dieoffset die2
      · cases d1 <;> cases d2 <;> cases imp1 <;> cases imp2 <;>
          simp [h1, h2]
        exact ih _ rfl _
      · simp [h1, h2, Ne.symm h2, compare_swap_equal lt_nat
          (dwarf_dieoffset die1)]
    · simp [h1, Ne.symm h1, compare_swap_equal lt_nat
        (dwarf_cu_getdwarf die1.cu)]

/-! ## Facts about the element-wise loops -/

theorem compare_tuple3_equal_iff (a b : Nat × Nat × Nat) :
    compare lt_tuple3 a b = cmp_result.equal ↔ a = b := by
  obtain ⟨a1, a2, a3⟩ := a
  obtain ⟨b1, b2, b3⟩ := b
  rw [compare_equal_iff]
  simp [lt_tuple3, lt_nat]
  omega

/-- The loop of `value_loclist_elem::cmp` returns, and never with `fail`, when
both blocks hold the instructions it visits. -/
theorem loclist_loop_total (xs ys : List Dwarf_Op) (k : Nat) : ∀ i : Nat,
    i + k ≤ xs.length → i + k ≤ ys.length →
    ∃ r, value_loclist_elem.cmp_loop xs ys k i = some r ∧
      r ≠ cmp_result.fail := by
  induction k with
  | zero => intro i _ _; exact ⟨_, rfl, by simp⟩
  | succ k ih =>
    intro i hx hy
    have hxi : i < xs.length := by omega
    have hyi : i < ys.length := by omega
    unfold value_loclist_elem.cmp_loop
    simp only [List.getElem?_eq_getElem hxi, List.getElem?_eq_getElem hyi]
    split_ifs with h
    · exact ⟨_, rfl, compare_ne_fail _ _ _⟩
    · exact ih (i + 1) (by omega) (by omega)

theorem loclist_loop_self (xs : List Dwarf_Op) (k : Nat) : ∀ i : Nat,
    i + k ≤ xs.length →
    value_loclist_elem.cmp_loop xs xs k i = some cmp_result.equal := by
  induction k with
  | zero => intro i _; rfl
  | succ k ih =>
    intro i hx
    have hxi : i < xs.length := by omega
    unfold value_loclist_elem.cmp_loop
    simp only [List.getElem?_eq_getElem hxi,
      compare_self lt_tuple4 lt_tuple4_asymm]
    simp
    exact ih (i + 1) (by omega)

theorem loclist_loop_swap_less (xs ys : List Dwarf_Op) (k : Nat) : ∀ i : Nat,
    (value_loclist_elem.cmp_loop xs ys k i = some cmp_result.less ↔
      value_loclist_elem.cmp_loop ys xs k i = some cmp_result.greater) := by
  induction k with
  | zero => intro i; simp [value_loclist_elem.cmp_loop]
  | succ k ih =>
    intro i
    unfold value_loclist_elem.cmp_loop
    cases hx : xs[i]? <;> cases hy : ys[i]? <;> simp only []
    · simp
    · simp
    · simp
    · rename_i a b
      by_cases h : compare lt_tuple4 (a.atom, a.number, a.number2, a.offset)
          (b.atom, b.number, b.number2, b.offset) = cmp_result.equal
      · have h2 := (compare_swap_equal lt_tuple4 _ _).1 h
        simp only [h, h2, ne_eq, not_true_eq_false, if_false]
        exact ih (i + 1)
      · have h2 := mt (compare_swap_equal lt_tuple4 _ _).1 h
        simp only [h, h2, ne_eq, not_false_eq_true, if_true, Option.some.injEq]
        exact compare_swap_less lt_tuple4 lt_tuple4_asymm _ _

theorem loclist_loop_swap_equal (xs ys : List Dwarf_Op) (k : Nat) : ∀ i : Nat,
    (value_loclist_elem.cmp_loop xs ys k i = some cmp_result.equal ↔
      value_loclist_elem.cmp_loop ys xs k i = some cmp_result.equal) := by
  induction k with
  | zero => intro i; simp [value_loclist_elem.cmp_loop]
  | succ k ih =>
    intro i
    unfold value_loclist_elem.cmp_loop
    cases hx : xs[i]? <;> cases hy : ys[i]? <;> simp only []
    rename_i a b
    by_cases h : compare lt_tuple4 (a.atom, a.number, a.number2, a.offset)
        (b.atom, b.number, b.number2, b.offset) = cmp_result.equal
    · have h2 := (compare_swap_equal lt_tuple4 _ _).1 h
      simp only [h, h2, ne_eq, not_true_eq_false, if_false]
      exact ih (i + 1)
    · have h2 := mt (compare_swap_equal lt_tuple4 _ _).1 h
      simp only [h, h2, ne_eq, not_false_eq_true, if_true, Option.some.injEq]

/-- The loop of `value_aset::cmp` returns, and never with `fail`, when both
coverages hold the ranges it visits. -/
theorem aset_loop_total (xs ys : List cov_range) (k : Nat) : ∀ i : Nat,
    i + k ≤ xs.length → i + k ≤ ys.length →
    ∃ r, value_aset.cmp_loop xs ys k i = some r ∧ r ≠ cmp_result.fail := by
  induction k with
  | zero => intro i _ _; exact ⟨_, rfl, by simp⟩
  | succ k ih =>
    intro i hx hy
    have hxi : i < xs.length := by omega
    have hyi : i < ys.length := by omega
    unfold value_aset.cmp_loop
    simp only [List.getElem?_eq_getElem hxi, List.getElem?_eq_getElem hyi]
    split_ifs with h1 h2
    · exact ⟨_, rfl, compare_ne_fail _ _ _⟩
    · exact ⟨_, rfl, compare_ne_fail _ _ _⟩
    · exact ih (i + 1) (by omega) (by omega)

theorem aset_loop_self (xs : List cov_range) (k : Nat) : ∀ i : Nat,
    i + k ≤ xs.length →
    value_aset.cmp_loop xs xs k i = some cmp_result.equal := by
  induction k with
  | zero => intro i _; rfl
  | succ k ih =>
    intro i hx
    have hxi : i < xs.length := by omega
    unfold value_aset.cmp_loop
    simp only [List.getElem?_eq_getElem hxi,
      compare_self lt_nat lt_nat_asymm]
    simp
    exact ih (i + 1) (by omega)

theorem aset_loop_swap_less (xs ys : List cov_range) (k : Nat) : ∀ i : Nat,
    (value_aset.cmp_loop xs ys k i = some cmp_result.less ↔
      value_aset.cmp_loop ys xs k i = some cmp_result.greater) := by
  induction k with
  | zero => intro i; simp [value_aset.cmp_loop]
  | succ k ih =>
    intro i
    unfold value_aset.cmp_loop
    cases hx : xs[i]? <;> cases hy : ys[i]? <;> simp only []
    · simp
    · simp
    · simp
    · rename_i a b
      by_cases h : compare lt_nat a.start b.start = cmp_result.equal
      · have h2 := (compare_swap_equal lt_nat _ _).1 h
        by_cases h3 : compare lt_nat a.length b.length = cmp_result.equal
        · have h4 := (compare_swap_equal lt_nat _ _).1 h3
          simp only [h, h2, h3, h4, ne_eq, not_true_eq_false, if_false]
          exact ih (i + 1)
        · have h4 := mt (compare_swap_equal lt_nat _ _).1 h3
          simp only [h, h2, h3, h4, ne_eq, not_true_eq_false, if_false,
            not_false_eq_true, if_true, Option.some.injEq]
          exact compare_swap_less lt_nat lt_nat_asymm _ _
      · have h2 := mt (compare_swap_equal lt_nat _ _).1 h
        simp only [h, h2, ne_eq, not_false_eq_true, if_true, Option.some.injEq]
        exact compare_swap_less lt_nat lt_nat_asymm _ _

theorem aset_loop_swap_equal (xs ys : List cov_range) (k : Nat) : ∀ i : Nat,
    (value_aset.cmp_loop xs ys k i = some cmp_result.equal ↔
      value_aset.cmp_loop ys xs k i = some cmp_result.equal) := by
  induction k with
  | zero => intro i; simp [value_aset.cmp_loop]
  | succ k ih =>
    intro i
    unfold value_aset.cmp_loop
    cases hx : xs[i]? <;> cases hy : ys[i]? <;> simp only []
    rename_i a b
    by_cases h : compare lt_nat a.start b.start = cmp_result.equal
    · have h2 := (compare_swap_equal lt_nat _ _).1 h
      by_cases h3 : compare lt_nat a.length b.length = cmp_result.equal
      · have h4 := (compare_swap_equal lt_nat _ _).1 h3
        simp only [h, h2, h3, h4, ne_eq, not_true_eq_false, if_false]
        exact ih (i + 1)
      · have h4 := mt (compare_swap_equal lt_nat _ _).1 h3
        simp only [h, h2, h3, h4, ne_eq, not_true_eq_false, if_false,
          not_false_eq_true, if_true, Option.some.injEq]
    · have h2 := mt (compare_swap_equal lt_nat _ _).1 h
      simp only [h, h2, ne_eq, not_false_eq_true, if_true, Option.some.injEq]

/-! ## Facts about `cmp` within one class -/

theorem cmp_loclist_elem_total (a b : value_loclist_elem) :
    ∃ r, a.cmp (value.loclist_elem b) = some r ∧ r ≠ cmp_result.fail := by
  simp only [value_loclist_elem.cmp, value.as_loclist_elem]
  split_ifs with h1 h2
  · exact ⟨_, rfl, compare_ne_fail _ _ _⟩
  · exact ⟨_, rfl, compare_ne_fail _ _ _⟩
  · have h3 := (compare_tuple3_equal_iff _ _).1 (not_not.1 h2)
    simp only [Prod.mk.injEq, value_loclist_elem.m_exprlen] at h3
    exact loclist_loop_total _ _ _ 0 (by simp [value_loclist_elem.m_exprlen])
      (by simp [value_loclist_elem.m_exprlen, h3.2.2])

theorem cmp_aset_total (a b : value_aset) :
    ∃ r, a.cmp (value.aset b) = some r ∧ r ≠ cmp_result.fail := by
  simp only [value_aset.cmp, value.as_aset]
  split_ifs with h1
  · exact ⟨_, rfl, compare_ne_fail _ _ _⟩
  · have h3 := (compare_nat_equal_iff _ _).1 (not_not.1 h1)
    exact aset_loop_total _ _ _ 0 (by simp) (by simp [h3])

/-- Two values of one class: `cmp` returns, and never with `fail`. -/
theorem cmp_same_total (a b : value) (h : a.vtype_name = b.vtype_name) :
    ∃ r, value.cmp a b = some r ∧ r ≠ cmp_result.fail := by
  cases a <;> cases b <;> simp [value.vtype_name] at h
  · exact ⟨_, rfl, compare_ne_fail _ _ _⟩
  · exact ⟨_, rfl, compare_ne_fail _ _ _⟩
  · exact cmp_die_total _ _
  · simp only [value.cmp, value_attr.cmp, value.as_attr]
    split_ifs
    · exact ⟨_, rfl, compare_ne_fail _ _ _⟩
    · exact ⟨_, rfl, compare_ne_fail _ _ _⟩
  · exact ⟨_, rfl, compare_ne_fail _ _ _⟩
  · exact ⟨_, rfl, compare_ne_fail _ _ _⟩
  · exact ⟨_, rfl, compare_ne_fail _ _ _⟩
  · exact cmp_loclist_elem_total _ _
  · exact cmp_aset_total _ _
  · simp only [value.cmp, value_loclist_op.cmp, value.as_loclist_op]
    split_ifs
    · exact ⟨_, rfl, compare_ne_fail _ _ _⟩
    · exact ⟨_, rfl, compare_ne_fail _ _ _⟩

/-- Two values of different classes: `cmp` returns `fail`. -/
theorem cmp_other_fail (a b : value) (h : a.vtype_name ≠ b.vtype_name) :
    value.cmp a b = some cmp_result.fail := by
  cases a <;> cases b <;> first
    | (exfalso; exact h rfl)
    | rfl


/-! ## C1: `fail` exactly across classes -/

/-- C1: for all values `a`, `b` of the classes of `value-dw.cc`, `a.cmp (b)`
returns, and returns `fail` if and only if `a` and `b` are of different
classes; for two values of one class the result is one of less, equal,
greater (DIEs with import paths included). -/
theorem C1_cmp_fail_iff_classes_differ (a b : value) :
    ∃ r, value.cmp a b = some r ∧
      (r = cmp_result.fail ↔ a.vtype_name ≠ b.vtype_name) ∧
      ((a.vtype_name = b.vtype_name ∧
          (r = cmp_result.less ∨ r = cmp_result.equal
            ∨ r = cmp_result.greater))
        ∨ (a.vtype_name ≠ b.vtype_name ∧ r = cmp_result.fail)) := by
  by_cases h : a.vtype_name = b.vtype_name
  · obtain ⟨r, hr, hne⟩ := cmp_same_total a b h
    refine ⟨r, hr, ?_, Or.inl ⟨h, ?_⟩⟩
    · constructor
      · intro hf; exact absurd hf hne
      · intro hd; exact absurd h hd
    · cases r <;> simp at hne ⊢
  · refine ⟨cmp_result.fail, cmp_other_fail a b h, ?_, Or.inr ⟨h, rfl⟩⟩
    constructor
    · intro _; exact h
    · intro _; rfl

/-! ## C2: the order of `value_die::cmp` -/

/-- C2: for all DIEs `a`, `b`, `value_die::cmp` is the comparison of the
owning Dwarf handles when they differ, else the comparison of the offsets
when they differ; when both agree it is equal as soon as `a` is raw, `b` is
raw, `a` has no import path or `b` has none, and it is the comparison of
the import paths when both are cooked and both have one. -/
theorem C2_die_cmp_by_dwarf_offset_import (a b : value_die) :
    (dwarf_cu_getdwarf a.m_die.cu ≠ dwarf_cu_getdwarf b.m_die.cu →
      a.cmp (value.die b) = some (compare lt_nat
        (dwarf_cu_getdwarf a.m_die.cu) (dwarf_cu_getdwarf b.m_die.cu)))
    ∧ (dwarf_cu_getdwarf a.m_die.cu = dwarf_cu_getdwarf b.m_die.cu →
      dwarf_dieoffset a.m_die ≠ dwarf_dieoffset b.m_die →
      a.cmp (value.die b) = some (compare lt_nat
        (dwarf_dieoffset a.m_die) (dwarf_dieoffset b.m_die)))
    ∧ (dwarf_cu_getdwarf a.m_die.cu = dwarf_cu_getdwarf b.m_die.cu →
      dwarf_dieoffset a.m_die = dwarf_dieoffset b.m_die →
      (a.is_raw = true ∨ b.is_raw = true
        ∨ a.m_import = none ∨ b.m_import = none) →
      a.cmp (value.die b) = some cmp_result.equal)
    ∧ (∀ i j : value_die,
      dwarf_cu_getdwarf a.m_die.cu = dwarf_cu_getdwarf b.m_die.cu →
      dwarf_dieoffset a.m_die = dwarf_dieoffset b.m_die →
      a.is_raw = false → b.is_raw = false →
      a.m_import = some i → b.m_import = some j →
      a.cmp (value.die b) = i.cmp (value.die j)) := by
  obtain ⟨p1, d1, c1, die1, imp1⟩ := a
  obtain ⟨p2, d2, c2, die2, imp2⟩ := b
  simp only [value_die.cmp, value.as_die, value_die.m_die,
    value_die.m_import, value_die.is_raw, value_die.m_doneness]
  rw [cmp_die_eq]
  simp only [value_die.m_die, value_die.m_import, value_die.m_doneness]
  refine ⟨?_, ?_, ?_, ?_⟩
  · intro h1; simp [h1]
  · intro h1 h2; simp [h1, h2]
  · intro h1 h2 h3
    cases d1 <;> cases d2 <;> cases imp1 <;> cases imp2 <;>
      simp_all
  · intro i j h1 h2 h3 h4 h5 h6
    cases d1 <;> cases d2 <;> simp_all

/-- C2 at the two DIEs at offset `5` that are reached through the imports at
offsets `1` and `2`: their comparison is that of the two imports, less. -/
theorem C2_die_cmp_by_dwarf_offset_import_witness :
    die_via_1.cmp (value.die die_via_2)
        = (sample_die doneness.cooked 1 none).cmp
            (value.die (sample_die doneness.cooked 2 none))
      ∧ die_via_1.cmp (value.die die_via_2) = some cmp_result.less
      ∧ die_via_1.cmp (value.die die_raw_5) = some cmp_result.equal :=
  ⟨(C2_die_cmp_by_dwarf_offset_import die_via_1 die_via_2).2.2.2
      (sample_die doneness.cooked 1 none) (sample_die doneness.cooked 2 none)
      rfl rfl rfl rfl rfl rfl,
    by decide,
    (C2_die_cmp_by_dwarf_offset_import die_via_1 die_raw_5).2.2.1
      rfl rfl (Or.inr (Or.inl rfl))⟩


/-! ## C3: transitivity of `value_die::cmp` -/

/-- Two DIEs that compare equal are of one Dwarf and at one offset. -/
theorem cmp_die_equal_same (a b : value_die)
    (h : value_die.cmp_die a b = some cmp_result.equal) :
    dwarf_cu_getdwarf a.m_die.cu = dwarf_cu_getdwarf b.m_die.cu
      ∧ dwarf_dieoffset a.m_die = dwarf_dieoffset b.m_die := by
  rw [cmp_die_eq] at h
  by_cases h1 : dwarf_cu_getdwarf a.m_die.cu = dwarf_cu_getdwarf b.m_die.cu
  · by_cases h2 : dwarf_dieoffset a.m_die = dwarf_dieoffset b.m_die
    · exact ⟨h1, h2⟩
    · simp [h1, h2, compare_nat_equal_iff] at h
  · simp [h1, compare_nat_equal_iff] at h

/-- Less is transitive on DIEs. -/
theorem cmp_die_less_trans (a : value_die) : ∀ b c : value_die,
    value_die.cmp_die a b = some cmp_result.less →
    value_die.cmp_die b c = some cmp_result.less →
    value_die.cmp_die a c = some cmp_result.less := by
  induction a using value_die.induction_on with
  | h p1 d1 c1 die1 imp1 ih =>
    intro b c
    obtain ⟨p2, d2, c2, die2, imp2⟩ := b
    obtain ⟨p3, d3, c3, die3, imp3⟩ := c
    rw [cmp_die_eq, cmp_die_eq, cmp_die_eq]
    simp only [value_die.m_die, value_die.m_doneness, value_die.m_import]
    by_cases h1 : dwarf_cu_getdwarf die1.cu = dwarf_cu_getdwarf die2.cu
    · by_cases h2 : dwarf_cu_getdwarf die2.cu = dwarf_cu_getdwarf die3.cu
      · by_cases h3 : dwarf_dieoffset die1 = dwarf_dieoffset die2
        · by_cases h4 : dwarf_dieoffset die2 = dwarf_dieoffset die3
          · simp only [h1, h2, h3, h4, ne_eq, not_true_eq_false, if_false]
            cases d1 <;> cases d2 <;> cases d3 <;> cases imp1 <;>
              cases imp2 <;> cases imp3 <;> simp
            exact ih _ rfl _ _
          · simp only [h1, h2, h3, h4, ne_eq, not_true_eq_false, if_false,
              not_false_eq_true, if_true, Option.some.injEq]
            intro _ h; exact h
        · by_cases h4 : dwarf_dieoffset die2 = dwarf_dieoffset die3
          · simp only [h1, h2, h3, ← h4, ne_eq, not_true_eq_false, if_false,
              not_false_eq_true, if_true, Option.some.injEq]
            intro h _; exact h
          · simp only [h1, h2, h3, h4, ne_eq, not_true_eq_false, if_false,
              not_false_eq_true, if_true, Option.some.injEq,
              compare_nat_less_iff]
            intro h5 h6
            have h7 : dwarf_dieoffset die1 < dwarf_dieoffset die3 := by omega
            have h8 : dwarf_dieoffset die1 ≠ dwarf_dieoffset die3 := by omega
            simp [h8, compare_nat_less_iff, h7]
      · simp only [h1, h2, ne_eq, not_true_eq_false, if_false,
          not_false_eq_true, if_true, Option.some.injEq]
        intro _ h; exact h
    · by_cases h2 : dwarf_cu_getdwarf die2.cu = dwarf_cu_getdwarf die3.cu
      · simp only [h1, ← h2, ne_eq, not_true_eq_false, if_false,
          not_false_eq_true, if_true, Option.some.injEq]
        intro h _; exact h
      · simp only [h1, h2, ne_eq, not_false_eq_true, if_true,
          Option.some.injEq, compare_nat_less_iff]
        intro h5 h6
        have h7 : dwarf_cu_getdwarf die1.cu < dwarf_cu_getdwarf die3.cu := by
          omega
        have h8 : dwarf_cu_getdwarf die1.cu ≠ dwarf_cu_getdwarf die3.cu := by
          omega
        simp [h8, compare_nat_less_iff, h7]

/-- Equal is transitive on DIEs when the middle one is at least as refined
as the less refined outer one. -/
theorem cmp_die_equal_trans (a : value_die) : ∀ b c : value_die,
    value_die.cmp_die a b = some cmp_result.equal →
    value_die.cmp_die b c = some cmp_result.equal →
    min a.refinement c.refinement ≤ b.refinement →
    value_die.cmp_die a c = some cmp_result.equal := by
  induction a using value_die.induction_on with
  | h p1 d1 c1 die1 imp1 ih =>
    intro b c h1 h2 h3
    have e1 := cmp_die_equal_same _ b h1
    have e2 := cmp_die_equal_same b c h2
    obtain ⟨p2, d2, c2, die2, imp2⟩ := b
    obtain ⟨p3, d3, c3, die3, imp3⟩ := c
    rw [cmp_die_eq] at h1 h2 ⊢
    simp only [value_die.m_die, value_die.m_doneness, value_die.m_import]
      at e1 e2 h1 h2 ⊢
    have e3 : dwarf_cu_getdwarf die1.cu = dwarf_cu_getdwarf die3.cu :=
      e1.1.trans e2.1
    have e4 : dwarf_dieoffset die1 = dwarf_dieoffset die3 := e1.2.trans e2.2
    simp only [e1.1, e1.2, e2.1, e2.2, ne_eq, not_true_eq_false, if_false]
      at h1 h2
    simp only [e3, e4, ne_eq, not_true_eq_false, if_false]
    cases d1 <;> cases d3 <;> cases imp1 <;> cases imp3 <;>
      try (simp; done)
    rename_i i1 i3
    cases d2 <;> cases imp2 <;>
      simp only [value_die.refinement] at h3 <;> try omega
    rename_i i2
    simp at h1 h2 ⊢
    exact ih i1 rfl i2 i3 h1 h2 (by omega)

/-- The refinement of a DIE is zero exactly when the DIE is raw or has
no import path. -/
theorem refinement_zero_iff (a : value_die) :
    a.refinement = 0 ↔ (a.is_raw = true ∨ a.m_import = none) := by
  obtain ⟨p1, d1, c1, die1, imp1⟩ := a
  cases d1 <;> cases imp1 <;>
    simp [value_die.refinement, value_die.is_raw, value_die.m_import,
      value_die.m_doneness]

/-- C3, as the code has it: on DIEs less is transitive for every mix of raw
and cooked DIEs with and without import paths; equal is transitive whenever
the middle DIE `b` is at least as refined as the less refined of `a` and `c`,
where the refinement of a DIE counts the steps that the comparison can follow
along its import path: none for a raw DIE or one without import path, one
more than for its import DIE otherwise.  So equal is transitive among three
cooked DIEs whose import paths are equally long, and whenever `a` or `c` is
raw or has no import path. -/
theorem C3_die_cmp_transitive (a b c : value_die) :
    (a.cmp (value.die b) = some cmp_result.less →
      b.cmp (value.die c) = some cmp_result.less →
      a.cmp (value.die c) = some cmp_result.less)
    ∧ (a.cmp (value.die b) = some cmp_result.equal →
      b.cmp (value.die c) = some cmp_result.equal →
      min a.refinement c.refinement ≤ b.refinement →
      a.cmp (value.die c) = some cmp_result.equal)
    ∧ (a.refinement = 0 ↔ (a.is_raw = true ∨ a.m_import = none))
    ∧ (a.is_raw = false → ∀ i, a.m_import = some i →
      a.refinement = i.refinement + 1)
    ∧ (a.cmp (value.die b) = some cmp_result.equal →
      b.cmp (value.die c) = some cmp_result.equal →
      (a.is_raw = true ∨ a.m_import = none
        ∨ c.is_raw = true ∨ c.m_import = none) →
      a.cmp (value.die c) = some cmp_result.equal) := by
  simp only [value_die.cmp, value.as_die]
  refine ⟨cmp_die_less_trans a b c, cmp_die_equal_trans a b c,
    refinement_zero_iff a, ?_, ?_⟩
  · intro h1 i h2
    obtain ⟨p1, d1, c1, die1, imp1⟩ := a
    cases d1
    · simp [value_die.is_raw, value_die.m_doneness] at h1
    · simp only [value_die.m_import] at h2
      subst h2
      simp [value_die.refinement]
  · intro h1 h2 h3
    apply cmp_die_equal_trans a b c h1 h2
    have ha := refinement_zero_iff a
    have hc := refinement_zero_iff c
    rcases h3 with h | h | h | h
    · rw [ha.2 (Or.inl h)]; simp
    · rw [ha.2 (Or.inr h)]; simp
    · rw [hc.2 (Or.inl h)]; simp
    · rw [hc.2 (Or.inr h)]; simp

/-- C3 at sample DIEs: three DIEs in ascending order through their import
paths, and three different cooked DIEs at offset `5`, each with an import
path through offset `1`, the middle one with the longest path. -/
theorem C3_die_cmp_transitive_witness :
    (sample_die doneness.cooked 5 (some (sample_die doneness.cooked 0 none))).cmp
        (value.die die_via_2) = some cmp_result.less
      ∧ (die_via_1.cmp (value.die die_via_1_via_9) = some cmp_result.equal
        ∧ die_via_1_via_9.cmp (value.die die_via_raw_1)
          = some cmp_result.equal
        ∧ min die_via_1.refinement die_via_raw_1.refinement
          ≤ die_via_1_via_9.refinement
        ∧ die_via_1.cmp (value.die die_via_raw_1) = some cmp_result.equal) :=
  ⟨(C3_die_cmp_transitive
      (sample_die doneness.cooked 5 (some (sample_die doneness.cooked 0 none)))
      die_via_1 die_via_2).1 (by decide) (by decide),
    by decide, by decide, by decide,
    (C3_die_cmp_transitive die_via_1 die_via_1_via_9 die_via_raw_1).2.1
      (by decide) (by decide) (by decide)⟩

/-- C3 as stated fails: the raw DIE at offset `5` compares equal to both
cooked DIEs at offset `5`, which differ in their import paths. -/
theorem C3_equal_not_transitive :
    die_via_1.cmp (value.die die_raw_5) = some cmp_result.equal
      ∧ die_raw_5.cmp (value.die die_via_2) = some cmp_result.equal
      ∧ die_via_1.cmp (value.die die_via_2) = some cmp_result.less
      ∧ die_via_1.cmp (value.die die_via_2) ≠ some cmp_result.equal := by
  decide

/-! ## C4: `value_abbrev_attr::cmp` -/

/-- C4, as the code has it: two abbreviation attributes compare equal if and
only if their offsets are the same; name and form take no part. -/
theorem C4_abbrev_attr_equal_iff_offset (a b : value_abbrev_attr) :
    a.cmp (value.abbrev_attr b) = some cmp_result.equal
      ↔ a.offset = b.offset := by
  simp [value_abbrev_attr.cmp, value.as_abbrev_attr, compare_nat_equal_iff]

/-- C4 as stated fails: two abbreviation attributes at one offset compare
equal although their names differ. -/
theorem C4_equal_with_names_differing :
    abbrev_attr_name_1.cmp (value.abbrev_attr abbrev_attr_name_2)
        = some cmp_result.equal
      ∧ abbrev_attr_name_2.cmp (value.abbrev_attr abbrev_attr_name_1)
        = some cmp_result.equal
      ∧ abbrev_attr_name_1.name ≠ abbrev_attr_name_2.name
      ∧ abbrev_attr_name_1 ≠ abbrev_attr_name_2 := by
  decide


/-! ## C5: exchanging the operands -/

theorem cmp_loclist_elem_self (a : value_loclist_elem) :
    a.cmp (value.loclist_elem a) = some cmp_result.equal := by
  simp only [value_loclist_elem.cmp, value.as_loclist_elem,
    compare_self lt_nat lt_nat_asymm, compare_self lt_tuple3 lt_tuple3_asymm]
  simp
  exact loclist_loop_self _ _ 0 (by simp [value_loclist_elem.m_exprlen])

theorem cmp_aset_self (a : value_aset) :
    a.cmp (value.aset a) = some cmp_result.equal := by
  simp only [value_aset.cmp, value.as_aset, compare_self lt_nat lt_nat_asymm]
  simp
  exact aset_loop_self _ _ 0 (by simp)

/-- A value compares equal to itself. -/
theorem cmp_self (a : value) : value.cmp a a = some cmp_result.equal := by
  cases a <;> first
    | exact cmp_die_self _
    | exact cmp_loclist_elem_self _
    | exact cmp_aset_self _
    | simp [value.cmp, value_dwarf.cmp, value.as_dwarf, value_cu.cmp,
        value.as_cu, value_attr.cmp, value.as_attr, value_abbrev_unit.cmp,
        value.as_abbrev_unit, value_abbrev.cmp, value.as_abbrev,
        value_abbrev_attr.cmp, value.as_abbrev_attr, value_loclist_op.cmp,
        value.as_loclist_op, compare_self lt_nat lt_nat_asymm]

theorem cmp_attr_swap_less (a b : value_attr) :
    (a.cmp (value.attr b) = some cmp_result.less ↔
      b.cmp (value.attr a) = some cmp_result.greater) := by
  simp only [value_attr.cmp, value.as_attr]
  by_cases h : dwarf_dieoffset a.m_die = dwarf_dieoffset b.m_die
  · simp [h, compare_swap_less lt_nat lt_nat_asymm]
  · simp [h, Ne.symm h, compare_swap_less lt_nat lt_nat_asymm]

theorem cmp_attr_swap_equal (a b : value_attr) :
    (a.cmp (value.attr b) = some cmp_result.equal ↔
      b.cmp (value.attr a) = some cmp_result.equal) := by
  simp only [value_attr.cmp, value.as_attr]
  by_cases h : dwarf_dieoffset a.m_die = dwarf_dieoffset b.m_die
  · simp [h, compare_swap_equal lt_nat (dwarf_whatattr a.m_attr)]
  · simp [h, Ne.symm h, compare_swap_equal lt_nat (dwarf_dieoffset a.m_die)]

theorem cmp_loclist_op_swap_less (a b : value_loclist_op) :
    (a.cmp (value.loclist_op b) = some cmp_result.less ↔
      b.cmp (value.loclist_op a) = some cmp_result.greater) := by
  simp only [value_loclist_op.cmp, value.as_loclist_op]
  by_cases h : compare lt_nat a.m_attr.valp b.m_attr.valp = cmp_result.equal
  · have h2 := (compare_swap_equal lt_nat _ _).1 h
    simp [h, h2, compare_swap_less lt_nat lt_nat_asymm]
  · have h2 := mt (compare_swap_equal lt_nat _ _).1 h
    simp [h, h2, compare_swap_less lt_nat lt_nat_asymm]

theorem cmp_loclist_op_swap_equal (a b : value_loclist_op) :
    (a.cmp (value.loclist_op b) = some cmp_result.equal ↔
      b.cmp (value.loclist_op a) = some cmp_result.equal) := by
  simp only [value_loclist_op.cmp, value.as_loclist_op]
  by_cases h : compare lt_nat a.m_attr.valp b.m_attr.valp = cmp_result.equal
  · have h2 := (compare_swap_equal lt_nat _ _).1 h
    simp [h, h2, compare_swap_equal lt_nat a.m_dwop.offset]
  · have h2 := mt (compare_swap_equal lt_nat _ _).1 h
    simp [h, h2]

theorem cmp_loclist_elem_swap_less (a b : value_loclist_elem) :
    (a.cmp (value.loclist_elem b) = some cmp_result.less ↔
      b.cmp (value.loclist_elem a) = some cmp_result.greater) := by
  simp only [value_loclist_elem.cmp, value.as_loclist_elem]
  by_cases h : compare lt_nat a.m_attr.valp b.m_attr.valp = cmp_result.equal
  · have h2 := (compare_swap_equal lt_nat _ _).1 h
    by_cases h3 : compare lt_tuple3 (a.m_low, a.m_high, a.m_exprlen)
        (b.m_low, b.m_high, b.m_exprlen) = cmp_result.equal
    · have h4 := (compare_swap_equal lt_tuple3 _ _).1 h3
      have h5 := (compare_tuple3_equal_iff _ _).1 h3
      simp only [Prod.mk.injEq] at h5
      simp only [h, h2, h3, h4, ne_eq, not_true_eq_false, if_false]
      rw [h5.2.2]
      exact loclist_loop_swap_less _ _ _ 0
    · have h4 := mt (compare_swap_equal lt_tuple3 _ _).1 h3
      simp [h, h2, h3, h4, compare_swap_less lt_tuple3 lt_tuple3_asymm]
  · have h2 := mt (compare_swap_equal lt_nat _ _).1 h
    simp [h, h2, compare_swap_less lt_nat lt_nat_asymm]

theorem cmp_loclist_elem_swap_equal (a b : value_loclist_elem) :
    (a.cmp (value.loclist_elem b) = some cmp_result.equal ↔
      b.cmp (value.loclist_elem a) = some cmp_result.equal) := by
  simp only [value_loclist_elem.cmp, value.as_loclist_elem]
  by_cases h : compare lt_nat a.m_attr.valp b.m_attr.valp = cmp_result.equal
  · have h2 := (compare_swap_equal lt_nat _ _).1 h
    by_cases h3 : compare lt_tuple3 (a.m_low, a.m_high, a.m_exprlen)
        (b.m_low, b.m_high, b.m_exprlen) = cmp_result.equal
    · have h4 := (compare_swap_equal lt_tuple3 _ _).1 h3
      have h5 := (compare_tuple3_equal_iff _ _).1 h3
      simp only [Prod.mk.injEq] at h5
      simp only [h, h2, h3, h4, ne_eq, not_true_eq_false, if_false]
      rw [h5.2.2]
      exact loclist_loop_swap_equal _ _ _ 0
    · have h4 := mt (compare_swap_equal lt_tuple3 _ _).1 h3
      simp [h, h2, h3, h4]
  · have h2 := mt (compare_swap_equal lt_nat _ _).1 h
    simp [h, h2]

theorem cmp_aset_swap_less (a b : value_aset) :
    (a.cmp (value.aset b) = some cmp_result.less ↔
      b.cmp (value.aset a) = some cmp_result.greater) := by
  simp only [value_aset.cmp, value.as_aset]
  by_cases h : compare lt_nat a.cov.length b.cov.length = cmp_result.equal
  · have h2 := (compare_swap_equal lt_nat _ _).1 h
    have h5 := (compare_nat_equal_iff _ _).1 h
    simp only [h, h2, ne_eq, not_true_eq_false, if_false]
    rw [h5]
    exact aset_loop_swap_less _ _ _ 0
  · have h2 := mt (compare_swap_equal lt_nat _ _).1 h
    simp [h, h2, compare_swap_less lt_nat lt_nat_asymm]

theorem cmp_aset_swap_equal (a b : value_aset) :
    (a.cmp (value.aset b) = some cmp_result.equal ↔
      b.cmp (value.aset a) = some cmp_result.equal) := by
  simp only [value_aset.cmp, value.as_aset]
  by_cases h : compare lt_nat a.cov.length b.cov.length = cmp_result.equal
  · have h2 := (compare_swap_equal lt_nat _ _).1 h
    have h5 := (compare_nat_equal_iff _ _).1 h
    simp only [h, h2, ne_eq, not_true_eq_false, if_false]
    rw [h5]
    exact aset_loop_swap_equal _ _ _ 0
  · have h2 := mt (compare_swap_equal lt_nat _ _).1 h
    simp [h, h2]

/-- Exchanging the operands of `cmp` turns less into greater and back. -/
theorem cmp_swap_less (a b : value) :
    (value.cmp a b = some cmp_result.less ↔
      value.cmp b a = some cmp_result.greater) := by
  by_cases hv : a.vtype_name = b.vtype_name
  · cases a <;> cases b <;> simp [value.vtype_name] at hv
    · exact (Option.some_inj.trans
        (compare_swap_less lt_nat lt_nat_asymm _ _)).trans Option.some_inj.symm
    · exact (Option.some_inj.trans
        (compare_swap_less lt_nat lt_nat_asymm _ _)).trans Option.some_inj.symm
    · exact cmp_die_swap_less _ _
    · exact cmp_attr_swap_less _ _
    · exact (Option.some_inj.trans
        (compare_swap_less lt_nat lt_nat_asymm _ _)).trans Option.some_inj.symm
    · exact (Option.some_inj.trans
        (compare_swap_less lt_nat lt_nat_asymm _ _)).trans Option.some_inj.symm
    · exact (Option.some_inj.trans
        (compare_swap_less lt_nat lt_nat_asymm _ _)).trans Option.some_inj.symm
    · exact cmp_loclist_elem_swap_less _ _
    · exact cmp_aset_swap_less _ _
    · exact cmp_loclist_op_swap_less _ _
  · rw [cmp_other_fail a b hv, cmp_other_fail b a (Ne.symm hv)]
    simp

/-- Two values compare equal in either order. -/
theorem cmp_swap_equal (a b : value) :
    (value.cmp a b = some cmp_result.equal ↔
      value.cmp b a = some cmp_result.equal) := by
  by_cases hv : a.vtype_name = b.vtype_name
  · cases a <;> cases b <;> simp [value.vtype_name] at hv
    · exact (Option.some_inj.trans
        (compare_swap_equal lt_nat _ _)).trans Option.some_inj.symm
    · exact (Option.some_inj.trans
        (compare_swap_equal lt_nat _ _)).trans Option.some_inj.symm
    · exact cmp_die_swap_equal _ _
    · exact cmp_attr_swap_equal _ _
    · exact (Option.some_inj.trans
        (compare_swap_equal lt_nat _ _)).trans Option.some_inj.symm
    · exact (Option.some_inj.trans
        (compare_swap_equal lt_nat _ _)).trans Option.some_inj.symm
    · exact (Option.some_inj.trans
        (compare_swap_equal lt_nat _ _)).trans Option.some_inj.symm
    · exact cmp_loclist_elem_swap_equal _ _
    · exact cmp_aset_swap_equal _ _
    · exact cmp_loclist_op_swap_equal _ _
  · rw [cmp_other_fail a b hv, cmp_other_fail b a (Ne.symm hv)]

/-- C5: for all values `a`, `b` of one class of `value-dw.cc`, `cmp (a, a)`
is equal, `cmp (a, b)` is less if and only if `cmp (b, a)` is greater, and
`cmp (a, b)` is equal if and only if `cmp (b, a)` is equal; the recursion
into import paths of DIEs and the loops of location-list elements and address
sets are included. -/
theorem C5_cmp_mirrors_on_exchange (a b : value)
    (h : a.vtype_name = b.vtype_name) :
    value.cmp a a = some cmp_result.equal
      ∧ (value.cmp a b = some cmp_result.less ↔
          value.cmp b a = some cmp_result.greater)
      ∧ (value.cmp a b = some cmp_result.equal ↔
          value.cmp b a = some cmp_result.equal)
      ∧ ∃ r, value.cmp a b = some r ∧ r ≠ cmp_result.fail :=
  ⟨cmp_self a, cmp_swap_less a b, cmp_swap_equal a b, cmp_same_total a b h⟩


/-- C5 at two DIEs that differ in their import paths and at two address sets
that differ in their last range. -/
theorem C5_cmp_mirrors_on_exchange_witness :
    (value.cmp (value.die die_via_1) (value.die die_via_1)
        = some cmp_result.equal
      ∧ (value.cmp (value.die die_via_1) (value.die die_via_2)
          = some cmp_result.less ↔
        value.cmp (value.die die_via_2) (value.die die_via_1)
          = some cmp_result.greater)
      ∧ (value.cmp (value.die die_via_1) (value.die die_via_2)
          = some cmp_result.equal ↔
        value.cmp (value.die die_via_2) (value.die die_via_1)
          = some cmp_result.equal)
      ∧ ∃ r, value.cmp (value.die die_via_1) (value.die die_via_2) = some r
          ∧ r ≠ cmp_result.fail)
    ∧ (value.cmp (value.aset aset_short) (value.aset aset_short)
        = some cmp_result.equal
      ∧ (value.cmp (value.aset aset_short) (value.aset aset_long)
          = some cmp_result.less ↔
        value.cmp (value.aset aset_long) (value.aset aset_short)
          = some cmp_result.greater)
      ∧ (value.cmp (value.aset aset_short) (value.aset aset_long)
          = some cmp_result.equal ↔
        value.cmp (value.aset aset_long) (value.aset aset_short)
          = some cmp_result.equal)
      ∧ ∃ r, value.cmp (value.aset aset_short) (value.aset aset_long) = some r
          ∧ r ≠ cmp_result.fail) :=
  ⟨C5_cmp_mirrors_on_exchange (value.die die_via_1) (value.die die_via_2) rfl,
    C5_cmp_mirrors_on_exchange (value.aset aset_short) (value.aset aset_long)
      rfl⟩

/-! ## Facts about the valfile -/

theorem valfile_split_top (vf : valfile) (h : 1 ≤ vf.size) :
    ∃ rest a, vf.m_values = rest ++ [a] := by
  have hne : vf.m_values ≠ [] := by
    intro h0; simp [valfile.size, h0] at h
  exact ⟨vf.m_values.dropLast, vf.m_values.getLast hne,
    (List.dropLast_append_getLast hne).symm⟩

theorem valfile_split_two (vf : valfile) (h : 2 ≤ vf.size) :
    ∃ rest b a, vf.m_values = rest ++ [b, a] := by
  obtain ⟨r1, a, h1⟩ := valfile_split_top vf (by omega)
  have h2 : 1 ≤ (valfile.mk r1).size := by
    simp [valfile.size, h1] at h ⊢; omega
  obtain ⟨r2, b, h3⟩ := valfile_split_top (valfile.mk r1) h2
  simp only at h3
  exact ⟨r2, b, a, by rw [h1, h3]; simp⟩

theorem valfile_pop_concat (rest : List value) (a : value) :
    (valfile.mk (rest ++ [a])).pop = some (a, valfile.mk rest) := by
  simp [valfile.pop]

theorem valfile_top_concat (rest : List value) (a : value) :
    (valfile.mk (rest ++ [a])).top = some a := by
  simp [valfile.top]

theorem valfile_below_concat (rest : List value) (b a : value) :
    (valfile.mk (rest ++ [b, a])).below = some b := by
  have h : rest ++ [b, a] = (rest ++ [b]) ++ [a] := by simp
  show (rest ++ [b, a]).dropLast.getLast? = some b
  rw [h, List.dropLast_concat]
  simp

theorem value_clone_eq (v : value) : v.clone = v := by
  cases v <;> rfl


/-! ## C6 to C9: the four shuffles on one valfile -/

/-- C6: when upstream produces a valfile of depth at least one,
`op_drop::next` returns that valfile without its top value: the depth is one
less and the remaining slots are unchanged, in the same order. -/
theorem C6_drop_removes_top {σ : Type} (upstream : op σ) (s t : σ)
    (vf : valfile) (hup : upstream.next s = some (some vf, t))
    (hsize : 1 ≤ vf.size) :
    ∃ top out, vf.top = some top
      ∧ op_drop.next upstream s = some (some out, t)
      ∧ vf.m_values = out.m_values ++ [top]
      ∧ out.size + 1 = vf.size
      ∧ ∀ i, i < out.size → out.m_values[i]? = vf.m_values[i]? := by
  obtain ⟨rest, a, h⟩ := valfile_split_top vf hsize
  obtain ⟨vals⟩ := vf
  simp only at h
  subst h
  refine ⟨a, valfile.mk rest, valfile_top_concat rest a, ?_, rfl, ?_, ?_⟩
  · simp only [op_drop.next, hup, valfile_pop_concat]
  · simp [valfile.size]
  · intro i hi
    simp only [valfile.size] at hi
    simp [List.getElem?_append_left hi]

/-- C6 on the sample valfile: the address set on top goes, the CU and the DIE
stay. -/
theorem C6_drop_removes_top_witness :
    ∃ top out, sample_valfile.top = some top
      ∧ op_drop.next op_of_list [sample_valfile] = some (some out, [])
      ∧ sample_valfile.m_values = out.m_values ++ [top]
      ∧ out.size + 1 = sample_valfile.size
      ∧ ∀ i, i < out.size →
          out.m_values[i]? = sample_valfile.m_values[i]? :=
  C6_drop_removes_top op_of_list [sample_valfile] [] sample_valfile rfl
    (by decide)

/-- C7: when upstream produces a valfile of depth at least two,
`op_swap::next` returns it with the top value and the one below exchanged;
the depth and the slots beneath the two are unchanged. -/
theorem C7_swap_exchanges_top_two {σ : Type} (upstream : op σ) (s t : σ)
    (vf : valfile) (hup : upstream.next s = some (some vf, t))
    (hsize : 2 ≤ vf.size) :
    ∃ a b rest out, vf.top = some a ∧ vf.below = some b
      ∧ vf.m_values = rest ++ [b, a]
      ∧ op_swap.next upstream s = some (some out, t)
      ∧ out.m_values = rest ++ [a, b]
      ∧ out.top = some b ∧ out.below = some a
      ∧ out.size = vf.size
      ∧ ∀ i, i + 2 < vf.size → out.m_values[i]? = vf.m_values[i]? := by
  obtain ⟨rest, b, a, h⟩ := valfile_split_two vf hsize
  obtain ⟨vals⟩ := vf
  simp only at h
  subst h
  have h2 : rest ++ [b, a] = (rest ++ [b]) ++ [a] := by simp
  have h3 : rest ++ [a, b] = (rest ++ [a]) ++ [b] := by simp
  refine ⟨a, b, rest, valfile.mk (rest ++ [a, b]), ?_, valfile_below_concat rest b a,
    rfl, ?_, rfl, ?_, valfile_below_concat rest a b, ?_, ?_⟩
  · rw [h2]; exact valfile_top_concat _ a
  · simp only [op_swap.next, hup]
    rw [h2, valfile_pop_concat]
    simp only [valfile_pop_concat, valfile.push, List.append_assoc,
      List.singleton_append]
  · rw [h3]; exact valfile_top_concat _ b
  · simp [valfile.size]
  · intro i hi
    simp only [valfile.size, List.length_append, List.length_cons,
      List.length_nil] at hi
    have hi2 : i < rest.length := by omega
    simp [List.getElem?_append_left hi2]

/-- C7 on the sample valfile: the DIE comes on top of the address set, the CU
stays at the bottom. -/
theorem C7_swap_exchanges_top_two_witness :
    ∃ a b rest out, sample_valfile.top = some a
      ∧ sample_valfile.below = some b
      ∧ sample_valfile.m_values = rest ++ [b, a]
      ∧ op_swap.next op_of_list [sample_valfile] = some (some out, [])
      ∧ out.m_values = rest ++ [a, b]
      ∧ out.top = some b ∧ out.below = some a
      ∧ out.size = sample_valfile.size
      ∧ ∀ i, i + 2 < sample_valfile.size →
          out.m_values[i]? = sample_valfile.m_values[i]? :=
  C7_swap_exchanges_top_two op_of_list [sample_valfile] [] sample_valfile rfl
    (by decide)

/-- C8: when upstream produces a valfile of depth at least one,
`op_dup::next` returns it with one more value on top, a clone of the former
top: of the same class and comparing equal to it; all former slots, the
former top included, are unchanged. -/
theorem C8_dup_pushes_clone_of_top {σ : Type} (upstream : op σ) (s t : σ)
    (vf : valfile) (hup : upstream.next s = some (some vf, t))
    (hsize : 1 ≤ vf.size) :
    ∃ top out, vf.top = some top
      ∧ op_dup.next upstream s = some (some out, t)
      ∧ out.m_values = vf.m_values ++ [top.clone]
      ∧ out.top = some top.clone ∧ out.below = some top
      ∧ top.clone.vtype_name = top.vtype_name
      ∧ value.cmp top.clone top = some cmp_result.equal
      ∧ out.size = vf.size + 1
      ∧ ∀ i, i < vf.size → out.m_values[i]? = vf.m_values[i]? := by
  obtain ⟨rest, a, h⟩ := valfile_split_top vf hsize
  obtain ⟨vals⟩ := vf
  simp only at h
  subst h
  refine ⟨a, valfile.mk (rest ++ [a] ++ [a.clone]), valfile_top_concat rest a,
    ?_, rfl, valfile_top_concat _ _, ?_, ?_, ?_, ?_, ?_⟩
  · simp only [op_dup.next, hup, valfile_top_concat, valfile.push]
  · have h := valfile_below_concat rest a a.clone
    simpa using h
  · rw [value_clone_eq]
  · rw [value_clone_eq]; exact cmp_self a
  · simp [valfile.size]
  · intro i hi
    simp only [valfile.size] at hi
    simp only [List.getElem?_append_left hi]

/-- C8 on the sample valfile: a second address set comes on top. -/
theorem C8_dup_pushes_clone_of_top_witness :
    ∃ top out, sample_valfile.top = some top
      ∧ op_dup.next op_of_list [sample_valfile] = some (some out, [])
      ∧ out.m_values = sample_valfile.m_values ++ [top.clone]
      ∧ out.top = some top.clone ∧ out.below = some top
      ∧ top.clone.vtype_name = top.vtype_name
      ∧ value.cmp top.clone top = some cmp_result.equal
      ∧ out.size = sample_valfile.size + 1
      ∧ ∀ i, i < sample_valfile.size →
          out.m_values[i]? = sample_valfile.m_values[i]? :=
  C8_dup_pushes_clone_of_top op_of_list [sample_valfile] [] sample_valfile rfl
    (by decide)

/-- C9: when upstream produces a valfile of depth at least two,
`op_over::next` returns it with one more value on top, a clone of the value
that was second from the top: of the same class and comparing equal to it;
all former slots are unchanged. -/
theorem C9_over_pushes_clone_of_below {σ : Type} (upstream : op σ) (s t : σ)
    (vf : valfile) (hup : upstream.next s = some (some vf, t))
    (hsize : 2 ≤ vf.size) :
    ∃ b out, vf.below = some b
      ∧ op_over.next upstream s = some (some out, t)
      ∧ out.m_values = vf.m_values ++ [b.clone]
      ∧ out.top = some b.clone
      ∧ b.clone.vtype_name = b.vtype_name
      ∧ value.cmp b.clone b = some cmp_result.equal
      ∧ out.size = vf.size + 1
      ∧ ∀ i, i < vf.size → out.m_values[i]? = vf.m_values[i]? := by
  obtain ⟨rest, b, a, h⟩ := valfile_split_two vf hsize
  obtain ⟨vals⟩ := vf
  simp only at h
  subst h
  refine ⟨b, valfile.mk (rest ++ [b, a] ++ [b.clone]),
    valfile_below_concat rest b a, ?_, rfl, valfile_top_concat _ _, ?_, ?_,
    ?_, ?_⟩
  · simp only [op_over.next, hup, valfile_below_concat, valfile.push]
  · rw [value_clone_eq]
  · rw [value_clone_eq]; exact cmp_self b
  · simp [valfile.size]
  · intro i hi
    simp only [valfile.size] at hi
    simp only [List.getElem?_append_left hi]

/-- C9 on the sample valfile: a second DIE comes on top of the address
set. -/
theorem C9_over_pushes_clone_of_below_witness :
    ∃ b out, sample_valfile.below = some b
      ∧ op_over.next op_of_list [sample_valfile] = some (some out, [])
      ∧ out.m_values = sample_valfile.m_values ++ [b.clone]
      ∧ out.top = some b.clone
      ∧ b.clone.vtype_name = b.vtype_name
      ∧ value.cmp b.clone b = some cmp_result.equal
      ∧ out.size = sample_valfile.size + 1
      ∧ ∀ i, i < sample_valfile.size →
          out.m_values[i]? = sample_valfile.m_values[i]? :=
  C9_over_pushes_clone_of_below op_of_list [sample_valfile] [] sample_valfile
    rfl (by decide)


/-! ## C10: one output per upstream item -/

theorem next_through_exhausted {σ : Type} (g : valfile → Option valfile)
    (upstream : op σ) (s t : σ) :
    next_through g upstream s = some (none, t)
      ↔ upstream.next s = some (none, t) := by
  unfold next_through
  cases h : upstream.next s with
  | none => simp
  | some p =>
    obtain ⟨i, t1⟩ := p
    cases i with
    | none => simp
    | some vf => cases hg : g vf <;> simp [hg]

theorem next_through_some {σ : Type} (g : valfile → Option valfile)
    (upstream : op σ) (s t : σ) (o : valfile.uptr)
    (h : next_through g upstream s = some (o, t)) :
    ∃ i, upstream.next s = some (i, t)
      ∧ ((i = none ∧ o = none)
        ∨ ∃ vf out, i = some vf ∧ o = some out ∧ g vf = some out) := by
  unfold next_through at h
  cases hu : upstream.next s with
  | none => simp [hu] at h
  | some p =>
    obtain ⟨i, t1⟩ := p
    cases i with
    | none =>
      simp only [hu, Option.some.injEq, Prod.mk.injEq] at h
      exact ⟨none, by rw [h.2], Or.inl ⟨rfl, h.1.symm⟩⟩
    | some vf =>
      cases hg : g vf with
      | none => simp [hu, hg] at h
      | some out =>
        simp only [hu, hg, Option.some.injEq, Prod.mk.injEq] at h
        exact ⟨some vf, by rw [h.2], Or.inr ⟨vf, out, rfl, h.1.symm, hg⟩⟩

theorem answers_through (X : (σ : Type) → op σ → op σ)
    (g : valfile → Option valfile)
    (hX : ∀ (σ : Type) (up : op σ) (s : σ),
      (X σ up).next s = next_through g up s) (i o : valfile.uptr) :
    answers X i o ↔
      ((i = none ∧ o = none)
        ∨ ∃ vf out, i = some vf ∧ o = some out ∧ g vf = some out) := by
  cases i with
  | none => simp [answers]
  | some vf =>
    simp only [answers, hX, next_through, op_of_list]
    cases hg : g vf with
    | none => simp [hg]
    | some out1 =>
      simp only [hg, Option.some.injEq, Prod.mk.injEq, and_true]
      constructor
      · rintro ⟨out, h1, h2⟩
        exact Or.inr ⟨vf, out, rfl, h1, by rw [← h2, hg]⟩
      · rintro (⟨h1, _⟩ | ⟨vf1, out, h1, h2, h3⟩)
        · simp at h1
        · cases h1
          rw [hg] at h3
          exact ⟨out, h2, Option.some.inj h3⟩

theorem through_one_out_per_item (X : (σ : Type) → op σ → op σ)
    (g : valfile → Option valfile) (depth : Nat)
    (hX : ∀ (σ : Type) (up : op σ) (s : σ),
      (X σ up).next s = next_through g up s)
    (hg : ∀ vf : valfile, depth ≤ vf.size → ∃ out, g vf = some out) :
    one_out_per_item X depth := by
  intro σ upstream
  have h1 : ∀ s t, (X σ upstream).next s = some (none, t)
      ↔ upstream.next s = some (none, t) := by
    intro s t; rw [hX]; exact next_through_exhausted g upstream s t
  have h2 : ∀ s o t, (X σ upstream).next s = some (o, t) →
      ∃ i, upstream.next s = some (i, t) ∧ answers X i o := by
    intro s o t h
    rw [hX] at h
    obtain ⟨i, hi, hio⟩ := next_through_some g upstream s t o h
    exact ⟨i, hi, (answers_through X g hX i o).2 hio⟩
  refine ⟨h1, h2, ?_, ?_, ?_⟩
  · intro hstay s t h n
    have hup := (h1 s t).1 h
    clear h
    induction n generalizing s t with
    | zero => exact ⟨t, rfl⟩
    | succ n ih =>
      obtain ⟨t1, ht1⟩ := hstay s t hup
      obtain ⟨t2, ht2⟩ := ih t t1 ht1
      refine ⟨t2, ?_⟩
      simp only [op.calls, (h1 t t1).2 ht1, ht2, List.replicate_succ]
  · intro n
    induction n with
    | zero =>
      intro s outs t h
      simp only [op.calls, Option.some.injEq, Prod.mk.injEq] at h
      exact ⟨[], by simp [op.calls, h.2], by rw [← h.1]; exact List.Forall₂.nil⟩
    | succ n ih =>
      intro s outs t h
      simp only [op.calls] at h
      cases hn : (X σ upstream).next s with
      | none => simp [hn] at h
      | some p =>
        obtain ⟨o, s1⟩ := p
        cases hc : (X σ upstream).calls n s1 with
        | none => simp [hn, hc] at h
        | some q =>
          obtain ⟨os, t1⟩ := q
          simp only [hn, hc, Option.some.injEq, Prod.mk.injEq] at h
          obtain ⟨i, hi, hio⟩ := h2 s o s1 hn
          obtain ⟨ins, hins, hall⟩ := ih s1 os t1 hc
          refine ⟨i :: ins, ?_, ?_⟩
          · simp only [op.calls, hi, hins, h.2]
          · rw [← h.1]; exact List.Forall₂.cons hio hall
  · intro n
    induction n with
    | zero =>
      intro s ins t h _
      simp only [op.calls, Option.some.injEq, Prod.mk.injEq] at h
      exact ⟨[], by simp [op.calls, h.2], by rw [← h.1]; exact List.Forall₂.nil⟩
    | succ n ih =>
      intro s ins t h hdepth
      simp only [op.calls] at h
      cases hn : upstream.next s with
      | none => simp [hn] at h
      | some p =>
        obtain ⟨i, s1⟩ := p
        cases hc : upstream.calls n s1 with
        | none => simp [hn, hc] at h
        | some q =>
          obtain ⟨is, t1⟩ := q
          simp only [hn, hc, Option.some.injEq, Prod.mk.injEq] at h
          have hdepth1 : ∀ vf, some vf ∈ is → depth ≤ vf.size := by
            intro vf hvf
            exact hdepth vf (by rw [← h.1]; exact List.mem_cons_of_mem _ hvf)
          obtain ⟨outs, houts, hall⟩ := ih s1 is t1 hc hdepth1
          cases i with
          | none =>
            refine ⟨none :: outs, ?_, ?_⟩
            · simp only [op.calls, (h1 s s1).2 hn, houts, h.2]
            · rw [← h.1]
              exact List.Forall₂.cons
                ((answers_through X g hX none none).2 (Or.inl ⟨rfl, rfl⟩)) hall
          | some vf =>
            obtain ⟨out, hout⟩ := hg vf
              (hdepth vf (by rw [← h.1]; exact List.mem_cons_self _ _))
            have hnext : (X σ upstream).next s = some (some out, s1) := by
              rw [hX]; simp only [next_through, hn, hout]
            refine ⟨some out :: outs, ?_, ?_⟩
            · simp only [op.calls, hnext, houts, h.2]
            · rw [← h.1]
              exact List.Forall₂.cons
                ((answers_through X g hX (some vf) (some out)).2
                  (Or.inr ⟨vf, out, rfl, rfl, hout⟩)) hall


theorem op_drop_through {σ : Type} (up : op σ) (s : σ) :
    (op_drop up).next s
      = next_through
          (fun vf =>
            match vf.pop with
            | none => none
            | some (_, vf) => some vf) up s := by
  show op_drop.next up s = _
  unfold op_drop.next next_through
  cases h : up.next s with
  | none => rfl
  | some p =>
    obtain ⟨i, t⟩ := p
    cases i with
    | none => rfl
    | some vf =>
      simp only []
      cases hp : vf.pop with
      | none => rfl
      | some q => rfl

theorem op_swap_through {σ : Type} (up : op σ) (s : σ) :
    (op_swap up).next s
      = next_through
          (fun vf =>
            match vf.pop with
            | none => none
            | some (a, vf) =>
              match vf.pop with
              | none => none
              | some (b, vf) => some ((vf.push a).push b)) up s := by
  show op_swap.next up s = _
  unfold op_swap.next next_through
  cases h : up.next s with
  | none => rfl
  | some p =>
    obtain ⟨i, t⟩ := p
    cases i with
    | none => rfl
    | some vf =>
      simp only []
      cases hp : vf.pop with
      | none => rfl
      | some q =>
        obtain ⟨a, vf1⟩ := q
        simp only []
        cases hq : vf1.pop with
        | none => rfl
        | some q1 => rfl

theorem op_dup_through {σ : Type} (up : op σ) (s : σ) :
    (op_dup up).next s
      = next_through
          (fun vf =>
            match vf.top with
            | none => none
            | some v => some (vf.push v.clone)) up s := by
  show op_dup.next up s = _
  unfold op_dup.next next_through
  cases h : up.next s with
  | none => rfl
  | some p =>
    obtain ⟨i, t⟩ := p
    cases i with
    | none => rfl
    | some vf =>
      simp only []
      cases hp : vf.top with
      | none => rfl
      | some q => rfl

theorem op_over_through {σ : Type} (up : op σ) (s : σ) :
    (op_over up).next s
      = next_through
          (fun vf =>
            match vf.below with
            | none => none
            | some v => some (vf.push v.clone)) up s := by
  show op_over.next up s = _
  unfold op_over.next next_through
  cases h : up.next s with
  | none => rfl
  | some p =>
    obtain ⟨i, t⟩ := p
    cases i with
    | none => rfl
    | some vf =>
      simp only []
      cases hp : vf.below with
      | none => rfl
      | some q => rfl

/-- C10: each of `op_drop`, `op_swap`, `op_dup`, `op_over` pulls exactly one
item from upstream in every call of `next` and returns exhausted if and only
if that upstream call did; over an upstream that stays exhausted the operator
stays exhausted after it first returned exhausted; and the operator returns
one output per upstream valfile, in upstream order. -/
theorem C10_shuffles_one_out_per_item :
    one_out_per_item (fun σ => @op_drop σ) 1
      ∧ one_out_per_item (fun σ => @op_swap σ) 2
      ∧ one_out_per_item (fun σ => @op_dup σ) 1
      ∧ one_out_per_item (fun σ => @op_over σ) 2 := by
  refine ⟨?_, ?_, ?_, ?_⟩
  · refine through_one_out_per_item _ _ 1 (fun σ up s => op_drop_through up s) ?_
    intro vf h
    obtain ⟨rest, a, hv⟩ := valfile_split_top vf h
    obtain ⟨vals⟩ := vf
    simp only at hv
    subst hv
    exact ⟨valfile.mk rest, by simp only [valfile_pop_concat]⟩
  · refine through_one_out_per_item _ _ 2 (fun σ up s => op_swap_through up s) ?_
    intro vf h
    obtain ⟨rest, b, a, hv⟩ := valfile_split_two vf h
    obtain ⟨vals⟩ := vf
    simp only at hv
    subst hv
    have h2 : rest ++ [b, a] = (rest ++ [b]) ++ [a] := by simp
    exact ⟨((valfile.mk rest).push a).push b, by
      rw [h2]; simp only [valfile_pop_concat]⟩
  · refine through_one_out_per_item _ _ 1 (fun σ up s => op_dup_through up s) ?_
    intro vf h
    obtain ⟨rest, a, hv⟩ := valfile_split_top vf h
    obtain ⟨vals⟩ := vf
    simp only at hv
    subst hv
    exact ⟨(valfile.mk (rest ++ [a])).push a.clone, by
      simp only [valfile_top_concat]⟩
  · refine through_one_out_per_item _ _ 2 (fun σ up s => op_over_through up s) ?_
    intro vf h
    obtain ⟨rest, b, a, hv⟩ := valfile_split_two vf h
    obtain ⟨vals⟩ := vf
    simp only at hv
    subst hv
    exact ⟨(valfile.mk (rest ++ [b, a])).push b.clone, by
      simp only [valfile_below_concat]⟩

/-- C10 over the upstream that hands out the sample valfile twice: three
calls of `op_swap` answer the two valfiles and the exhaustion in order, and
`op_drop`, once exhausted, stays so. -/
theorem C10_shuffles_one_out_per_item_witness :
    (op_of_list.calls 3 [sample_valfile, sample_valfile]
        = some ([some sample_valfile, some sample_valfile, none], [])
      ∧ ∃ outs, (op_swap op_of_list).calls 3 [sample_valfile, sample_valfile]
          = some (outs, [])
        ∧ List.Forall₂ (answers (fun σ => @op_swap σ))
            [some sample_valfile, some sample_valfile, none] outs)
    ∧ (op_of_list.stays_exhausted
      ∧ (op_drop op_of_list).next [] = some (none, [])
      ∧ ∀ n, ∃ t1, (op_drop op_of_list).calls n []
          = some (List.replicate n none, t1)) :=
  have hstay : op_of_list.stays_exhausted := by
    intro s t h
    cases s with
    | nil =>
      simp only [op_of_list, Option.some.injEq, Prod.mk.injEq, true_and] at h
      exact ⟨[], by rw [← h]; rfl⟩
    | cons vf rest => simp [op_of_list] at h
  ⟨⟨rfl,
      (C10_shuffles_one_out_per_item.2.1 (List valfile) op_of_list).2.2.2.2 3
        [sample_valfile, sample_valfile]
        [some sample_valfile, some sample_valfile, none] [] rfl
        (by
          intro vf h
          simp only [List.mem_cons, Option.some.injEq, List.mem_singleton,
            or_self, reduceCtorEq, or_false, List.not_mem_nil] at h
          rw [h]; decide)⟩,
    ⟨hstay, rfl,
      (C10_shuffles_one_out_per_item.1 (List valfile) op_of_list).2.2.1 hstay
        [] [] rfl⟩⟩


/-! ## Facts about the registry of value types -/

theorem find_vtype_name_append (vtn : vtype_names) (code c : Nat)
    (name : String) :
    find_vtype_name (vtn ++ [(code, name)]) c =
      match find_vtype_name vtn c with
      | some n => some n
      | none => if code = c then some name else none := by
  unfold find_vtype_name
  rw [List.find?_append]
  cases h : List.find? (fun v => v.1 == c) vtn with
  | some v => simp
  | none =>
    by_cases hc : code = c
    · simp [List.find?, hc]
    · have hb : (code == c) = false := by simpa using hc
      simp [List.find?, hc, hb]

theorem find_vtype_name_mem (vtn : vtype_names) (c : Nat) :
    find_vtype_name vtn c = none ↔ c ∉ vtn.map Prod.fst := by
  unfold find_vtype_name
  cases h : List.find? (fun v => v.1 == c) vtn with
  | some v =>
    have h1 := List.find?_some h
    have h2 := List.mem_of_find?_eq_some h
    simp only [beq_iff_eq] at h1
    simp only [reduceCtorEq, List.mem_map, Prod.exists, exists_and_right,
      exists_eq_right, not_exists, false_iff, not_forall, not_not]
    exact ⟨v.2, by rw [← h1]; exact h2⟩
  | none =>
    simp only [List.find?_eq_none, beq_iff_eq] at h
    simp only [List.mem_map, Prod.exists, exists_and_right, exists_eq_right,
      not_exists, true_iff]
    intro x hx
    exact h (c, x) hx rfl

theorem register_name_ok (vtn : vtype_names) (c : Nat) (n : String)
    (h : find_vtype_name vtn c = none) :
    value_type.register_name vtn c n = Except.ok (vtn ++ [(c, n)]) := by
  simp [value_type.register_name, h]

theorem register_name_inv (vtn vtn1 : vtype_names) (c : Nat) (n : String)
    (h : value_type.register_name vtn c n = Except.ok vtn1) :
    find_vtype_name vtn c = none ∧ vtn1 = vtn ++ [(c, n)] := by
  unfold value_type.register_name at h
  split_ifs at h with h1
  · exact ⟨h1, (Except.ok.inj h).symm⟩

/-- Later registrations keep what is registered and only add at the end. -/
theorem register_names_keeps (calls : List (Nat × String)) :
    ∀ (vtn vtn2 : vtype_names),
      register_names vtn calls = Except.ok vtn2 →
      (∃ added, vtn2 = vtn ++ added)
        ∧ (∀ c0 n0, find_vtype_name vtn c0 = some n0 →
            find_vtype_name vtn2 c0 = some n0)
        ∧ ((vtn.map Prod.fst).Nodup → (vtn2.map Prod.fst).Nodup) := by
  induction calls with
  | nil =>
    intro vtn vtn2 h
    simp only [register_names, Except.ok.injEq] at h
    subst h
    exact ⟨⟨[], by simp⟩, fun _ _ h0 => h0, fun hn => hn⟩
  | cons call rest ih =>
    intro vtn vtn2 h
    obtain ⟨c, n⟩ := call
    simp only [register_names] at h
    cases h1 : value_type.register_name vtn c n with
    | error e => simp [h1] at h
    | ok vtn1 =>
      simp only [h1] at h
      obtain ⟨hnone, hv1⟩ := register_name_inv vtn vtn1 c n h1
      obtain ⟨⟨added, hadd⟩, hkeep, hnodup⟩ := ih vtn1 vtn2 h
      refine ⟨⟨(c, n) :: added, by rw [hadd, hv1]; simp⟩, ?_, ?_⟩
      · intro c0 n0 h0
        apply hkeep
        rw [hv1, find_vtype_name_append, h0]
      · intro hn
        apply hnodup
        rw [hv1]
        simp only [List.map_append, List.map_cons, List.map_nil]
        rw [List.nodup_append]
        refine ⟨hn, List.nodup_singleton _, ?_⟩
        intro x hx hx1
        simp only [List.mem_singleton] at hx1
        subst hx1
        exact (find_vtype_name_mem vtn x).1 hnone hx

/-! ## C11: the codes that `value_type::alloc` hands out -/

/-- One call of `alloc` while codes are left: the next code, registered. -/
theorem alloc_next (st : vtype_statics) (name : String) (hlast : st.last < 255)
    (hfree : ∀ c, st.last < c → find_vtype_name st.names c = none) :
    ∃ st1, value_type.alloc st name
        = Except.ok ({ m_code := st.last + 1 }, st1)
      ∧ st1.last = st.last + 1
      ∧ (∀ c, st1.last < c → find_vtype_name st1.names c = none) := by
  have hmod : (st.last + 1) % 256 = st.last + 1 := Nat.mod_eq_of_lt (by omega)
  have hne : st.last + 1 ≠ 0 := by omega
  refine ⟨{ last := st.last + 1, names := st.names ++ [(st.last + 1, name)] },
    ?_, rfl, ?_⟩
  · simp only [value_type.alloc, hmod, value_type.construct,
      register_name_ok _ _ _ (hfree (st.last + 1) (by omega)), hne, if_false]
  · intro c hc
    simp only at hc
    rw [find_vtype_name_append, hfree c (by omega)]
    have : st.last + 1 ≠ c := by omega
    simp [this]

theorem alloc_all_codes (names : List String) :
    ∀ st : vtype_statics, st.last + names.length ≤ 255 →
      (∀ c, st.last < c → find_vtype_name st.names c = none) →
      ∃ vts st1, alloc_all st names = Except.ok (vts, st1)
        ∧ vts.map value_type.m_code = List.range' (st.last + 1) names.length
        ∧ st1.last = st.last + names.length := by
  induction names with
  | nil => intro st _ _; exact ⟨[], st, rfl, rfl, rfl⟩
  | cons name rest ih =>
    intro st hlen hfree
    simp only [List.length_cons] at hlen
    obtain ⟨st1, h1, hl1, hf1⟩ := alloc_next st name (by omega) hfree
    obtain ⟨vts, st2, h2, hc2, hl2⟩ := ih st1 (by omega) hf1
    refine ⟨{ m_code := st.last + 1 } :: vts, st2, ?_, ?_, ?_⟩
    · simp only [alloc_all, h1, h2]
    · simp only [List.map_cons, List.length_cons, hc2, hl1]
      rfl
    · simp only [List.length_cons]; omega

/-- C11: from the start of the program, successive calls of
`value_type::alloc` return the codes 1, 2, 3, ... in call order while codes
are left; any two of the value types carry distinct codes and none carries
the code 0. -/
theorem C11_alloc_codes_in_call_order (names : List String)
    (h : names.length ≤ 255) :
    ∃ vts st, alloc_all vtype_statics.initial names = Except.ok (vts, st)
      ∧ vts.map value_type.m_code = List.range' 1 names.length
      ∧ (vts.map value_type.m_code).Nodup
      ∧ (∀ vt, vt ∈ vts → vt.m_code ≠ 0)
      ∧ st.last = names.length := by
  obtain ⟨vts, st, h1, h2, h3⟩ := alloc_all_codes names vtype_statics.initial
    (by simpa [vtype_statics.initial] using h)
    (by intro c _; rfl)
  simp only [vtype_statics.initial, Nat.zero_add] at h2 h3
  refine ⟨vts, st, h1, h2, ?_, ?_, h3⟩
  · rw [h2]; exact List.nodup_range' _ _
  · intro vt hvt
    have hm : vt.m_code ∈ vts.map value_type.m_code := List.mem_map_of_mem _ hvt
    rw [h2, List.mem_range'] at hm
    obtain ⟨i, _, hi⟩ := hm
    omega

/-- C11 at the first three allocations of `value-dw.cc`. -/
theorem C11_alloc_codes_in_call_order_witness :
    ∃ vts st,
      alloc_all vtype_statics.initial ["T_DWARF", "T_CU", "T_DIE"]
        = Except.ok (vts, st)
      ∧ vts.map value_type.m_code = List.range' 1 3
      ∧ (vts.map value_type.m_code).Nodup
      ∧ (∀ vt, vt ∈ vts → vt.m_code ≠ 0)
      ∧ st.last = 3 :=
  C11_alloc_codes_in_call_order ["T_DWARF", "T_CU", "T_DIE"] (by decide)


/-! ## C12: the registry of names only grows -/

/-- C12: a `register_name (c, n)` that passes its assertion appends the
entry: afterwards `c` resolves to `n` and every other code resolves as
before; a code that already has a name is rejected by the assertion; no
later registration that succeeds changes what a registered code resolves to,
and the codes of the entries stay distinct. -/
theorem C12_registry_append_only (vtn : vtype_names) (c : Nat) (n : String) :
    (find_vtype_name vtn c = none →
      value_type.register_name vtn c n = Except.ok (vtn ++ [(c, n)])
        ∧ find_vtype_name (vtn ++ [(c, n)]) c = some n
        ∧ ∀ c1, c1 ≠ c →
            find_vtype_name (vtn ++ [(c, n)]) c1 = find_vtype_name vtn c1)
    ∧ (find_vtype_name vtn c ≠ none →
      ∃ e, value_type.register_name vtn c n = Except.error e)
    ∧ (∀ (calls : List (Nat × String)) (vtn2 : vtype_names),
      register_names vtn calls = Except.ok vtn2 →
      (∃ added, vtn2 = vtn ++ added)
        ∧ (∀ c0 n0, find_vtype_name vtn c0 = some n0 →
            find_vtype_name vtn2 c0 = some n0)
        ∧ ((vtn.map Prod.fst).Nodup → (vtn2.map Prod.fst).Nodup)) := by
  refine ⟨?_, ?_, ?_⟩
  · intro h
    refine ⟨register_name_ok vtn c n h, ?_, ?_⟩
    · rw [find_vtype_name_append, h]; simp
    · intro c1 hc1
      rw [find_vtype_name_append]
      cases h1 : find_vtype_name vtn c1 with
      | some m => rfl
      | none => simp [Ne.symm hc1]
  · intro h
    refine ⟨"assert (find_vtype_name (code) == nullptr)", ?_⟩
    simp [value_type.register_name, h]
  · intro calls vtn2 h
    exact register_names_keeps calls vtn vtn2 h

/-- C12 on a registry that holds `T_DWARF` and `T_CU`: `T_DIE` is added under
the code 3, a second name for the code 2 is rejected, and two more
registrations leave the code 1 at `T_DWARF`. -/
theorem C12_registry_append_only_witness :
    (value_type.register_name [(1, "T_DWARF"), (2, "T_CU")] 3 "T_DIE"
        = Except.ok ([(1, "T_DWARF"), (2, "T_CU")] ++ [(3, "T_DIE")])
      ∧ find_vtype_name ([(1, "T_DWARF"), (2, "T_CU")] ++ [(3, "T_DIE")]) 3
        = some "T_DIE"
      ∧ ∀ c1, c1 ≠ 3 →
          find_vtype_name ([(1, "T_DWARF"), (2, "T_CU")] ++ [(3, "T_DIE")]) c1
            = find_vtype_name [(1, "T_DWARF"), (2, "T_CU")] c1)
    ∧ (∃ e, value_type.register_name [(1, "T_DWARF"), (2, "T_CU")] 2 "T_DIE"
        = Except.error e)
    ∧ find_vtype_name
        [(1, "T_DWARF"), (2, "T_CU"), (3, "T_DIE"), (4, "T_ATTR")] 1
        = some "T_DWARF" :=
  ⟨(C12_registry_append_only [(1, "T_DWARF"), (2, "T_CU")] 3 "T_DIE").1 rfl,
    (C12_registry_append_only [(1, "T_DWARF"), (2, "T_CU")] 2 "T_DIE").2.1
      (by decide),
    ((C12_registry_append_only [(1, "T_DWARF"), (2, "T_CU")] 3 "T_DIE").2.2
      [(3, "T_DIE"), (4, "T_ATTR")]
      [(1, "T_DWARF"), (2, "T_CU"), (3, "T_DIE"), (4, "T_ATTR")] rfl).2.1
      1 "T_DWARF" rfl⟩

/-! ## C13: the rendering of type constants -/

theorem T_name_drop (s : String) :
    ("T_" ++ s).drop 0 = "T_" ++ s ∧ ("T_" ++ s).drop 2 = s
      ∧ ("T_" ++ s).data[0]? = some 'T' ∧ ("T_" ++ s).data[1]? = some '_' := by
  refine ⟨?_, ?_, ?_, ?_⟩
  · rw [String.drop_eq]; rfl
  · rw [String.drop_eq]; simp
  · simp [String.data_append]
  · simp [String.data_append]

/-- C13: for a type code in 0..255 registered under a name `T_` followed by
`s`, the slot-type domain renders the type constant of that code as the whole
name under brevity full and as `s` alone under brevity brief. -/
theorem C13_type_const_rendering (vtn : vtype_names) (vt : value_type)
    (s : String) (o : ostream) (hcode : vt.m_code ≤ 255)
    (hname : find_vtype_name vtn vt.m_code = some ("T_" ++ s)) :
    vt.get_type_const.m_dom = constant_dom.slot_type_dom
      ∧ slot_type_dom_obj.show vtn vt.get_type_const.m_value o brevity.full
        = Except.ok (o.put ("T_" ++ s))
      ∧ slot_type_dom_obj.show vtn vt.get_type_const.m_value o brevity.brief
        = Except.ok (o.put s) := by
  obtain ⟨h0, h2, hT, hU⟩ := T_name_drop s
  have hnn : ¬ ((vt.m_code : Int) < 0) := by omega
  have hui : (vt.m_code : Int).toNat % 2 ^ 64 = vt.m_code := by
    rw [Int.toNat_ofNat]; exact Nat.mod_eq_of_lt (by omega)
  refine ⟨rfl, ?_, ?_⟩
  · simp only [slot_type_dom_obj.show, value_type.get_type_const, hnn,
      if_false, hui, hcode, if_true, hname, hT, hU, and_self, h0]
  · simp only [slot_type_dom_obj.show, value_type.get_type_const, hnn,
      if_false, hui, hcode, if_true, hname, hT, hU, and_self, h2,
      reduceCtorEq]

/-- C13 at the code 3 registered as `T_DIE`: `T_DIE` in full, `DIE` in
brief. -/
theorem C13_type_const_rendering_witness :
    (value_type.mk 3).get_type_const.m_dom = constant_dom.slot_type_dom
      ∧ slot_type_dom_obj.show [(1, "T_DWARF"), (2, "T_CU"), (3, "T_DIE")]
          (value_type.mk 3).get_type_const.m_value
          { buf := "", flags := fmtflags.initial } brevity.full
        = Except.ok
          (ostream.put { buf := "", flags := fmtflags.initial } ("T_" ++ "DIE"))
      ∧ slot_type_dom_obj.show [(1, "T_DWARF"), (2, "T_CU"), (3, "T_DIE")]
          (value_type.mk 3).get_type_const.m_value
          { buf := "", flags := fmtflags.initial } brevity.brief
        = Except.ok
          (ostream.put { buf := "", flags := fmtflags.initial } "DIE") :=
  C13_type_const_rendering [(1, "T_DWARF"), (2, "T_CU"), (3, "T_DIE")]
    (value_type.mk 3) "DIE" { buf := "", flags := fmtflags.initial }
    (by decide) (by decide)


/-! ## C15: `value_cu::show` -/

/-- C15, as the code has it: `value_cu::show` writes `CU ` and the offset of
the unit in lower-case hexadecimal, with the prefix `0x` when the offset is
not zero and as the single digit `0` when it is zero, for both brevities and
leaving the flags of the stream as they were. -/
theorem C15_cu_show_hex_offset (self : value_cu) (o : ostream)
    (brv : brevity) :
    (self.m_offset ≠ 0 →
      (self.show o brv).buf
        = o.buf ++ "CU " ++ "0x" ++ String.mk (Nat.toDigits 16 self.m_offset))
    ∧ (self.m_offset = 0 → (self.show o brv).buf = o.buf ++ "CU " ++ "0")
    ∧ (self.show o brv).flags = o.flags := by
  refine ⟨?_, ?_, rfl⟩
  · intro h
    simp [value_cu.show, ostream.put, ostream.set_hex, ostream.set_showbase,
      ostream.put_unsigned, ostream.restore, fmt_unsigned, h,
      String.append_assoc]
    rw [← String.append_assoc "CU " "0x"]
    rfl
  · intro h
    simp [value_cu.show, ostream.put, ostream.set_hex, ostream.set_showbase,
      ostream.put_unsigned, ostream.restore, fmt_unsigned, h,
      String.append_assoc]
    rfl

/-- C15 at the unit at offset `0x1f`: `CU 0x1f`, for both brevities. -/
theorem C15_cu_show_hex_offset_witness :
    (sample_cu_1f.show { buf := "", flags := fmtflags.initial }
        brevity.full).buf = "CU 0x1f"
      ∧ (sample_cu_1f.show { buf := "", flags := fmtflags.initial }
        brevity.brief).buf = "CU 0x1f" :=
  ⟨((C15_cu_show_hex_offset sample_cu_1f
        { buf := "", flags := fmtflags.initial } brevity.full).1
      (by decide)).trans (by decide),
    ((C15_cu_show_hex_offset sample_cu_1f
        { buf := "", flags := fmtflags.initial } brevity.brief).1
      (by decide)).trans (by decide)⟩

/-- C15 as stated fails: the unit at offset `0` is written as `CU 0`, without
the prefix `0x`. -/
theorem C15_cu_at_zero_has_no_0x :
    (sample_cu_0.show { buf := "", flags := fmtflags.initial }
        brevity.full).buf = "CU 0"
      ∧ (sample_cu_0.show { buf := "", flags := fmtflags.initial }
        brevity.brief).buf = "CU 0"
      ∧ (sample_cu_0.show { buf := "", flags := fmtflags.initial }
        brevity.full).buf ≠ "CU 0x0" := by
  decide

/-! ## Facts about writing to a stream -/

theorem ostream_eq (o1 o2 : ostream) (hb : o1.buf = o2.buf)
    (hf : o1.flags = o2.flags) : o1 = o2 := by
  cases o1; cases o2; simp_all

/-- The loop over the values of an attribute appends text and leaves the
flags. -/
theorem show_values_appends {V : Type} (c : collaborators V) (brv : brevity)
    (vs : List V) : ∀ o : ostream,
    value_attr.show_values c brv vs o
      = { buf := o.buf
            ++ (value_attr.show_values c brv vs
                { buf := "", flags := o.flags }).buf,
          flags := o.flags } := by
  induction vs with
  | nil => intro o; simp [value_attr.show_values]
  | cons v vs ih =>
    intro o
    simp only [value_attr.show_values]
    cases hd : c.as_die v with
    | some d =>
      simp only []
      rw [ih]
      conv_rhs => rw [ih]
      simp [ostream.put, ostream.set_hex, ostream.put_unsigned,
        ostream.restore, String.append_assoc]
    | none =>
      simp only []
      rw [ih]
      conv_rhs => rw [ih]
      simp [ostream.put, String.append_assoc]

/-- `value_attr::show` appends text and leaves the flags. -/
theorem attr_show_appends {V : Type} (c : collaborators V) (a : value_attr)
    (brv : brevity) (o : ostream) :
    a.show c o brv
      = { buf := o.buf ++ (a.show c { buf := "", flags := o.flags } brv).buf,
          flags := o.flags } := by
  simp only [value_attr.show]
  rw [show_values_appends]
  conv_rhs => rw [show_values_appends]
  simp [ostream.put, ostream.restore, String.append_assoc]

/-- The loop over the attributes of a DIE appends, for each attribute in
order, a new line, a tab and the full rendering of the attribute. -/
theorem show_attrs_appends {V : Type} (c : collaborators V) (self : value_die)
    (attrs : List Dwarf_Attribute) : ∀ o : ostream,
    value_die.show_attrs c self attrs o
      = { buf := o.buf ++ in_a_row (attrs.map (fun it =>
            "\n\t" ++ (value_attr.show c
              { m_pos := 0, m_doneness := doneness.raw,
                m_dwctx := self.m_dwctx, m_die := self.m_die, m_attr := it }
              { buf := "", flags := o.flags } brevity.full).buf)),
          flags := o.flags } := by
  induction attrs with
  | nil => intro o; simp [value_die.show_attrs, in_a_row]
  | cons it rest ih =>
    intro o
    simp only [value_die.show_attrs, List.map_cons, in_a_row]
    rw [ih, attr_show_appends]
    simp [ostream.put, String.append_assoc]

/-! ## C14: `value_die::show` -/

/-- C14: on a stream with its initial format flags, `value_die::show` under
brevity brief writes `[`, the offset of the DIE in hexadecimal without
prefix, `]`, one space and the brief name of the tag, and nothing else; under
brevity full it writes the same with a tab for the space and then, for each
attribute of the DIE in attribute order, a new line, a tab and the full
rendering of the attribute. -/
theorem C14_die_show_header_and_attributes {V : Type} (c : collaborators V)
    (self : value_die) (b : String) :
    self.show c { buf := b, flags := fmtflags.initial } brevity.brief
        = { buf := b ++ "[" ++ String.mk (Nat.toDigits 16 (dwarf_dieoffset self.m_die))
              ++ "]" ++ " "
              ++ c.constant_text
                  { m_value := c.dwarf_tag self.m_die,
                    m_dom := constant_dom.dw_tag_dom } brevity.brief,
            flags := fmtflags.initial }
      ∧ self.show c { buf := b, flags := fmtflags.initial } brevity.full
        = { buf := b ++ "[" ++ String.mk (Nat.toDigits 16 (dwarf_dieoffset self.m_die))
              ++ "]" ++ "\t"
              ++ c.constant_text
                  { m_value := c.dwarf_tag self.m_die,
                    m_dom := constant_dom.dw_tag_dom } brevity.brief
              ++ in_a_row ((c.attributes self.m_die).map (fun it =>
                  "\n\t" ++ (value_attr.show c
                    { m_pos := 0, m_doneness := doneness.raw,
                      m_dwctx := self.m_dwctx, m_die := self.m_die,
                      m_attr := it }
                    { buf := "", flags := fmtflags.initial }
                    brevity.full).buf)),
            flags := fmtflags.initial } := by
  constructor
  · simp [value_die.show, ostream.put, ostream.set_hex, ostream.put_unsigned,
      ostream.restore, fmt_unsigned, fmtflags.initial, String.append_assoc]
  · simp only [value_die.show, if_true]
    rw [show_attrs_appends]
    simp [ostream.put, ostream.set_hex, ostream.put_unsigned,
      ostream.restore, fmt_unsigned, fmtflags.initial, String.append_assoc]

/-- C14 at the DIE at offset `0xb` with the sample collaborators: the header
alone in brief, the header and the two attributes in full. -/
theorem C14_die_show_header_and_attributes_witness :
    ((sample_die doneness.cooked 0xb none).show sample_collaborators
        { buf := "", flags := fmtflags.initial } brevity.brief).buf
        = "[b] compile_unit"
      ∧ ((sample_die doneness.cooked 0xb none).show sample_collaborators
        { buf := "", flags := fmtflags.initial } brevity.full).buf
        = "[b]\tcompile_unit\n\tproducer (strp)\tGNU C 4.6.3;\n\tname (string)\tfoo.c;" :=
  ⟨(congrArg ostream.buf
      (C14_die_show_header_and_attributes sample_collaborators
        (sample_die doneness.cooked 0xb none) "").1).trans (by decide),
    (congrArg ostream.buf
      (C14_die_show_header_and_attributes sample_collaborators
        (sample_die doneness.cooked 0xb none) "").2).trans (by decide)⟩

/-! ## C16: `show_loclist_op` -/

theorem loclist_first_appends {V : Type} (c : collaborators V) (vs : List V) :
    ∀ o : ostream,
    show_loclist_op.first c vs o
      = { buf := o.buf ++ groups c vs, flags := o.flags } := by
  induction vs with
  | nil => intro o; simp [show_loclist_op.first, groups, in_a_row]
  | cons v vs ih =>
    intro o
    simp only [show_loclist_op.first]
    rw [ih]
    simp [ostream.put, groups, in_a_row, String.append_assoc]

/-- Once the separator is written, the second loop writes groups only. -/
theorem loclist_second_after_sep {V : Type} (c : collaborators V)
    (vs : List V) : ∀ o : ostream,
    show_loclist_op.second c vs true o
      = { buf := o.buf ++ groups c vs, flags := o.flags } := by
  induction vs with
  | nil => intro o; simp [show_loclist_op.second, groups, in_a_row]
  | cons v vs ih =>
    intro o
    simp only [show_loclist_op.second]
    simp only [Bool.not_true, Bool.false_eq_true, if_false]
    rw [ih]
    simp [ostream.put, groups, in_a_row, String.append_assoc]

/-- The second loop writes nothing for no value and one separator before the
groups otherwise. -/
theorem loclist_second_appends {V : Type} (c : collaborators V) (vs : List V)
    (o : ostream) :
    show_loclist_op.second c vs false o
      = { buf := o.buf ++ (if vs.isEmpty then "" else "/" ++ groups c vs),
          flags := o.flags } := by
  cases vs with
  | nil => simp [show_loclist_op.second]
  | cons v vs =>
    simp only [show_loclist_op.second]
    simp only [Bool.not_false, if_true]
    rw [loclist_second_after_sep]
    simp [ostream.put, groups, in_a_row, String.append_assoc]
    rw [← String.append_assoc "/" "<"]
    rfl

/-- C16: on a stream with its initial format flags, a location-expression
op is rendered as its offset in decimal, a colon, the brief name of the
opcode, one `<v>` group per value of the first operand and then, if and only
if the second operand yields a value, one `/` followed by one `<v>` group per
value of the second operand. -/
theorem C16_loclist_op_rendering {V : Type} (c : collaborators V)
    (self : value_loclist_op) (b : String) (brv : brevity) :
    self.show c { buf := b, flags := fmtflags.initial } brv
      = { buf := b ++ String.mk (Nat.toDigits 10 self.m_dwop.offset) ++ ":"
            ++ c.constant_text
                { m_value := self.m_dwop.atom,
                  m_dom := constant_dom.dw_locexpr_opcode_dom } brevity.brief
            ++ groups c (c.dwop_number self.m_dwctx self.m_attr self.m_dwop)
            ++ (if (c.dwop_number2 self.m_dwctx self.m_attr
                    self.m_dwop).isEmpty
                then ""
                else "/" ++ groups c
                  (c.dwop_number2 self.m_dwctx self.m_attr self.m_dwop)),
          flags := fmtflags.initial } := by
  simp only [value_loclist_op.show, show_loclist_op]
  rw [loclist_second_appends, loclist_first_appends]
  simp [ostream.put, ostream.put_unsigned, fmt_unsigned, fmtflags.initial,
    String.append_assoc]

/-- C16 at the two instructions of the docstring, with the sample
collaborators. -/
theorem C16_loclist_op_rendering_witness :
    (sample_deref_type.show sample_collaborators
        { buf := "", flags := fmtflags.initial } brevity.full).buf
        = "2:GNU_deref_type<8>/<37>"
      ∧ (sample_div.show sample_collaborators
        { buf := "", flags := fmtflags.initial } brevity.full).buf
        = "16:div" :=
  ⟨(congrArg ostream.buf
      (C16_loclist_op_rendering sample_collaborators sample_deref_type ""
        brevity.full)).trans (by decide),
    (congrArg ostream.buf
      (C16_loclist_op_rendering sample_collaborators sample_div ""
        brevity.full)).trans (by decide)⟩


/-! ## Facts about the stack-effect analysis -/

theorem effects_of_branches_ok (bs : List tree) (d : Nat) :
    (∀ b, b ∈ bs → ∃ r, b.determine_stack_effects d = Except.ok r) →
    ∃ rs, tree.effects_of_branches bs d = Except.ok rs := by
  induction bs with
  | nil => intro _; exact ⟨[], rfl⟩
  | cons b rest ih =>
    intro h
    obtain ⟨r, hr⟩ := h b (List.mem_cons_self _ _)
    obtain ⟨rs, hrs⟩ := ih (fun b1 hb1 => h b1 (List.mem_cons_of_mem _ hb1))
    exact ⟨r :: rs, by simp only [tree.effects_of_branches, hr, hrs]⟩

/-- The branches leave the depth `e` exactly when every result of their
analysis has the depth `e`. -/
theorem effects_of_branches_depths (bs : List tree) (d e : Nat) :
    ∀ rs, tree.effects_of_branches bs d = Except.ok rs →
    ((∀ b, b ∈ bs → ∃ t, b.determine_stack_effects d = Except.ok (t, e))
      ↔ ∀ r, r ∈ rs → r.2 = e) := by
  induction bs with
  | nil =>
    intro rs h
    simp only [tree.effects_of_branches, Except.ok.injEq] at h
    subst h
    simp
  | cons b rest ih =>
    intro rs h
    simp only [tree.effects_of_branches] at h
    cases hb : b.determine_stack_effects d with
    | error err => simp [hb] at h
    | ok r =>
      cases hrest : tree.effects_of_branches rest d with
      | error err => simp [hb, hrest] at h
      | ok rs1 =>
        simp only [hb, hrest, Except.ok.injEq] at h
        subst h
        have ih1 := ih rs1 hrest
        constructor
        · intro hall r1 hr1
          rcases List.mem_cons.1 hr1 with h1 | h1
          · obtain ⟨t, ht⟩ := hall b (List.mem_cons_self _ _)
            rw [hb] at ht
            rw [h1, Except.ok.inj ht]
          · exact ih1.1 (fun b1 hb1 => hall b1 (List.mem_cons_of_mem _ hb1))
              r1 h1
        · intro hall b1 hb1
          rcases List.mem_cons.1 hb1 with h1 | h1
          · subst h1
            refine ⟨r.1, ?_⟩
            rw [hb, ← hall r (List.mem_cons_self _ _)]
          · exact ih1.2 (fun r1 hr1 => hall r1 (List.mem_cons_of_mem _ hr1))
              b1 h1

/-! ## C17: alternations must be balanced -/

/-- The analysis of an alternation in terms of the analysis of its
branches. -/
theorem alt_effects_eq (bs : List tree) (d : Nat) (cst : Option String)
    (a dst : Option Nat) (rs : List (tree × Nat))
    (h : tree.effects_of_branches bs d = Except.ok rs) :
    (tree.mk tree_type.ALT cst a dst bs).determine_stack_effects d =
      match rs with
      | [] => Except.ok (tree.mk tree_type.ALT cst none none [], d)
      | (c, d1) :: rest =>
        if rest.all (fun r => r.2 == d1) then
          Except.ok
            (tree.mk tree_type.ALT cst none none (c :: rest.map Prod.fst), d1)
        else Except.error analysis_error.Unbalanced := by
  rw [tree.determine_stack_effects]
  simp only [h]
  cases rs with
  | nil => rfl
  | cons r rest => rfl

/-- C17: the stack-effect analysis of an alternation whose branches can be
analysed succeeds exactly when all branches leave the same depth, and fails
with the error unbalanced otherwise; an empty branch, `NOP`, has net effect
zero.  So `winfo (,drop)` is unbalanced, and `winfo (,drop 1)`,
`winfo (drop 1,)` and `winfo (drop,drop)` are accepted, with the branches
bound to the slot 0. -/
theorem C17_alt_branches_agree (bs : List tree) (d : Nat)
    (cst : Option String) (a dst : Option Nat)
    (hall : ∀ b, b ∈ bs → ∃ r, b.determine_stack_effects d = Except.ok r) :
    ((∃ e, ∀ b, b ∈ bs → ∃ t, b.determine_stack_effects d = Except.ok (t, e))
        ↔ ∃ r, (tree.mk tree_type.ALT cst a dst bs).determine_stack_effects d
            = Except.ok r)
      ∧ ((¬ ∃ e, ∀ b, b ∈ bs →
            ∃ t, b.determine_stack_effects d = Except.ok (t, e)) →
          (tree.mk tree_type.ALT cst a dst bs).determine_stack_effects d
            = Except.error analysis_error.Unbalanced)
      ∧ (tree.bare tree_type.NOP).determine_stack_effects d
          = Except.ok (tree.bare tree_type.NOP, d)
      ∧ (phrase.seq word_winfo
            (phrase.group (phrase.alt phrase.nothing word_drop))).analysed
          = Except.error analysis_error.Unbalanced
      ∧ (phrase.seq word_winfo
            (phrase.group (phrase.alt phrase.nothing
              (phrase.seq word_drop (word_const "1"))))).analysed
          = Except.ok
            "(CAT (SEL_WINFO [dst=0;]) (ALT (NOP) (CAT (SHF_DROP [dst=0;]) (CONST<1> [dst=0;]))))"
      ∧ (phrase.seq word_winfo
            (phrase.group (phrase.alt (phrase.seq word_drop (word_const "1"))
              phrase.nothing))).analysed
          = Except.ok
            "(CAT (SEL_WINFO [dst=0;]) (ALT (CAT (SHF_DROP [dst=0;]) (CONST<1> [dst=0;])) (NOP)))"
      ∧ (phrase.seq word_winfo
            (phrase.group (phrase.alt word_drop word_drop))).analysed
          = Except.ok
            "(CAT (SEL_WINFO [dst=0;]) (ALT (SHF_DROP [dst=0;]) (SHF_DROP [dst=0;])))" := by
  obtain ⟨rs, hrs⟩ := effects_of_branches_ok bs d hall
  have hdepth := fun e => effects_of_branches_depths bs d e rs hrs
  have heq := alt_effects_eq bs d cst a dst rs hrs
  have key : (∃ e, ∀ b, b ∈ bs →
        ∃ t, b.determine_stack_effects d = Except.ok (t, e))
      ↔ ∃ r, (tree.mk tree_type.ALT cst a dst bs).determine_stack_effects d
          = Except.ok r := by
    rw [heq]
    cases rs with
    | nil =>
      exact ⟨fun _ => ⟨_, rfl⟩, fun _ => ⟨0, (hdepth 0).2 (by simp)⟩⟩
    | cons r rest =>
      obtain ⟨c, d1⟩ := r
      simp only []
      by_cases hb : rest.all (fun r => r.2 == d1) = true
      · simp only [hb, if_true]
        refine ⟨fun _ => ⟨_, rfl⟩, fun _ => ⟨d1, (hdepth d1).2 ?_⟩⟩
        intro r hr
        rcases List.mem_cons.1 hr with h1 | h1
        · rw [h1]
        · have := List.all_eq_true.1 hb r h1
          simpa using this
      · have hb1 : rest.all (fun r => r.2 == d1) = false := by
          simpa using hb
        simp only [hb1, Bool.false_eq_true, if_false, reduceCtorEq,
          exists_false, iff_false, not_exists]
        intro e he
        have hr := (hdepth e).1 he
        apply hb
        rw [List.all_eq_true]
        intro r hr1
        have h1 := hr r (List.mem_cons_of_mem _ hr1)
        have h2 := hr (c, d1) (List.mem_cons_self _ _)
        simp only at h2
        simp [h1, h2]
  refine ⟨key, ?_, rfl, rfl, rfl, rfl, rfl⟩
  intro hne
  have hno : ¬ ∃ r, (tree.mk tree_type.ALT cst a dst bs).determine_stack_effects d
      = Except.ok r := fun h => hne (key.2 h)
  rw [heq] at hno ⊢
  cases rs with
  | nil => exact absurd ⟨_, rfl⟩ hno
  | cons r rest =>
    obtain ⟨c, d1⟩ := r
    simp only [] at hno ⊢
    by_cases hb : rest.all (fun r => r.2 == d1) = true
    · simp only [hb, if_true] at hno
      exact absurd ⟨_, rfl⟩ hno
    · have hb1 : rest.all (fun r => r.2 == d1) = false := by
        simpa using hb
      simp only [hb1, Bool.false_eq_true, if_false]

/-- C17 at the branches of `(,drop)` and of `(drop,drop)` after `winfo`: the
first alternation is unbalanced, the second is analysed. -/
theorem C17_alt_branches_agree_witness :
    (tree.of_children tree_type.ALT
        [tree.bare tree_type.NOP, tree.bare tree_type.SHF_DROP]
      ).determine_stack_effects 1 = Except.error analysis_error.Unbalanced
      ∧ ∃ r, (tree.of_children tree_type.ALT
          [tree.bare tree_type.SHF_DROP, tree.bare tree_type.SHF_DROP]
        ).determine_stack_effects 1 = Except.ok r :=
  ⟨(C17_alt_branches_agree
      [tree.bare tree_type.NOP, tree.bare tree_type.SHF_DROP] 1 none none none
      (by
        intro b hb
        simp only [List.mem_cons, List.mem_singleton, List.not_mem_nil,
          or_false] at hb
        rcases hb with h | h
        · exact ⟨_, by rw [h]; rfl⟩
        · exact ⟨_, by rw [h]; rfl⟩)).2.1
      (by
        rintro ⟨e, he⟩
        obtain ⟨t1, h1⟩ := he (tree.bare tree_type.NOP) (by simp)
        obtain ⟨t2, h2⟩ := he (tree.bare tree_type.SHF_DROP) (by simp)
        have e1 : (1 : Nat) = e :=
          congrArg Prod.snd (Except.ok.inj h1)
        have e2 : (0 : Nat) = e :=
          congrArg Prod.snd (Except.ok.inj h2)
        omega),
    (C17_alt_branches_agree
      [tree.bare tree_type.SHF_DROP, tree.bare tree_type.SHF_DROP] 1 none none
      none
      (by
        intro b hb
        simp only [List.mem_cons, List.mem_singleton, List.not_mem_nil,
          or_false, or_self] at hb
        exact ⟨_, by rw [hb]; rfl⟩)).1.1
      ⟨0, by
        intro b hb
        simp only [List.mem_cons, List.mem_singleton, List.not_mem_nil,
          or_false, or_self] at hb
        exact ⟨_, by rw [hb]; rfl⟩⟩⟩

/-! ## C18: `X?` and `X+` after the analysis -/

theorem spread_of_children (tt : tree_type) (cs : List tree) :
    (tree.of_children tt cs).spread tt = cs := by
  simp [tree.of_children, tree.spread]

/-- A phrase of words, parentheses and juxtaposition: its tree spread over
CAT is the list of its words. -/
theorem grouping_spread (p : phrase) :
    p.is_grouping = true →
    p.words ≠ [] ∧ p.parse.spread tree_type.CAT = p.words
      ∧ (2 ≤ p.words.length →
          p.parse = tree.of_children tree_type.CAT p.words) := by
  induction p with
  | word tt cst =>
    intro h
    simp only [phrase.is_grouping, bne_iff_ne, ne_eq] at h
    refine ⟨by simp [phrase.words], ?_, ?_⟩
    · simp [phrase.parse, tree.spread, phrase.words, h]
    · intro h2; simp [phrase.words] at h2
  | nothing => intro h; simp [phrase.is_grouping] at h
  | group p ih =>
    intro h
    simp only [phrase.is_grouping] at h
    exact ih h
  | seq p q ihp ihq =>
    intro h
    simp only [phrase.is_grouping, Bool.and_eq_true] at h
    obtain ⟨hp1, hp2, _⟩ := ihp h.1
    obtain ⟨hq1, hq2, _⟩ := ihq h.2
    refine ⟨by simp [phrase.words, hp1], ?_, ?_⟩
    · simp only [phrase.parse, tree.build_cat, spread_of_children, hp2, hq2,
        phrase.words]
    · intro _
      simp only [phrase.parse, tree.build_cat, hp2, hq2, phrase.words]
  | alt p q _ _ => intro h; simp [phrase.is_grouping] at h
  | star p _ => intro h; simp [phrase.is_grouping] at h
  | plus p _ => intro h; simp [phrase.is_grouping] at h
  | maybe p _ => intro h; simp [phrase.is_grouping] at h

theorem spread_other (tt : tree_type) (t : tree) (h : t.m_tt ≠ tt) :
    t.spread tt = [t] := by
  obtain ⟨tt1, cst, a, dst, cs⟩ := t
  simp only [tree.m_tt] at h
  simp [tree.spread, h]

/-- A phrase of commas and parentheses over branches: its tree spread over
ALT is the list of the trees of its branches. -/
theorem alternation_spread (p : phrase) :
    p.is_alternation = true →
    p.branches ≠ [] ∧ p.parse.spread tree_type.ALT = p.branches
      ∧ (2 ≤ p.branches.length →
          p.parse = tree.of_children tree_type.ALT p.branches) := by
  induction p with
  | word tt cst =>
    intro h
    simp only [phrase.is_alternation, bne_iff_ne, ne_eq] at h
    refine ⟨by simp [phrase.branches], ?_, ?_⟩
    · simp only [phrase.branches]; exact spread_other _ _ h
    · intro h2; simp [phrase.branches] at h2
  | nothing =>
    intro h
    simp only [phrase.is_alternation, bne_iff_ne, ne_eq] at h
    refine ⟨by simp [phrase.branches], ?_, ?_⟩
    · simp only [phrase.branches]; exact spread_other _ _ h
    · intro h2; simp [phrase.branches] at h2
  | group p ih =>
    intro h
    simp only [phrase.is_alternation] at h
    exact ih h
  | seq p q _ _ =>
    intro h
    simp only [phrase.is_alternation, bne_iff_ne, ne_eq] at h
    refine ⟨by simp [phrase.branches], ?_, ?_⟩
    · simp only [phrase.branches]; exact spread_other _ _ h
    · intro h2; simp [phrase.branches] at h2
  | alt p q ihp ihq =>
    intro h
    simp only [phrase.is_alternation, Bool.and_eq_true] at h
    obtain ⟨hp1, hp2, _⟩ := ihp h.1
    obtain ⟨hq1, hq2, _⟩ := ihq h.2
    refine ⟨by simp [phrase.branches, hp1], ?_, ?_⟩
    · simp only [phrase.parse, tree.build_alt, spread_of_children, hp2, hq2,
        phrase.branches]
    · intro _
      simp only [phrase.parse, tree.build_alt, hp2, hq2, phrase.branches]
  | star p _ =>
    intro h
    simp only [phrase.is_alternation, bne_iff_ne, ne_eq] at h
    refine ⟨by simp [phrase.branches], ?_, ?_⟩
    · simp only [phrase.branches]; exact spread_other _ _ h
    · intro h2; simp [phrase.branches] at h2
  | plus p _ =>
    intro h
    simp only [phrase.is_alternation, bne_iff_ne, ne_eq] at h
    refine ⟨by simp [phrase.branches], ?_, ?_⟩
    · simp only [phrase.branches]; exact spread_other _ _ h
    · intro h2; simp [phrase.branches] at h2
  | maybe p _ =>
    intro h
    simp only [phrase.is_alternation, bne_iff_ne, ne_eq] at h
    refine ⟨by simp [phrase.branches], ?_, ?_⟩
    · simp only [phrase.branches]; exact spread_other _ _ h
    · intro h2; simp [phrase.branches] at h2

/-- C19: every way of putting parentheses into a juxtaposition of two or more
words parses to the one flat CAT of the words in source order; a phrase in
parentheses parses to what the phrase parses to; nested alternations parse
to one ALT of the branches in source order, as `((1, 2), (3, 4))` does. -/
theorem C19_grouping_is_transparent (p : phrase) :
    (p.is_grouping = true → 2 ≤ p.words.length →
        p.parse = tree.of_children tree_type.CAT p.words)
      ∧ (phrase.group p).parse = p.parse
      ∧ (p.is_alternation = true → 2 ≤ p.branches.length →
        p.parse = tree.of_children tree_type.ALT p.branches)
      ∧ (phrase.group (phrase.alt
          (phrase.group (phrase.alt (word_const "1") (word_const "2")))
          (phrase.group (phrase.alt (word_const "3") (word_const "4"))))
        ).parse.dump = "(ALT (CONST<1>) (CONST<2>) (CONST<3>) (CONST<4>))"
      ∧ (phrase.seq word_dup (phrase.group (phrase.seq word_swap
          (phrase.group (phrase.seq word_child (phrase.group word_next)))))
        ).parse.dump = "(CAT (SHF_DUP) (SHF_SWAP) (F_CHILD) (F_NEXT))"
      ∧ (phrase.group (phrase.seq (phrase.group (phrase.seq
          (phrase.group (phrase.seq (phrase.group word_dup) word_swap))
          word_child)) word_next)
        ).parse.dump = "(CAT (SHF_DUP) (SHF_SWAP) (F_CHILD) (F_NEXT))" :=
  ⟨fun h h2 => (grouping_spread p h).2.2 h2, rfl,
    fun h h2 => (alternation_spread p h).2.2 h2, by decide, by decide,
    by decide⟩

/-- C19 at two groupings of `dup swap child next` and at
`((1, 2), (3, 4))`. -/
theorem C19_grouping_is_transparent_witness :
    (phrase.seq word_dup (phrase.group (phrase.seq word_swap
        (phrase.group (phrase.seq word_child (phrase.group word_next)))))
      ).parse
        = tree.of_children tree_type.CAT
          [tree.bare tree_type.SHF_DUP, tree.bare tree_type.SHF_SWAP,
           tree.bare tree_type.F_CHILD, tree.bare tree_type.F_NEXT]
      ∧ (phrase.group (phrase.seq (phrase.group
          (phrase.seq (phrase.group word_dup) word_swap))
          (phrase.group (phrase.seq word_child word_next)))).parse
        = tree.of_children tree_type.CAT
          [tree.bare tree_type.SHF_DUP, tree.bare tree_type.SHF_SWAP,
           tree.bare tree_type.F_CHILD, tree.bare tree_type.F_NEXT]
      ∧ (phrase.group (phrase.alt
          (phrase.group (phrase.alt (word_const "1") (word_const "2")))
          (phrase.group (phrase.alt (word_const "3") (word_const "4"))))
        ).parse
        = tree.of_children tree_type.ALT
          [tree.mk tree_type.CONST (some "1") none none [],
           tree.mk tree_type.CONST (some "2") none none [],
           tree.mk tree_type.CONST (some "3") none none [],
           tree.mk tree_type.CONST (some "4") none none []] :=
  ⟨(C19_grouping_is_transparent
      (phrase.seq word_dup (phrase.group (phrase.seq word_swap
        (phrase.group (phrase.seq word_child (phrase.group word_next)))))
      )).1 (by decide) (by decide),
    (C19_grouping_is_transparent
      (phrase.group (phrase.seq (phrase.group
          (phrase.seq (phrase.group word_dup) word_swap))
          (phrase.group (phrase.seq word_child word_next))))
      ).1 (by decide) (by decide),
    (C19_grouping_is_transparent
      (phrase.group (phrase.alt
          (phrase.group (phrase.alt (word_const "1") (word_const "2")))
          (phrase.group (phrase.alt (word_const "3") (word_const "4")))))
      ).2.2.1 (by decide) (by decide)⟩

/-! ## C20: the builtins that `register_shf` registers -/

/-- C20, as the code has it: the constructor of `register_shf` calls
`add_builtin` four times and no more, whatever `add_builtin` does: for
`drop`, `swap`, `dup` and `over`, in this order.  Each of the four builtins
has the word as its name and builds the shuffle operator of that word over
the upstream it is given. -/
theorem C20_register_shf_registers_four :
    (∀ (R : Type*) (add_builtin : R → builtin → R) (registered : R),
        register_shf add_builtin registered
          = register_shf_calls.foldl add_builtin registered)
      ∧ register_shf_calls.length = 4
      ∧ register_shf_calls.map builtin.name = ["drop", "swap", "dup", "over"]
      ∧ (∀ b, b ∈ register_shf_calls →
          b.name = "drop" ∨ b.name = "swap" ∨ b.name = "dup"
            ∨ b.name = "over")
      ∧ (∀ (σ : Type) (upstream : op σ),
          register_shf_calls.map (fun b => (b.build_exec σ upstream).next)
            = [op_drop.next upstream, op_swap.next upstream,
               op_dup.next upstream, op_over.next upstream]) := by
  refine ⟨fun _ _ _ => rfl, rfl, rfl, ?_, fun _ _ => rfl⟩
  intro b hb
  simp only [register_shf_calls, register_shf, List.nil_append,
    List.cons_append, List.mem_cons, List.mem_singleton, List.not_mem_nil,
    or_false] at hb
  rcases hb with h | h | h | h <;> subst h
  · exact Or.inl rfl
  · exact Or.inr (Or.inl rfl)
  · exact Or.inr (Or.inr (Or.inl rfl))
  · exact Or.inr (Or.inr (Or.inr rfl))

/-- C20 as stated fails: no builtin that the constructor of `register_shf`
passes to `add_builtin` has the name `rot`; the four that it passes are all
the builtins of `builtin-shf.cc`. -/
theorem C20_rot_is_not_registered :
    register_shf_calls.map builtin.name = ["drop", "swap", "dup", "over"]
      ∧ "rot" ∉ register_shf_calls.map builtin.name
      ∧ ¬ ∃ b, b ∈ register_shf_calls ∧ b.name = "rot" := by
  refine ⟨rfl, by decide, ?_⟩
  rintro ⟨b, hb, hn⟩
  have h : "rot" ∈ register_shf_calls.map builtin.name :=
    List.mem_map.2 ⟨b, hb, hn⟩
  revert h
  decide


/-! ## C21: no shuffle reaches past the valfile -/

theorem valfile_pop_some_iff (vf : valfile) :
    (∃ p, vf.pop = some p) ↔ 1 ≤ vf.size := by
  constructor
  · rintro ⟨p, hp⟩
    obtain ⟨vals⟩ := vf
    cases vals with
    | nil => simp [valfile.pop] at hp
    | cons x xs => simp [valfile.size]
  · intro h
    obtain ⟨rest, a, hv⟩ := valfile_split_top vf h
    obtain ⟨vals⟩ := vf
    simp only at hv
    subst hv
    exact ⟨_, valfile_pop_concat rest a⟩

theorem valfile_top_some_iff (vf : valfile) :
    (∃ v, vf.top = some v) ↔ 1 ≤ vf.size := by
  constructor
  · rintro ⟨p, hp⟩
    obtain ⟨vals⟩ := vf
    cases vals with
    | nil => simp [valfile.top] at hp
    | cons x xs => simp [valfile.size]
  · intro h
    obtain ⟨rest, a, hv⟩ := valfile_split_top vf h
    obtain ⟨vals⟩ := vf
    simp only at hv
    subst hv
    exact ⟨_, valfile_top_concat rest a⟩

theorem valfile_below_some_iff (vf : valfile) :
    (∃ v, vf.below = some v) ↔ 2 ≤ vf.size := by
  constructor
  · rintro ⟨p, hp⟩
    obtain ⟨vals⟩ := vf
    cases vals with
    | nil => simp [valfile.below] at hp
    | cons x xs =>
      cases xs with
      | nil => simp [valfile.below] at hp
      | cons y ys => simp [valfile.size]
  · intro h
    obtain ⟨rest, b, a, hv⟩ := valfile_split_two vf h
    obtain ⟨vals⟩ := vf
    simp only at hv
    subst hv
    exact ⟨_, valfile_below_concat rest b a⟩

/-- C21: with `pop`, `top` and `below` partial, each fails exactly on a
valfile that lacks the slot; on a valfile from upstream of depth at least
one `op_drop::next` and `op_dup::next`, and of depth at least two
`op_swap::next` and `op_over::next`, make every such call on a slot that is
there and return a valfile. -/
theorem C21_shuffles_stay_in_the_valfile {σ : Type} (upstream : op σ)
    (s t : σ) (vf : valfile) (hup : upstream.next s = some (some vf, t)) :
    (1 ≤ vf.size →
        (∃ p, vf.pop = some p)
          ∧ ∃ out, op_drop.next upstream s = some (some out, t))
      ∧ (2 ≤ vf.size →
        (∃ a vf1 b vf2, vf.pop = some (a, vf1) ∧ vf1.pop = some (b, vf2))
          ∧ ∃ out, op_swap.next upstream s = some (some out, t))
      ∧ (1 ≤ vf.size →
        (∃ v, vf.top = some v)
          ∧ ∃ out, op_dup.next upstream s = some (some out, t))
      ∧ (2 ≤ vf.size →
        (∃ v, vf.below = some v)
          ∧ ∃ out, op_over.next upstream s = some (some out, t))
      ∧ ((∃ p, vf.pop = some p) ↔ 1 ≤ vf.size)
      ∧ ((∃ v, vf.top = some v) ↔ 1 ≤ vf.size)
      ∧ ((∃ v, vf.below = some v) ↔ 2 ≤ vf.size) := by
  refine ⟨?_, ?_, ?_, ?_, valfile_pop_some_iff vf, valfile_top_some_iff vf,
    valfile_below_some_iff vf⟩
  · intro h
    obtain ⟨rest, a, hv⟩ := valfile_split_top vf h
    obtain ⟨vals⟩ := vf
    simp only at hv
    subst hv
    exact ⟨⟨_, valfile_pop_concat rest a⟩, ⟨valfile.mk rest, by
      simp only [op_drop.next, hup, valfile_pop_concat]⟩⟩
  · intro h
    obtain ⟨rest, b, a, hv⟩ := valfile_split_two vf h
    obtain ⟨vals⟩ := vf
    simp only at hv
    subst hv
    have h2 : rest ++ [b, a] = (rest ++ [b]) ++ [a] := by simp
    refine ⟨⟨a, valfile.mk (rest ++ [b]), b, valfile.mk rest, ?_,
      valfile_pop_concat rest b⟩, ⟨((valfile.mk rest).push a).push b, ?_⟩⟩
    · rw [h2]; exact valfile_pop_concat _ a
    · simp only [op_swap.next, hup]
      rw [h2]
      simp only [valfile_pop_concat]
  · intro h
    obtain ⟨rest, a, hv⟩ := valfile_split_top vf h
    obtain ⟨vals⟩ := vf
    simp only at hv
    subst hv
    exact ⟨⟨_, valfile_top_concat rest a⟩,
      ⟨(valfile.mk (rest ++ [a])).push a.clone, by
        simp only [op_dup.next, hup, valfile_top_concat]⟩⟩
  · intro h
    obtain ⟨rest, b, a, hv⟩ := valfile_split_two vf h
    obtain ⟨vals⟩ := vf
    simp only at hv
    subst hv
    exact ⟨⟨_, valfile_below_concat rest b a⟩,
      ⟨(valfile.mk (rest ++ [b, a])).push b.clone, by
        simp only [op_over.next, hup, valfile_below_concat]⟩⟩

/-- C21 on the sample valfile of depth three, for the four operators. -/
theorem C21_shuffles_stay_in_the_valfile_witness :
    ((∃ p, sample_valfile.pop = some p)
        ∧ ∃ out, op_drop.next op_of_list [sample_valfile]
            = some (some out, []))
      ∧ ((∃ a vf1 b vf2, sample_valfile.pop = some (a, vf1)
            ∧ vf1.pop = some (b, vf2))
        ∧ ∃ out, op_swap.next op_of_list [sample_valfile]
            = some (some out, []))
      ∧ ((∃ v, sample_valfile.top = some v)
        ∧ ∃ out, op_dup.next op_of_list [sample_valfile]
            = some (some out, []))
      ∧ ((∃ v, sample_valfile.below = some v)
        ∧ ∃ out, op_over.next op_of_list [sample_valfile]
            = some (some out, [])) :=
  ⟨(C21_shuffles_stay_in_the_valfile op_of_list [sample_valfile] []
      sample_valfile rfl).1 (by decide),
    (C21_shuffles_stay_in_the_valfile op_of_list [sample_valfile] []
      sample_valfile rfl).2.1 (by decide),
    (C21_shuffles_stay_in_the_valfile op_of_list [sample_valfile] []
      sample_valfile rfl).2.2.1 (by decide),
    (C21_shuffles_stay_in_the_valfile op_of_list [sample_valfile] []
      sample_valfile rfl).2.2.2.1 (by decide)⟩

/-! ## C22: `swap` twice -/

/-- C22: on a valfile from upstream of depth at least two, an `op_swap` fed
by an `op_swap` returns the valfile that upstream produced, the same values
in the same slots. -/
theorem C22_swap_twice_is_identity {σ : Type} (upstream : op σ) (s t : σ)
    (vf : valfile) (hup : upstream.next s = some (some vf, t))
    (hsize : 2 ≤ vf.size) :
    (op_swap (op_swap upstream)).next s = some (some vf, t)
      ∧ ∃ mid, (op_swap upstream).next s = some (some mid, t)
          ∧ op_swap.next (op_swap upstream) s = some (some vf, t)
          ∧ mid.size = vf.size := by
  obtain ⟨rest, b, a, hv⟩ := valfile_split_two vf hsize
  obtain ⟨vals⟩ := vf
  simp only at hv
  subst hv
  have h2 : rest ++ [b, a] = (rest ++ [b]) ++ [a] := by simp
  have h3 : rest ++ [a, b] = (rest ++ [a]) ++ [b] := by simp
  have hfirst : (op_swap upstream).next s
      = some (some (valfile.mk (rest ++ [a, b])), t) := by
    show op_swap.next upstream s = _
    simp only [op_swap.next, hup]
    rw [h2, valfile_pop_concat]
    simp only [valfile_pop_concat, valfile.push, List.append_assoc,
      List.singleton_append]
  have hsecond : op_swap.next (op_swap upstream) s
      = some (some (valfile.mk (rest ++ [b, a])), t) := by
    simp only [op_swap.next, hfirst]
    rw [h3, valfile_pop_concat]
    simp only [valfile_pop_concat, valfile.push, List.append_assoc,
      List.singleton_append]
  exact ⟨hsecond, valfile.mk (rest ++ [a, b]), hfirst, hsecond, by
    simp [valfile.size]⟩

/-- C22 on the sample valfile. -/
theorem C22_swap_twice_is_identity_witness :
    (op_swap (op_swap op_of_list)).next [sample_valfile]
        = some (some sample_valfile, [])
      ∧ ∃ mid, (op_swap op_of_list).next [sample_valfile]
            = some (some mid, [])
          ∧ op_swap.next (op_swap op_of_list) [sample_valfile]
            = some (some sample_valfile, [])
          ∧ mid.size = sample_valfile.size :=
  C22_swap_twice_is_identity op_of_list [sample_valfile] [] sample_valfile rfl
    (by decide)

/-! ## C23: `value_attr::cmp` -/

/-- C23: `value_attr::cmp` is the lexicographic comparison of the pairs of
the offset of the owning DIE and the name of the attribute, and depends on
nothing else: attributes that agree in these two compare alike, and two
attributes of one offset and name compare equal, whatever their Dwarf
context, form and data. -/
theorem C23_attr_cmp_by_offset_and_name (a b : value_attr) :
    a.cmp (value.attr b)
        = some (compare lt_tuple2
            (dwarf_dieoffset a.m_die, dwarf_whatattr a.m_attr)
            (dwarf_dieoffset b.m_die, dwarf_whatattr b.m_attr))
      ∧ (a.cmp (value.attr b) = some cmp_result.less ↔
          dwarf_dieoffset a.m_die < dwarf_dieoffset b.m_die
            ∨ (dwarf_dieoffset a.m_die = dwarf_dieoffset b.m_die
              ∧ dwarf_whatattr a.m_attr < dwarf_whatattr b.m_attr))
      ∧ (a.cmp (value.attr b) = some cmp_result.greater ↔
          dwarf_dieoffset b.m_die < dwarf_dieoffset a.m_die
            ∨ (dwarf_dieoffset a.m_die = dwarf_dieoffset b.m_die
              ∧ dwarf_whatattr b.m_attr < dwarf_whatattr a.m_attr))
      ∧ (a.cmp (value.attr b) = some cmp_result.equal ↔
          dwarf_dieoffset a.m_die = dwarf_dieoffset b.m_die
            ∧ dwarf_whatattr a.m_attr = dwarf_whatattr b.m_attr)
      ∧ (∀ a1 b1 : value_attr,
          dwarf_dieoffset a1.m_die = dwarf_dieoffset a.m_die →
          dwarf_whatattr a1.m_attr = dwarf_whatattr a.m_attr →
          dwarf_dieoffset b1.m_die = dwarf_dieoffset b.m_die →
          dwarf_whatattr b1.m_attr = dwarf_whatattr b.m_attr →
          a1.cmp (value.attr b1) = a.cmp (value.attr b)) := by
  have hless : a.cmp (value.attr b) = some cmp_result.less ↔
      dwarf_dieoffset a.m_die < dwarf_dieoffset b.m_die
        ∨ (dwarf_dieoffset a.m_die = dwarf_dieoffset b.m_die
          ∧ dwarf_whatattr a.m_attr < dwarf_whatattr b.m_attr) := by
    simp only [value_attr.cmp, value.as_attr]
    by_cases h : dwarf_dieoffset a.m_die = dwarf_dieoffset b.m_die
    · simp [h, compare_nat_less_iff]
    · simp [h, compare_nat_less_iff]
  have hgreater : a.cmp (value.attr b) = some cmp_result.greater ↔
      dwarf_dieoffset b.m_die < dwarf_dieoffset a.m_die
        ∨ (dwarf_dieoffset a.m_die = dwarf_dieoffset b.m_die
          ∧ dwarf_whatattr b.m_attr < dwarf_whatattr a.m_attr) := by
    simp only [value_attr.cmp, value.as_attr]
    by_cases h : dwarf_dieoffset a.m_die = dwarf_dieoffset b.m_die
    · simp [h, compare_nat_greater_iff]
    · simp [h, compare_nat_greater_iff]
  have hequal : a.cmp (value.attr b) = some cmp_result.equal ↔
      dwarf_dieoffset a.m_die = dwarf_dieoffset b.m_die
        ∧ dwarf_whatattr a.m_attr = dwarf_whatattr b.m_attr := by
    simp only [value_attr.cmp, value.as_attr]
    by_cases h : dwarf_dieoffset a.m_die = dwarf_dieoffset b.m_die
    · simp [h, compare_nat_equal_iff]
    · simp [h, compare_nat_equal_iff]
  refine ⟨?_, hless, hgreater, hequal, ?_⟩
  · simp only [value_attr.cmp, value.as_attr]
    by_cases h : dwarf_dieoffset a.m_die = dwarf_dieoffset b.m_die
    · simp [h, compare, lt_tuple2, lt_nat]
    · have h1 : dwarf_dieoffset a.m_die < dwarf_dieoffset b.m_die
          ∨ dwarf_dieoffset b.m_die < dwarf_dieoffset a.m_die := by omega
      rcases h1 with h1 | h1
      · have h2 : ¬ dwarf_dieoffset b.m_die < dwarf_dieoffset a.m_die := by
          omega
        simp [h, compare, lt_tuple2, lt_nat, h1, h2]
      · have h2 : ¬ dwarf_dieoffset a.m_die < dwarf_dieoffset b.m_die := by
          omega
        simp [h, compare, lt_tuple2, lt_nat, h1, h2]
  · intro a1 b1 h1 h2 h3 h4
    simp only [value_attr.cmp, value.as_attr, h1, h2, h3, h4]

/-- C23 at two attributes of the name `3` of the DIE at offset `5`, from two
Dwarf contexts and of different forms and data: they compare equal. -/
theorem C23_attr_cmp_by_offset_and_name_witness :
    attr_in_file_1.cmp (value.attr attr_in_file_2) = some cmp_result.equal
      ∧ attr_in_file_2.cmp (value.attr attr_in_file_1)
        = attr_in_file_1.cmp (value.attr attr_in_file_1)
      ∧ attr_in_file_1.m_dwctx ≠ attr_in_file_2.m_dwctx
      ∧ attr_in_file_1.m_attr.form ≠ attr_in_file_2.m_attr.form
      ∧ attr_in_file_1.m_attr.valp ≠ attr_in_file_2.m_attr.valp :=
  ⟨(C23_attr_cmp_by_offset_and_name attr_in_file_1 attr_in_file_2).2.2.2.1.2
      ⟨rfl, rfl⟩,
    (C23_attr_cmp_by_offset_and_name attr_in_file_1 attr_in_file_1).2.2.2.2
      attr_in_file_2 attr_in_file_1 rfl rfl rfl rfl,
    by decide, by decide, by decide⟩

/-! ## C24: the loops of `cmp` stay in bounds -/

theorem tuple3_third {a b c x y z : Nat}
    (h : compare lt_tuple3 (a, b, c) (x, y, z) = cmp_result.equal) : z = c := by
  have h1 := (compare_tuple3_equal_iff _ _).1 h
  simp only [Prod.mk.injEq] at h1
  exact h1.2.2.symm

/-- C24: the loop of `value_loclist_elem::cmp` is reached only when the other
element has the same number of instructions, and the loop of
`value_aset::cmp` only when the other set has the same number of ranges; so
every index of the loop is in bounds on both operands, the loop returns, and
`cmp` returns for all operands. -/
theorem C24_cmp_loops_in_bounds (a b : value_loclist_elem)
    (x y : value_aset) :
    (compare lt_nat a.m_attr.valp b.m_attr.valp = cmp_result.equal →
        compare lt_tuple3 (a.m_low, a.m_high, a.m_exprlen)
          (b.m_low, b.m_high, b.m_exprlen) = cmp_result.equal →
        b.m_exprlen = a.m_exprlen
          ∧ (∀ i, i < a.m_exprlen →
              ∃ opa opb, a.m_expr[i]? = some opa ∧ b.m_expr[i]? = some opb)
          ∧ ∃ r, value_loclist_elem.cmp_loop a.m_expr b.m_expr a.m_exprlen 0
              = some r)
      ∧ (∃ r, a.cmp (value.loclist_elem b) = some r)
      ∧ (compare lt_nat x.cov.length y.cov.length = cmp_result.equal →
        y.cov.length = x.cov.length
          ∧ (∀ i, i < x.cov.length →
              ∃ ra rb, x.cov[i]? = some ra ∧ y.cov[i]? = some rb)
          ∧ ∃ r, value_aset.cmp_loop x.cov y.cov x.cov.length 0 = some r)
      ∧ (∃ r, x.cmp (value.aset y) = some r) := by
  refine ⟨?_, ?_, ?_, ?_⟩
  · intro _ h2
    have hlen : b.m_exprlen = a.m_exprlen := tuple3_third h2
    have hlen1 : b.m_expr.length = a.m_expr.length := hlen
    refine ⟨hlen, ?_, ?_⟩
    · intro i hi
      have hia : i < a.m_expr.length := hi
      have hib : i < b.m_expr.length := by omega
      exact ⟨a.m_expr[i], b.m_expr[i], List.getElem?_eq_getElem hia,
        List.getElem?_eq_getElem hib⟩
    · obtain ⟨r, hr, _⟩ := loclist_loop_total a.m_expr b.m_expr a.m_exprlen 0
        (by simp [value_loclist_elem.m_exprlen])
        (by simp [value_loclist_elem.m_exprlen, hlen1])
      exact ⟨r, hr⟩
  · obtain ⟨r, hr, _⟩ := cmp_loclist_elem_total a b
    exact ⟨r, hr⟩
  · intro h1
    have hlen : y.cov.length = x.cov.length :=
      ((compare_nat_equal_iff _ _).1 h1).symm
    refine ⟨hlen, ?_, ?_⟩
    · intro i hi
      have hib : i < y.cov.length := by omega
      exact ⟨x.cov[i], y.cov[i], List.getElem?_eq_getElem hi,
        List.getElem?_eq_getElem hib⟩
    · obtain ⟨r, hr, _⟩ := aset_loop_total x.cov y.cov x.cov.length 0
        (by simp) (by simp [hlen])
      exact ⟨r, hr⟩
  · obtain ⟨r, hr, _⟩ := cmp_aset_total x y
    exact ⟨r, hr⟩

/-- C24 at two location-list elements of two instructions and two address
sets of two ranges; a loop over a shorter other operand, which the guards
exclude, would reach past its end. -/
theorem C24_cmp_loops_in_bounds_witness :
    (loclist_elem_or.m_exprlen = loclist_elem_and.m_exprlen
        ∧ (∀ i, i < loclist_elem_and.m_exprlen →
            ∃ opa opb, loclist_elem_and.m_expr[i]? = some opa
              ∧ loclist_elem_or.m_expr[i]? = some opb)
        ∧ ∃ r, value_loclist_elem.cmp_loop loclist_elem_and.m_expr
            loclist_elem_or.m_expr loclist_elem_and.m_exprlen 0 = some r)
      ∧ (aset_long.cov.length = aset_short.cov.length
        ∧ (∀ i, i < aset_short.cov.length →
            ∃ ra rb, aset_short.cov[i]? = some ra
              ∧ aset_long.cov[i]? = some rb)
        ∧ ∃ r, value_aset.cmp_loop aset_short.cov aset_long.cov
            aset_short.cov.length 0 = some r)
      ∧ value_loclist_elem.cmp_loop loclist_elem_and.m_expr [] 2 0 = none
      ∧ value_aset.cmp_loop aset_short.cov [] 2 0 = none :=
  ⟨(C24_cmp_loops_in_bounds loclist_elem_and loclist_elem_or aset_short
      aset_long).1 (by decide) (by decide),
    (C24_cmp_loops_in_bounds loclist_elem_and loclist_elem_or aset_short
      aset_long).2.2.1 (by decide),
    by decide, by decide⟩

/-! ## C25: `value_die::cmp` terminates -/

theorem import_length_some (p : Nat) (d : doneness) (c : dwfl_context)
    (die : Dwarf_Die) (i : value_die) :
    (value_die.mk p d c die (some i)).import_length = i.import_length + 1 := by
  simp [value_die.import_length]

/-- With as many nested calls allowed as the shorter import path is long,
and one more, the bounded comparison is the comparison. -/
theorem cmp_die_bounded_enough (a : value_die) :
    ∀ (b : value_die) (fuel : Nat),
      min a.import_length b.import_length < fuel →
      value_die.cmp_die_bounded fuel a b = some (value_die.cmp_die a b) := by
  induction a using value_die.induction_on with
  | h p1 d1 c1 die1 imp1 ih =>
    intro b fuel hf
    obtain ⟨p2, d2, c2, die2, imp2⟩ := b
    cases fuel with
    | zero => omega
    | succ n =>
      cases imp1 with
      | none =>
        unfold value_die.cmp_die_bounded value_die.cmp_die
        simp only [Option.isNone_none, Bool.or_true, Bool.true_or, if_true]
        split_ifs <;> rfl
      | some i1 =>
        cases imp2 with
        | none =>
          unfold value_die.cmp_die_bounded value_die.cmp_die
          simp only [Option.isNone_none, Bool.or_true, if_true]
          split_ifs <;> rfl
        | some i2 =>
          have hrec := ih i1 rfl i2 n (by
            rw [import_length_some, import_length_some] at hf
            omega)
          unfold value_die.cmp_die_bounded value_die.cmp_die
          simp only [hrec]
          split_ifs <;> rfl

/-- C25: `value_die::cmp` returns for all DIEs, the import paths being finite
chains: every nested call is on the import DIEs of both operands, and the
calls never nest deeper than the shorter import path is long. -/
theorem C25_die_cmp_terminates (a b : value_die) (fuel : Nat)
    (h : min a.import_length b.import_length < fuel) :
    ∃ r, value_die.cmp_die_bounded fuel a b = some (some r)
      ∧ a.cmp (value.die b) = some r
      ∧ r ≠ cmp_result.fail := by
  obtain ⟨r, hr, hne⟩ := cmp_die_total a b
  refine ⟨r, ?_, ?_, hne⟩
  · rw [cmp_die_bounded_enough a b fuel h, hr]
  · simp only [value_die.cmp, value.as_die]
    exact hr

/-- C25 at the two DIEs at offset `5` with import paths of length one: two
nested calls are enough, one is not. -/
theorem C25_die_cmp_terminates_witness :
    (∃ r, value_die.cmp_die_bounded 2 die_via_1 die_via_2 = some (some r)
        ∧ die_via_1.cmp (value.die die_via_2) = some r
        ∧ r ≠ cmp_result.fail)
      ∧ min die_via_1.import_length die_via_2.import_length = 1
      ∧ value_die.cmp_die_bounded 1 die_via_1 die_via_2 = none :=
  ⟨C25_die_cmp_terminates die_via_1 die_via_2 2 (by decide), by decide,
    by decide⟩

/-! ## C26: the end of the codes -/

/-- A call of `alloc` that returns, returns a code from 1 to 255. -/
theorem alloc_code_range (st st1 : vtype_statics) (name : String)
    (vt : value_type) (h : value_type.alloc st name = Except.ok (vt, st1)) :
    1 ≤ vt.m_code ∧ vt.m_code ≤ 255 := by
  simp only [value_type.alloc, value_type.construct] at h
  cases hr : value_type.register_name st.names ((st.last + 1) % 256) name with
  | error e => simp [hr] at h
  | ok vtn1 =>
    simp only [hr] at h
    split_ifs at h with h0
    simp only [Except.ok.injEq, Prod.mk.injEq] at h
    have hc : vt.m_code = (st.last + 1) % 256 := by rw [← h.1]
    have hlt : (st.last + 1) % 256 < 256 := Nat.mod_lt _ (by decide)
    omega

/-- One call of `alloc` while codes are left, with the statics it leaves. -/
theorem alloc_next_statics (st : vtype_statics) (name : String)
    (hlast : st.last < 255)
    (hfree : ∀ c, st.last < c → find_vtype_name st.names c = none) :
    value_type.alloc st name
      = Except.ok ({ m_code := st.last + 1 },
          { last := st.last + 1,
            names := st.names ++ [(st.last + 1, name)] }) := by
  have hmod : (st.last + 1) % 256 = st.last + 1 := Nat.mod_eq_of_lt (by omega)
  have hne : st.last + 1 ≠ 0 := by omega
  simp only [value_type.alloc, hmod, value_type.construct,
    register_name_ok _ _ _ (hfree (st.last + 1) (by omega)), hne, if_false]

/-- Calls of `alloc` while codes are left leave the code 0 and the codes
above `last` without a name. -/
theorem alloc_all_leaves_free (names : List String) :
    ∀ st : vtype_statics, st.last + names.length ≤ 255 →
      (∀ c, st.last < c → find_vtype_name st.names c = none) →
      find_vtype_name st.names 0 = none →
      ∃ vts st1, alloc_all st names = Except.ok (vts, st1)
        ∧ vts.map value_type.m_code = List.range' (st.last + 1) names.length
        ∧ st1.last = st.last + names.length
        ∧ (∀ c, st1.last < c → find_vtype_name st1.names c = none)
        ∧ find_vtype_name st1.names 0 = none := by
  induction names with
  | nil => intro st _ hfree hzero; exact ⟨[], st, rfl, rfl, rfl, hfree, hzero⟩
  | cons name rest ih =>
    intro st hlen hfree hzero
    simp only [List.length_cons] at hlen
    have h1 := alloc_next_statics st name (by omega) hfree
    have hfree1 : ∀ c, st.last + 1 < c →
        find_vtype_name (st.names ++ [(st.last + 1, name)]) c = none := by
      intro c hc
      rw [find_vtype_name_append, hfree c (by omega)]
      have : st.last + 1 ≠ c := by omega
      simp [this]
    have hzero1 :
        find_vtype_name (st.names ++ [(st.last + 1, name)]) 0 = none := by
      rw [find_vtype_name_append, hzero]
      simp
    obtain ⟨vts, st2, h2, hc2, hl2, hf2, hz2⟩ :=
      ih { last := st.last + 1, names := st.names ++ [(st.last + 1, name)] }
        (by simp only; omega) hfree1 hzero1
    refine ⟨{ m_code := st.last + 1 } :: vts, st2, ?_, ?_, ?_, hf2, hz2⟩
    · simp only [alloc_all, h1, h2]
    · simp only [List.map_cons, List.length_cons, hc2]
      rfl
    · simp only [List.length_cons] at hl2 ⊢; omega

/-- The call of `alloc` on the counter 255 wraps the counter to 0 and
terminates the program. -/
theorem alloc_at_255 (st : vtype_statics) (name : String)
    (hlast : st.last = 255) (hzero : find_vtype_name st.names 0 = none) :
    value_type.alloc st name
      = Except.error "Ran out of value type identifiers." := by
  simp only [value_type.alloc, hlast, value_type.construct,
    register_name_ok _ _ _ hzero]
  rfl

/-- Calls after a call of `alloc` that has terminated the program do not
return. -/
theorem alloc_all_stops (l1 : List String) :
    ∀ (st st1 : vtype_statics) (vts : List value_type) (name : String)
      (more : List String) (e : String),
      alloc_all st l1 = Except.ok (vts, st1) →
      value_type.alloc st1 name = Except.error e →
      alloc_all st (l1 ++ name :: more) = Except.error e := by
  induction l1 with
  | nil =>
    intro st st1 vts name more e h1 h2
    simp only [alloc_all, Except.ok.injEq, Prod.mk.injEq] at h1
    rw [← h1.2] at h2
    simp only [List.nil_append, alloc_all, h2]
  | cons n rest ih =>
    intro st st1 vts name more e h1 h2
    simp only [alloc_all] at h1
    cases ha : value_type.alloc st n with
    | error e1 => simp [ha] at h1
    | ok r =>
      obtain ⟨vt, st2⟩ := r
      cases hr : alloc_all st2 rest with
      | error e1 => simp [ha, hr] at h1
      | ok q =>
        obtain ⟨vts2, st3⟩ := q
        simp only [ha, hr, Except.ok.injEq, Prod.mk.injEq] at h1
        have h3 := ih st2 st3 vts2 name more e hr (by rw [h1.2]; exact h2)
        rw [List.cons_append, alloc_all]
        simp only [ha, h3]

/-- C26: from the start of the program `value_type::alloc` returns for the
first 255 calls, with the codes 1 to 255; the 256th call, on which the 8-bit
counter wraps to 0, terminates the program with
`Ran out of value type identifiers.` and returns nothing, and so does every
sequence of calls that goes on after it; no call returns the code 0. -/
theorem C26_alloc_runs_out_after_255 (names : List String)
    (h : names.length = 255) (name : String) (more : List String) :
    (∃ vts st,
        alloc_all vtype_statics.initial names = Except.ok (vts, st)
          ∧ vts.map value_type.m_code = List.range' 1 255
          ∧ st.last = 255
          ∧ (st.last + 1) % 256 = 0
          ∧ value_type.alloc st name
            = Except.error "Ran out of value type identifiers.")
      ∧ alloc_all vtype_statics.initial (names ++ name :: more)
        = Except.error "Ran out of value type identifiers."
      ∧ (∀ (st0 st1 : vtype_statics) (n : String) (vt : value_type),
          value_type.alloc st0 n = Except.ok (vt, st1) →
          vt.m_code ≠ 0 ∧ 1 ≤ vt.m_code ∧ vt.m_code ≤ 255) := by
  obtain ⟨vts, st, h1, h2, h3, _, hz⟩ :=
    alloc_all_leaves_free names vtype_statics.initial
      (by simp [vtype_statics.initial, h]) (by intro c _; rfl) rfl
  simp only [vtype_statics.initial, Nat.zero_add, h] at h2 h3
  have hrun := alloc_at_255 st name h3 hz
  refine ⟨⟨vts, st, h1, h2, h3, by rw [h3], hrun⟩, ?_, ?_⟩
  · exact alloc_all_stops names vtype_statics.initial st vts name more _ h1 hrun
  · intro st0 st1 n vt hok
    have hr := alloc_code_range st0 st1 n vt hok
    exact ⟨by omega, hr.1, hr.2⟩

/-- C26 at 255 allocations followed by one more. -/
theorem C26_alloc_runs_out_after_255_witness :
    (∃ vts st,
        alloc_all vtype_statics.initial (List.replicate 255 "T_X")
            = Except.ok (vts, st)
          ∧ vts.map value_type.m_code = List.range' 1 255
          ∧ st.last = 255
          ∧ (st.last + 1) % 256 = 0
          ∧ value_type.alloc st "T_LAST"
            = Except.error "Ran out of value type identifiers.")
      ∧ alloc_all vtype_statics.initial
          (List.replicate 255 "T_X" ++ "T_LAST" :: [])
        = Except.error "Ran out of value type identifiers." :=
  ⟨(C26_alloc_runs_out_after_255 (List.replicate 255 "T_X")
      (List.length_replicate 255 "T_X") "T_LAST" []).1,
    (C26_alloc_runs_out_after_255 (List.replicate 255 "T_X")
      (List.length_replicate 255 "T_X") "T_LAST" []).2.1⟩


end dwgrep
